import Mathlib

/-!
Verification of the object-graph auto-wiring engine (package `inject`).

This file gives a shallow embedding of `inject/inject.go`:
* Go's `reflect.Type` becomes the inductive `Ty` (struct types carry their
  field layout directly, mirroring how reflection exposes `Elem().Field(i)`).
* Go values become `Val`; struct memory lives in a heap of cells
  (`List (List Val)`), a pointer is an index into that heap, and a struct
  field of struct kind holds a reference to a sub-cell (so `field.Addr()`
  taken by the inline branch shares storage with the parent, as in Go).
* `Graph`, `Object`, `Provide`, `Populate`, `populateExplicit`,
  `populateUnnamedInterface`, `buildTypeIndex` and `parseTagCached`
  (including the `reflect.StructTag.Lookup` algorithm of the Go standard
  library that it relies on) are translated operation by operation.
* Errors are the `Err` inductive; the single `panic` call in
  `populateUnnamedInterface` and Go's reflection panics on nil dereference
  are the distinguished outcome `Fail.panicked`; the worklist loop of
  `Populate` takes explicit fuel (private synthesis can genuinely diverge),
  with exhaustion reported as `Fail.fuelOut`.
The tag parse cache (`tagCache`) memoizes a pure function and is dropped;
`parseTag` below is that pure function.  The optional `Logger` is `nil`.
-/

namespace Gontainer

/-- Metadata reflection exposes for one struct field: its name, its raw
struct tag, whether it is exported (`CanSet`) and whether it is an
anonymous (embedded) field. -/
structure FieldInfo where
  name : String
  tag : String
  exported : Bool
  anonymous : Bool
deriving DecidableEq, Repr

/-- Runtime types, as the resolver observes them through `reflect`.
A struct type carries its field layout (name, tag, exported, anonymous,
field type), which is exactly what `Elem().Field(i)` exposes. -/
inductive Ty where
  | tptr : Ty → Ty
  | tstruct : String → List (FieldInfo × Ty) → Ty
  | tiface : String → Ty
  | tmap : Ty
  | tint : Ty
  | tstr : Ty
  | tbool : Ty
deriving Repr

mutual
/-- Boolean equality on types (mutually with field lists). -/
def tyBEq : Ty → Ty → Bool
  | .tptr a, .tptr b => tyBEq a b
  | .tstruct n f, .tstruct n' f' => n == n' && tyFieldsBEq f f'
  | .tiface n, .tiface n' => n == n'
  | .tmap, .tmap => true
  | .tint, .tint => true
  | .tstr, .tstr => true
  | .tbool, .tbool => true
  | _, _ => false

def tyFieldsBEq : List (FieldInfo × Ty) → List (FieldInfo × Ty) → Bool
  | [], [] => true
  | (i, t) :: r, (i', t') :: r' => i == i' && tyBEq t t' && tyFieldsBEq r r'
  | _, _ => false
end

mutual
def tyBEq_refl : ∀ (t : Ty), tyBEq t t = true
  | .tptr a => by simp [tyBEq, tyBEq_refl a]
  | .tstruct n f => by simp [tyBEq, tyFieldsBEq_refl f]
  | .tiface n => by simp [tyBEq]
  | .tmap => rfl
  | .tint => rfl
  | .tstr => rfl
  | .tbool => rfl

def tyFieldsBEq_refl : ∀ (f : List (FieldInfo × Ty)), tyFieldsBEq f f = true
  | [] => rfl
  | (i, t) :: r => by simp [tyFieldsBEq, tyBEq_refl t, tyFieldsBEq_refl r]
end

mutual
def tyBEq_eq : ∀ (a b : Ty), tyBEq a b = true → a = b
  | .tptr x, b, h => by
      cases b <;> simp only [tyBEq] at h <;>
        first
          | exact congrArg Ty.tptr (tyBEq_eq x _ h)
          | exact Bool.noConfusion h
  | .tstruct n f, b, h => by
      cases b <;> simp only [tyBEq, Bool.and_eq_true, beq_iff_eq] at h <;>
        first
          | (rw [h.1]; exact congrArg (Ty.tstruct _) (tyFieldsBEq_eq f _ h.2))
          | exact Bool.noConfusion h
  | .tiface n, b, h => by cases b <;> simp_all [tyBEq]
  | .tmap, b, h => by cases b <;> simp_all [tyBEq]
  | .tint, b, h => by cases b <;> simp_all [tyBEq]
  | .tstr, b, h => by cases b <;> simp_all [tyBEq]
  | .tbool, b, h => by cases b <;> simp_all [tyBEq]

def tyFieldsBEq_eq : ∀ (f g : List (FieldInfo × Ty)), tyFieldsBEq f g = true → f = g
  | [], [], _ => rfl
  | [], _ :: _, h => by simp [tyFieldsBEq] at h
  | _ :: _, [], h => by simp [tyFieldsBEq] at h
  | (i, t) :: r, (i', t') :: r', h => by
      simp only [tyFieldsBEq, Bool.and_eq_true, beq_iff_eq] at h
      rw [h.1.1, tyBEq_eq t t' h.1.2, tyFieldsBEq_eq r r' h.2]
end

instance : DecidableEq Ty := fun a b =>
  if h : tyBEq a b = true then .isTrue (tyBEq_eq a b h)
  else .isFalse (fun hab => h (hab ▸ tyBEq_refl a))

instance : BEq Ty := ⟨fun a b => decide (a = b)⟩

instance : LawfulBEq Ty where
  rfl := by intro a; simp [BEq.beq]
  eq_of_beq := by intro a b h; simpa [BEq.beq] using h

/-- Go values as our heap model sees them.
`vnil` is the nil pointer / nil interface / nil map; `vptr a` points at
heap cell `a`; `vstructRef a` is a struct-kind field whose storage is heap
cell `a` (in Go the field is stored in place; this reference preserves the
aliasing `field.Addr()` creates); `viface t v` is a non-nil interface
value holding concrete value `v` of dynamic type `t`; `vmap` is a non-nil
map (contents are irrelevant to the resolver). -/
inductive Val where
  | vnil : Val
  | vptr : Nat → Val
  | vstructRef : Nat → Val
  | viface : Ty → Val → Val
  | vmap : Val
  | vint : Int → Val
  | vstr : String → Val
  | vbool : Bool → Val
deriving DecidableEq, Repr

/-- Kinds, in the sense of `reflect.Kind`, derived from a type. -/
def isStructKind : Ty → Bool
  | .tstruct _ _ => true
  | _ => false

def isIfaceKind : Ty → Bool
  | .tiface _ => true
  | _ => false

def isMapKind : Ty → Bool
  | .tmap => true
  | _ => false

/-- The source function `isStructPtr`: pointer whose element is a struct. -/
def isStructPtr : Ty → Bool
  | .tptr (.tstruct _ _) => true
  | _ => false

/-- The field layout of a struct type, `none` for any other type. -/
def layoutOf : Ty → Option (List (FieldInfo × Ty))
  | .tstruct _ f => some f
  | _ => none

/-- Interface satisfaction oracle: `impl t n = true` when concrete type `t`
implements the interface named `n`.  This stands in for the method-set
check `reflect` performs; it is a parameter of the whole development. -/
abbrev Impl := Ty → String → Bool

/-- Go `reflect.Type.AssignableTo`: identical types are assignable, and a
concrete type is assignable to an interface type it implements. -/
def assignableTo (impl : Impl) (t target : Ty) : Bool :=
  t == target ||
    (match target with
     | .tiface n => impl t n
     | _ => false)

/-- The heap: cell `a` is the field array of one struct value. -/
abbrev Heap := List (List Val)

def cellAt (h : Heap) (a : Nat) : List Val :=
  (h.get? a).getD []

def slotAt (h : Heap) (a i : Nat) : Val :=
  (cellAt h a).getD i .vnil

def setSlot (h : Heap) (a i : Nat) (v : Val) : Heap :=
  h.set a ((cellAt h a).set i v)

mutual
/-- The source function `isNilOrZero`, switching on the field's kind:
nil for pointer / interface / map kinds, empty for strings, zero for
numbers, `false` for booleans, and recursively all-fields-zero for
struct kinds (reading the struct's storage cell). -/
def isNilOrZero (h : Heap) (v : Val) (t : Ty) : Bool :=
  match t with
  | .tptr _ => v == .vnil
  | .tiface _ => v == .vnil
  | .tmap => v == .vnil
  | .tstr => match v with | .vstr s => s.isEmpty | _ => false
  | .tint => match v with | .vint n => n == 0 | _ => false
  | .tbool => match v with | .vbool b => !b | _ => false
  | .tstruct _ flds =>
      match v with
      | .vstructRef b => zeroFields h flds (cellAt h b) 0
      | _ => false

/-- All fields of a struct cell are zero (the `reflect.Struct` arm). -/
def zeroFields (h : Heap) (flds : List (FieldInfo × Ty)) (cell : List Val) (i : Nat) : Bool :=
  match flds with
  | [] => true
  | (_, ft) :: rest =>
      isNilOrZero h (cell.getD i .vnil) ft && zeroFields h rest cell (i + 1)
end

mutual
/-- The zero value of a type, as produced by `reflect.New`.  Struct kinds
allocate a fresh storage cell (recursively for nested struct fields) and
return a reference to it. -/
def zeroVal (t : Ty) (h : Heap) : Val × Heap :=
  match t with
  | .tstruct _ flds =>
      let zr := zeroValFields flds h
      (.vstructRef zr.2.length, zr.2 ++ [zr.1])
  | .tptr _ => (.vnil, h)
  | .tiface _ => (.vnil, h)
  | .tmap => (.vnil, h)
  | .tint => (.vint 0, h)
  | .tstr => (.vstr "", h)
  | .tbool => (.vbool false, h)

def zeroValFields (flds : List (FieldInfo × Ty)) (h : Heap) : List Val × Heap :=
  match flds with
  | [] => ([], h)
  | (_, ft) :: rest =>
      let zv := zeroVal ft h
      let zr := zeroValFields rest zv.2
      (zv.1 :: zr.1, zr.2)
end

mutual
/-- Storing a struct value copies its contents (`reflect.Value.Set` copies
structs).  In this heap model the copy materialises as a fresh cell tree;
non-struct components (pointers, interfaces, scalars) are copied
verbatim, exactly as Go's shallow struct copy does. -/
def copyVal (t : Ty) (v : Val) (h : Heap) : Val × Heap :=
  match t with
  | .tstruct _ flds =>
      match v with
      | .vstructRef b =>
          let cr := copyValFields flds (cellAt h b) 0 h
          (.vstructRef cr.2.length, cr.2 ++ [cr.1])
      | _ => (v, h)
  | _ => (v, h)

def copyValFields (flds : List (FieldInfo × Ty)) (src : List Val) (i : Nat)
    (h : Heap) : List Val × Heap :=
  match flds with
  | [] => ([], h)
  | (_, ft) :: rest =>
      let cv := copyVal ft (src.getD i .vnil) h
      let cr := copyValFields rest src (i + 1) cv.2
      (cv.1 :: cr.1, cr.2)
end

/-! ### Struct-tag parsing

`parseTagCached` first runs a hand-written malformedness check over the raw
tag string (`strings.Contains` / `strings.HasSuffix` / `strings.Index`),
then falls back to `reflect.StructTag.Lookup` of the Go standard library.
Both are modelled below over `List Char`. -/

/-- Whether `l` begins with `pat`. -/
def chStarts : List Char → List Char → Bool
  | [], _ => true
  | _ :: _, [] => false
  | p :: ps, c :: cs => p == c && chStarts ps cs

/-- Go `strings.Contains`: `pat` occurs somewhere in `l`. -/
def chHas (pat : List Char) : List Char → Bool
  | [] => chStarts pat []
  | l@(_ :: cs) => chStarts pat l || chHas pat cs

/-- Go `strings.HasSuffix`. -/
def chEnds (pat l : List Char) : Bool :=
  pat.length ≤ l.length && l.drop (l.length - pat.length) == pat

/-- Go `strings.Index`: position of the first occurrence of `pat`. -/
def chIdx (pat : List Char) : List Char → Option Nat
  | [] => if chStarts pat [] then some 0 else none
  | l@(_ :: cs) => if chStarts pat l then some 0 else (chIdx pat cs).map (· + 1)

/-- Length of the leading run of characters legal in a struct-tag key
(the scan-to-colon loop of `StructTag.Lookup`). -/
def scanNameLen : List Char → Nat
  | [] => 0
  | c :: cs =>
      if ' ' < c ∧ c ≠ ':' ∧ c ≠ '"' ∧ c.toNat ≠ 0x7f then scanNameLen cs + 1 else 0

/-- The quoted-value scan of `StructTag.Lookup`: given the characters after
the opening quote, the number of characters strictly before the closing
quote (escape pairs count as two); `none` when the quote never closes. -/
def scanQuoted : List Char → Option Nat
  | [] => none
  | '"' :: _ => some 0
  | '\\' :: [] => none
  | '\\' :: _ :: rest => (scanQuoted rest).map (· + 2)
  | _ :: rest => (scanQuoted rest).map (· + 1)

/-- Go `strconv.Unquote` on the text between the quotes.  The common escapes
are handled; exotic escapes are rejected like the original rejects bad
escapes (none of the resolver's tags use any). -/
def unquoteInner : List Char → Option (List Char)
  | [] => some []
  | '\\' :: [] => none
  | '\\' :: e :: rest =>
      if e = '\\' then (unquoteInner rest).map ('\\' :: ·)
      else if e = '"' then (unquoteInner rest).map ('"' :: ·)
      else if e = 'n' then (unquoteInner rest).map ('\n' :: ·)
      else if e = 't' then (unquoteInner rest).map ('\t' :: ·)
      else none
  | '"' :: _ => none
  | c :: rest => (unquoteInner rest).map (c :: ·)

/-- The loop of `reflect.StructTag.Lookup`.  Each iteration strictly
shortens the string, so fuel `length + 1` is always enough. -/
def goLookupLoop (key : List Char) : Nat → List Char → Option (List Char)
  | 0, _ => none
  | fuel + 1, tag =>
      let tag1 := tag.dropWhile (· == ' ')
      if tag1.isEmpty then none
      else
        let i := scanNameLen tag1
        if i = 0 ∨ i + 1 ≥ tag1.length ∨ tag1.getD i ' ' ≠ ':' ∨ tag1.getD (i + 1) ' ' ≠ '"'
        then none
        else
          let name := tag1.take i
          let rest := tag1.drop (i + 1)
          match scanQuoted (rest.drop 1) with
          | none => none
          | some k =>
              if name == key then unquoteInner ((rest.drop 1).take k)
              else goLookupLoop key fuel (rest.drop (k + 2))

/-- Go `reflect.StructTag.Lookup`. -/
def goLookup (key tag : List Char) : Option (List Char) :=
  goLookupLoop key (tag.length + 1) tag

/-- A parsed `inject` directive. -/
structure Tag where
  name : String
  inline : Bool
  priv : Bool
deriving DecidableEq, Repr

def injectOnly : Tag := ⟨"", false, false⟩
def injectPrivate : Tag := ⟨"", false, true⟩
def injectInline : Tag := ⟨"", true, false⟩

/-- Go `unicode.IsSpace` restricted to the whitespace that can appear in a
struct tag. -/
def goIsSpace (c : Char) : Bool :=
  c == ' ' || c == '\t' || c == '\n' || c == '\r'

/-- Go `strings.TrimSpace`. -/
def trimSpace (l : List Char) : List Char :=
  ((l.dropWhile goIsSpace).reverse.dropWhile goIsSpace).reverse

def markerColon : List Char := "inject:".data

def markerQuote : List Char := "inject:\"".data

/-- The source function `parseTagCached` without its (semantically transparent) memoization:
the malformedness pre-check, then `Lookup`, then the directive switch.
`Except.error` is the malformed-tag error; `.ok none` means the field
carries no directive. -/
def parseTag (tagStr : String) : Except Unit (Option Tag) :=
  let s := tagStr.data
  let malformed : Bool :=
    chHas markerColon s &&
      (chEnds markerColon s ||
        (chHas markerQuote s &&
          (let rem := s.drop ((chIdx markerQuote s).getD 0 + 8)
           rem.isEmpty || (!chHas ['"'] rem && !chHas [' '] rem))))
  if malformed then .error ()
  else
    match goLookup "inject".data s with
    | none => .ok none
    | some v =>
        if v = [] then .ok (some injectOnly)
        else if v = "inline".data then .ok (some injectInline)
        else if v = "private".data then .ok (some injectPrivate)
        else .ok (some { name := String.mk (trimSpace (v.takeWhile (· ≠ ','))),
                         inline := false, priv := false })

/-! ### Objects, the graph, and `Provide` -/

/-- An `Object` in the graph.  `fields` is `none` for a nil Go map and
`some l` for a present map with entries `l` (field name ↦ id of the
object that satisfied it).  `reflectType` is the dynamic type of `value`
(`reflect.TypeOf(o.Value)`), supplied by whoever constructs the object.
`priv` is the unexported `private` flag. -/
structure Object where
  value : Val
  name : String
  complete : Bool
  fields : Option (List (String × Nat))
  reflectType : Ty
  priv : Bool
  created : Bool
  embedded : Bool
deriving DecidableEq, Repr

instance : Inhabited Object := ⟨⟨.vnil, "", false, none, .tint, false, false, false⟩⟩

/-- The graph.  Objects live in `objs` and are referenced by index;
`unnamed`, `named` and the lazily built `typeIndex` hold indices.
`cells` is the struct heap.  The `Logger` is nil and the pure tag cache
is dropped. -/
structure GState where
  objs : List Object
  cells : Heap
  unnamed : List Nat
  unnamedType : List Ty
  named : List (String × Nat)
  typeIndex : Option (List (Ty × List Nat))
deriving DecidableEq, Repr

def GState.empty : GState := ⟨[], [], [], [], [], none⟩

def objAt (g : GState) (oid : Nat) : Object :=
  (g.objs.get? oid).getD default

def lookupNamed (g : GState) (n : String) : Option Nat :=
  (g.named.find? (fun p => p.1 == n)).map (·.2)

/-- Go map insert, as a shadowing association-list entry: the `Fields`
map is only ever read through keyed lookup, so this is observationally
the map write. -/
def upsert (l : List (String × Nat)) (k : String) (v : Nat) : List (String × Nat) :=
  (k, v) :: l

/-- Keyed lookup in a `Fields` map. -/
def lookupField (fo : Option (List (String × Nat))) (k : String) : Option Nat :=
  (((fo.getD []).find? (·.1 == k)).map (·.2))

/-- The method `Object.addDep`: record in `oid`'s `Fields` map that field `fname`
was satisfied by object `eid` (creating the map if nil). -/
def addDep (g : GState) (oid : Nat) (fname : String) (eid : Nat) : GState :=
  let o := objAt g oid
  { g with objs := g.objs.set oid { o with fields := some (upsert (o.fields.getD []) fname eid) } }

/-- The error taxonomy of `Provide` / `Populate` (each constructor is one
`fmt.Errorf` site of the source). -/
inductive Err where
  | preWired : Err
  | shapeViolation : Err
  | duplicateType : Ty → Err
  | duplicateName : String → Err
  | badTagFormat : Err
  | unexported : Err
  | inlineNonStruct : Err
  | missingNamed : String → Err
  | typeMismatch : Err
  | privateInline : Err
  | inlineRequired : Err
  | mapNotPrivate : Err
  | unsupportedField : Err
  | privateInterface : Err
  | noImpl : String → Err
  | ambiguous : String → Ty → Ty → Err
deriving DecidableEq, Repr

/-- Outcome of a resolver step: an `Err`, the `panic` in
`populateUnnamedInterface` (or a reflection panic on a nil dereference),
or exhaustion of the explicit fuel of the worklist loop. -/
inductive Fail where
  | err : Err → Fail
  | panicked : Fail
  | fuelOut : Fail
deriving DecidableEq, Repr

/-- The method `Graph.Provide` for a single object: validation, then insertion. -/
def provide1 (g : GState) (o : Object) : GState × Option Err :=
  if o.fields ≠ none then (g, some .preWired)
  else if o.name = "" then
    if ¬ isStructPtr o.reflectType then (g, some .shapeViolation)
    else if ¬ o.priv ∧ o.reflectType ∈ g.unnamedType then
      (g, some (.duplicateType o.reflectType))
    else
      ({ g with objs := g.objs ++ [o],
                unnamedType := if o.priv then g.unnamedType
                               else g.unnamedType ++ [o.reflectType],
                unnamed := g.unnamed ++ [g.objs.length] }, none)
  else
    match lookupNamed g o.name with
    | some _ => (g, some (.duplicateName o.name))
    | none => ({ g with objs := g.objs ++ [o],
                        named := g.named ++ [(o.name, g.objs.length)] }, none)

/-- The method `Graph.Provide` over a batch: stops at the first failing object,
keeping everything added so far (the Go method mutates the receiver as
it goes). -/
def provide (g : GState) : List Object → GState × Option Err
  | [] => (g, none)
  | o :: rest =>
      match provide1 g o with
      | (g', none) => provide g' rest
      | r => r

/-! ### The type index -/

def idxLookup (idx : List (Ty × List Nat)) (t : Ty) : List Nat :=
  ((idx.find? (·.1 == t)).map (·.2)).getD []

/-- The update `g.typeIndex[t] = append(g.typeIndex[t], obj)`: a Go map update,
modelled as a shadowing association-list entry (the index is only ever
read through keyed lookup, so this is observationally the map update). -/
def idxAdd (idx : List (Ty × List Nat)) (t : Ty) (eid : Nat) : List (Ty × List Nat) :=
  (t, idxLookup idx t ++ [eid]) :: idx

/-- The source function `buildTypeIndex`: index all non-private unnamed objects by concrete
type.  Built once; never refreshed when objects are synthesized later. -/
def buildTypeIndex (g : GState) : List (Ty × List Nat) :=
  g.unnamed.foldl (fun idx eid =>
    let e := objAt g eid
    if e.priv then idx else idxAdd idx e.reflectType eid) []

def ensureIndex (g : GState) : GState × List (Ty × List Nat) :=
  match g.typeIndex with
  | some idx => (g, idx)
  | none =>
      let idx := buildTypeIndex g
      ({ g with typeIndex := some idx }, idx)

/-! ### Phase 1: `populateExplicit` -/

/-- The call `field.Set(reflect.ValueOf(existing.Value))`, by field kind: an
interface field captures the source's dynamic type and value, a struct
field receives a copy of the struct contents, anything else stores the
value itself. -/
def setFromObject (ft : Ty) (e : Object) (h : Heap) : Val × Heap :=
  if isIfaceKind ft then (.viface e.reflectType e.value, h)
  else if isStructKind ft then copyVal ft e.value h
  else (e.value, h)

/-- The reuse lookup of the non-private pointer branch: build the type
index if missing, try the exact-type candidates first, then fall back to
the linear assignability scan over all unnamed objects. -/
def findExisting (impl : Impl) (g : GState) (ft : Ty) : GState × Option Nat :=
  let (g1, idx) := ensureIndex g
  match (idxLookup idx ft).find? (fun eid => !(objAt g1 eid).priv) with
  | some eid => (g1, some eid)
  | none =>
      (g1, g1.unnamed.find? (fun eid =>
            let e := objAt g1 eid
            !e.priv && assignableTo impl e.reflectType ft))

/-- Assign existing object `eid` to field `i` of cell `a` and record the
dependency edge. -/
def assignReuse (g : GState) (oid a i : Nat) (fname : String) (ft : Ty) (eid : Nat) : GState :=
  let vh := setFromObject ft (objAt g eid) g.cells
  addDep { g with cells := setSlot vh.2 a i vh.1 } oid fname eid

/-- Synthesize a fresh zero value of the pointee type (`reflect.New`),
provide it to the graph as a created (possibly private) object, assign
it to the field and record the edge. -/
def synthNew (g : GState) (oid a i : Nat) (fname : String) (ft : Ty) (isPriv : Bool) :
    GState × Option Fail :=
  match ft with
  | .tptr (.tstruct _ flds) =>
      let zr := zeroValFields flds g.cells
      let addr := zr.2.length
      let nid := g.objs.length
      let nobj : Object := { value := .vptr addr, name := "", complete := false, fields := none,
                             reflectType := ft, priv := isPriv, created := true, embedded := false }
      let pr := provide1 { g with cells := zr.2 ++ [zr.1] } nobj
      match pr.2 with
      | some e => (pr.1, some (.err e))
      | none =>
          (addDep { pr.1 with cells := setSlot pr.1.cells a i (.vptr addr) } oid fname nid, none)
  | _ => (g, some .panicked)

/-- One field of `populateExplicit`'s struct loop, in source order:
tag parse errors, tagless skip, unexported check, inline-on-non-struct
check, dont-overwrite check, named branch, inline struct branch,
interface deferral, map branch, unsupported-kind check, and finally the
pointer reuse-or-synthesize branch. -/
def peField (impl : Impl) (g : GState) (oid a i : Nat) (fi : FieldInfo) (ft : Ty) :
    GState × Option Fail :=
  match parseTag fi.tag with
  | .error _ => (g, some (.err .badTagFormat))
  | .ok none => (g, none)
  | .ok (some tg) =>
      if ¬ fi.exported then (g, some (.err .unexported))
      else if tg.inline ∧ ¬ isStructKind ft then (g, some (.err .inlineNonStruct))
      else if ¬ isNilOrZero g.cells (slotAt g.cells a i) ft then (g, none)
      else if tg.name ≠ "" then
        match lookupNamed g tg.name with
        | none => (g, some (.err (.missingNamed tg.name)))
        | some eid =>
            if ¬ assignableTo impl (objAt g eid).reflectType ft then
              (g, some (.err .typeMismatch))
            else (assignReuse g oid a i fi.name ft eid, none)
      else if isStructKind ft then
        if tg.priv then (g, some (.err .privateInline))
        else if ¬ tg.inline then (g, some (.err .inlineRequired))
        else
          match slotAt g.cells a i with
          | .vstructRef sub =>
              let child : Object := { value := .vptr sub, name := "", complete := false,
                                      fields := none, reflectType := .tptr ft, priv := true,
                                      created := false, embedded := fi.anonymous }
              match provide1 g child with
              | (g', none) => (g', none)
              | (g', some e) => (g', some (.err e))
          | _ => (g, none)
      else if isIfaceKind ft then (g, none)
      else if isMapKind ft then
        if ¬ tg.priv then (g, some (.err .mapNotPrivate))
        else ({ g with cells := setSlot g.cells a i .vmap }, none)
      else if ¬ isStructPtr ft then (g, some (.err .unsupportedField))
      else if ¬ tg.priv then
        match findExisting impl g ft with
        | (g', some eid) => (assignReuse g' oid a i fi.name ft eid, none)
        | (g', none) => synthNew g' oid a i fi.name ft tg.priv
      else synthNew g oid a i fi.name ft tg.priv

def peLoop (impl : Impl) (oid a : Nat) :
    GState → Nat → List (FieldInfo × Ty) → GState × Option Fail
  | g, _, [] => (g, none)
  | g, i, (fi, ft) :: rest =>
      match peField impl g oid a i fi ft with
      | (g', none) => peLoop impl oid a g' (i + 1) rest
      | r => r

/-- The source function `populateExplicit`: skip named objects whose value is not a struct
pointer; dereference the object's pointer (a nil or non-pointer value
makes reflection panic) and run the struct loop. -/
def populateExplicit (impl : Impl) (g : GState) (oid : Nat) : GState × Option Fail :=
  let o := objAt g oid
  if o.name ≠ "" ∧ ¬ isStructPtr o.reflectType then (g, none)
  else
    match o.reflectType, o.value with
    | .tptr (.tstruct _ flds), .vptr a => peLoop impl oid a g 0 flds
    | _, _ => (g, some .panicked)

/-! ### Phase 2: `populateUnnamedInterface` -/

/-- The find-one-and-only-one scan over all unnamed objects: skip private
objects, assign the first assignable one (and record the edge), error
with both candidates once a second one is found, error with no-assignable
if none was found. -/
def ifaceScan (impl : Impl) (oid a i : Nat) (fname : String) (ft : Ty) :
    GState → Option Nat → List Nat → GState × Option Fail
  | g, found, [] =>
      match found with
      | none => (g, some (.err (.noImpl fname)))
      | some _ => (g, none)
  | g, found, eid :: rest =>
      let e := objAt g eid
      if e.priv then ifaceScan impl oid a i fname ft g found rest
      else if assignableTo impl e.reflectType ft then
        match found with
        | some fid => (g, some (.err (.ambiguous fname (objAt g fid).reflectType e.reflectType)))
        | none =>
            let g2 := addDep { g with cells := setSlot g.cells a i (.viface e.reflectType e.value) }
                        oid fname eid
            ifaceScan impl oid a i fname ft g2 (some eid) rest
      else ifaceScan impl oid a i fname ft g found rest

/-- One field of `populateUnnamedInterface`'s loop, in source order:
tag parse errors, tagless skip, non-interface skip, private-interface
error, dont-overwrite check, the named-directive panic, then the scan. -/
def puiField (impl : Impl) (g : GState) (oid a i : Nat) (fi : FieldInfo) (ft : Ty) :
    GState × Option Fail :=
  match parseTag fi.tag with
  | .error _ => (g, some (.err .badTagFormat))
  | .ok none => (g, none)
  | .ok (some tg) =>
      if ¬ isIfaceKind ft then (g, none)
      else if tg.priv then (g, some (.err .privateInterface))
      else if ¬ isNilOrZero g.cells (slotAt g.cells a i) ft then (g, none)
      else if tg.name ≠ "" then (g, some .panicked)
      else ifaceScan impl oid a i fi.name ft g none g.unnamed

def puiLoop (impl : Impl) (oid a : Nat) :
    GState → Nat → List (FieldInfo × Ty) → GState × Option Fail
  | g, _, [] => (g, none)
  | g, i, (fi, ft) :: rest =>
      match puiField impl g oid a i fi ft with
      | (g', none) => puiLoop impl oid a g' (i + 1) rest
      | r => r

def populateUnnamedInterface (impl : Impl) (g : GState) (oid : Nat) : GState × Option Fail :=
  let o := objAt g oid
  if o.name ≠ "" ∧ ¬ isStructPtr o.reflectType then (g, none)
  else
    match o.reflectType, o.value with
    | .tptr (.tstruct _ flds), .vptr a => puiLoop impl oid a g 0 flds
    | _, _ => (g, some .panicked)

/-! ### `Populate` -/

/-- The first loop of `Populate`: `populateExplicit` over the named
objects (Go iterates the map in unspecified order; we use insertion
order), skipping complete ones. -/
def phase1Named (impl : Impl) : GState → List Nat → GState × Option Fail
  | g, [] => (g, none)
  | g, oid :: rest =>
      if (objAt g oid).complete then phase1Named impl g rest
      else
        match populateExplicit impl g oid with
        | (g', none) => phase1Named impl g' rest
        | r => r

/-- The index-based worklist over `unnamed`, which grows as objects are
synthesized; the loop runs until the index catches up with the length.
Private synthesis can make this genuinely diverge, hence the fuel. -/
def phase1Worklist (impl : Impl) : Nat → GState → Nat → GState × Option Fail
  | 0, g, i => if i = g.unnamed.length then (g, none) else (g, some .fuelOut)
  | fuel + 1, g, i =>
      if i = g.unnamed.length then (g, none)
      else
        let oid := g.unnamed.getD i 0
        if (objAt g oid).complete then phase1Worklist impl fuel g (i + 1)
        else
          match populateExplicit impl g oid with
          | (g', none) => phase1Worklist impl fuel g' (i + 1)
          | r => r

def phase2Unnamed (impl : Impl) : GState → List Nat → GState × Option Fail
  | g, [] => (g, none)
  | g, oid :: rest =>
      if (objAt g oid).complete then phase2Unnamed impl g rest
      else
        match populateUnnamedInterface impl g oid with
        | (g', none) => phase2Unnamed impl g' rest
        | r => r

def phase2Named (impl : Impl) : GState → List Nat → GState × Option Fail
  | g, [] => (g, none)
  | g, oid :: rest =>
      if (objAt g oid).complete then phase2Named impl g rest
      else
        match populateUnnamedInterface impl g oid with
        | (g', none) => phase2Named impl g' rest
        | r => r

/-- Phase 1 of `Populate`: named objects first, then the unnamed
worklist. -/
def phase1 (impl : Impl) (fuel : Nat) (g : GState) : GState × Option Fail :=
  match phase1Named impl g (g.named.map (·.2)) with
  | (g1, none) => phase1Worklist impl fuel g1 0
  | r => r

/-- Phase 2 of `Populate`: interface resolution over unnamed then named
objects. -/
def phase2 (impl : Impl) (g : GState) : GState × Option Fail :=
  match phase2Unnamed impl g g.unnamed with
  | (g1, none) => phase2Named impl g1 (g1.named.map (·.2))
  | r => r

/-- The method `Graph.Populate`. -/
def populate (impl : Impl) (fuel : Nat) (g : GState) : GState × Option Fail :=
  match phase1 impl fuel g with
  | (g1, none) => phase2 impl g1
  | r => r

/-! ### Concrete scenario used by witnesses and counterexamples -/

/-- An empty record type. -/
def tyD : Ty := .tstruct "D" []

/-- A record with one plainly injected pointer field. -/
def tyS : Ty :=
  .tstruct "S" [({ name := "F", tag := "inject:\"\"", exported := true, anonymous := false },
                 .tptr tyD)]

/-- An interface oracle that never matches. -/
def noImplF : Impl := fun _ _ => false

/-! ### C6: the pre-wired check tests map presence, not emptiness -/

/-- A providable object of type `*D` whose `Fields` map is present but
holds no entries (a non-nil empty Go map). -/
def emptyFieldsObj : Object :=
  { value := .vptr 0, name := "", complete := false, fields := some [],
    reflectType := .tptr tyD, priv := false, created := false, embedded := false }

/-! ### C5: a failing batch is partially added -/

/-- A valid object of type `*D` at cell 0. -/
def goodObjD : Object :=
  { value := .vptr 0, name := "", complete := false, fields := none,
    reflectType := .tptr tyD, priv := false, created := false, embedded := false }

/-- The provide-time invariant: unnamed ids are in range, unnamed objects
are struct pointers, every non-private unnamed object's type is
registered in `unnamedType`, and no two distinct unnamed entries are
non-private with the same concrete type. -/
def ProvideInv (g : GState) : Prop :=
  (∀ oid ∈ g.unnamed, oid < g.objs.length) ∧
  (∀ oid ∈ g.unnamed, isStructPtr (objAt g oid).reflectType = true) ∧
  (∀ oid ∈ g.unnamed, (objAt g oid).priv = false → (objAt g oid).reflectType ∈ g.unnamedType) ∧
  g.unnamed.Pairwise (fun i j =>
    ¬((objAt g i).priv = false ∧ (objAt g j).priv = false ∧
      (objAt g i).reflectType = (objAt g j).reflectType))

/-- A named non-struct-pointer object for the C10 witness. -/
def cfgObj : Object :=
  { value := .vint 3, name := "cfg", complete := false, fields := none,
    reflectType := .tint, priv := false, created := false, embedded := false }

/-! ### The type index and the reuse lookup (C1, C3) -/

/-- Reading `objAt` over a raw object store, for transporting facts between
states whose `objs` coincide. -/
def objAtL (objs : List Object) (oid : Nat) : Object :=
  (objs.get? oid).getD default

/-- Soundness of a type index with respect to an object store: every
indexed id is an unnamed, non-private object of exactly the key type. -/
def IdxWF (objs : List Object) (unnamed : List Nat) (idx : List (Ty × List Nat)) : Prop :=
  ∀ t : Ty, ∀ eid ∈ idxLookup idx t,
    eid ∈ unnamed ∧ (objAtL objs eid).priv = false ∧ (objAtL objs eid).reflectType = t

/-- A graph's lazily built index, when present, is sound.  Soundness does
not require completeness: objects synthesized after the index was built
are legitimately absent from it, exactly the documented staleness. -/
def TypeIndexWF (g : GState) : Prop :=
  ∀ idx, g.typeIndex = some idx → IdxWF g.objs g.unnamed idx

/-- The consumer object for the C1/C3 witnesses: a `*S` whose single
field is a plain `*D`. -/
def consObjS : Object :=
  { value := .vptr 1, name := "", complete := false, fields := none,
    reflectType := .tptr tyS, priv := false, created := false, embedded := false }

/-- The field metadata of `tyS`'s field `F`. -/
def fiF : FieldInfo := { name := "F", tag := "inject:\"\"", exported := true, anonymous := false }

/-- A graph holding one provider `*D` and one consumer `*S`, index not
yet built. -/
def gC1 : GState :=
  { objs := [goodObjD, consObjS], cells := [[], [.vnil]], unnamed := [0, 1],
    unnamedType := [.tptr tyD, .tptr tyS], named := [], typeIndex := none }

/-- The object `reflect.New` plus `Provide` create during synthesis. -/
def createdObj (ft : Ty) (addr : Nat) (isPriv : Bool) : Object :=
  { value := .vptr addr, name := "", complete := false, fields := none,
    reflectType := ft, priv := isPriv, created := true, embedded := false }

/-- The private-field metadata used by the C3 witness. -/
def fiC : FieldInfo :=
  { name := "C", tag := "inject:\"private\"", exported := true, anonymous := false }

/-- A record with one privately injected `*D` field. -/
def tyP : Ty := .tstruct "P" [(fiC, .tptr tyD)]

def objP1 : Object :=
  { value := .vptr 0, name := "", complete := false, fields := none,
    reflectType := .tptr tyP, priv := false, created := false, embedded := false }

def objP2 : Object :=
  { value := .vptr 1, name := "", complete := false, fields := none,
    reflectType := .tptr tyP, priv := false, created := false, embedded := false }

/-- Two consumers, each with a private `*D` field. -/
def gP : GState :=
  { objs := [objP1, objP2], cells := [[.vnil], [.vnil]], unnamed := [0, 1],
    unnamedType := [.tptr tyP], named := [], typeIndex := none }

/-- The state after the interface scan assigns match `e` into the slot
and records the edge (abbreviation for proofs). -/
def ifaceAssignState (g : GState) (oid a i : Nat) (fname : String) (e : Nat) : GState :=
  addDep { g with
    cells := setSlot g.cells a i (.viface (objAt g e).reflectType (objAt g e).value) }
    oid fname e

/-- The interface type and consumer used by the C2 witness. -/
def tyI : Ty := .tiface "I"

def fiX : FieldInfo := { name := "X", tag := "inject:\"\"", exported := true, anonymous := false }

def tyC : Ty := .tstruct "C" [(fiX, tyI)]

def objD0 : Object :=
  { value := .vptr 0, name := "", complete := false, fields := none,
    reflectType := .tptr tyD, priv := false, created := false, embedded := false }

def objC1 : Object :=
  { value := .vptr 1, name := "", complete := false, fields := none,
    reflectType := .tptr tyC, priv := false, created := false, embedded := false }

/-- One concrete implementation `*D` plus one consumer with a plain
interface field. -/
def gI : GState :=
  { objs := [objD0, objC1], cells := [[], [.vnil]], unnamed := [0, 1],
    unnamedType := [.tptr tyD, .tptr tyC], named := [], typeIndex := none }

/-- Oracle stating that `*D` implements interface `I`. -/
def implD : Impl := fun t n => t == .tptr tyD && n == "I"

/-- The resolver-step invariant for complete objects: the record of every
complete object is preserved verbatim, and no object acquires the
complete flag. -/
def CompletePres (g g' : GState) : Prop :=
  (∀ j, (objAt g j).complete = true → objAt g' j = objAt g j) ∧
  (∀ j, (objAt g' j).complete = true → (objAt g j).complete = true)

/-- A complete object of type `*S` whose pointer targets cell 0. -/
def objShared : Object :=
  { value := .vptr 0, name := "", complete := true, fields := none,
    reflectType := .tptr tyS, priv := false, created := false, embedded := false }

/-- An incomplete named object aliasing the same `*S` pointer. -/
def objAlias : Object :=
  { value := .vptr 0, name := "b", complete := false, fields := none,
    reflectType := .tptr tyS, priv := false, created := false, embedded := false }

/-- The aliased graph: the complete unnamed object and the incomplete named
object share the same underlying struct (cell 0), whose injected field is
still nil. -/
def gC8 : GState :=
  { objs := [objShared, objAlias], cells := [[.vnil]], unnamed := [0],
    unnamedType := [.tptr tyS], named := [("b", 1)], typeIndex := none }

/-! ### C9: heap typing, the step-evolution invariant, and phase-2 panic-freedom -/

/-- A struct field layout, as carried by `Ty.tstruct`. -/
abbrev Layout := List (FieldInfo × Ty)

/-- Well-shapedness of a value at a static type, relative to a typing `wt`
assigning struct layouts to heap cells.  It captures what Go reflection
guarantees of every real value: a value's representation matches its
type's kind, a non-nil struct pointer targets a cell laid out by the
pointee's field list, an inline struct reference likewise, and a non-nil
interface holds a value of a concrete (non-interface) dynamic type. -/
def valOk (wt : List (Option Layout)) : Ty → Val → Bool
  | t, .vnil =>
      (match t with
       | .tptr _ => true
       | .tiface _ => true
       | .tmap => true
       | _ => false)
  | t, .vptr b =>
      (match t with
       | .tptr (.tstruct _ flds) => decide ((wt.get? b).getD none = some flds)
       | _ => false)
  | t, .vstructRef b =>
      (match t with
       | .tstruct _ flds => decide ((wt.get? b).getD none = some flds)
       | _ => false)
  | t, .viface dt w =>
      (match t with
       | .tiface _ => !(isIfaceKind dt) && valOk wt dt w
       | _ => false)
  | t, .vmap => isMapKind t
  | t, .vint _ => (match t with | .tint => true | _ => false)
  | t, .vstr _ => (match t with | .tstr => true | _ => false)
  | t, .vbool _ => (match t with | .tbool => true | _ => false)

/-- A cell stores at least the slots of its layout, each well-shaped at
the corresponding field type. -/
def cellOk (wt : List (Option Layout)) (flds : Layout) (cell : List Val) : Prop :=
  flds.length ≤ cell.length ∧
  ∀ i fi ft, flds.get? i = some (fi, ft) → valOk wt ft (cell.getD i .vnil) = true

/-- The typing covers the whole heap and every typed cell is well-formed. -/
def heapWF (wt : List (Option Layout)) (h : Heap) : Prop :=
  wt.length = h.length ∧
  ∀ a flds, (wt.get? a).getD none = some flds → cellOk wt flds (cellAt h a)

/-- Every object's value is well-shaped at its reflect type, and no
reflect type is an interface kind (`reflect.TypeOf` always reports the
concrete dynamic type). -/
def objsOk (wt : List (Option Layout)) (g : GState) : Prop :=
  ∀ j, j < g.objs.length →
    valOk wt (objAt g j).reflectType (objAt g j).value = true ∧
    isIfaceKind (objAt g j).reflectType = false

/-- The whole-graph well-formedness invariant, relative to a cell typing:
heap and objects are well-shaped, the named and unnamed registries point
into the object store, and the lazily built type index (when present) is
sound. -/
def HInv (wt : List (Option Layout)) (g : GState) : Prop :=
  heapWF wt g.cells ∧ objsOk wt g ∧
  (∀ p ∈ g.named, p.2 < g.objs.length) ∧
  (∀ oid ∈ g.unnamed, oid < g.objs.length) ∧
  TypeIndexWF g

/-- The cell typing only ever grows. -/
def WtExt (wt wt' : List (Option Layout)) : Prop := ∃ ext, wt' = wt ++ ext

/-- What every resolver step preserves: objects are only appended and
their records change at most in the `fields` map, the unnamed list only
grows, the named map is untouched, and a slot that holds a non-nil value
never becomes nil again. -/
def Evo (g g' : GState) : Prop :=
  g.objs.length ≤ g'.objs.length ∧
  (∀ j, j < g.objs.length →
    (objAt g' j).value = (objAt g j).value ∧
    (objAt g' j).name = (objAt g j).name ∧
    (objAt g' j).reflectType = (objAt g j).reflectType ∧
    (objAt g' j).complete = (objAt g j).complete ∧
    (objAt g' j).priv = (objAt g j).priv) ∧
  (∃ ext, g'.unnamed = g.unnamed ++ ext) ∧
  g'.named = g.named ∧
  (∀ a i, slotAt g.cells a i ≠ .vnil → slotAt g'.cells a i ≠ .vnil)

/-- Per-field phase-2 safety of a cell: every interface-kind field that
carries a named directive already holds a non-nil value. -/
def SafeFields (g : GState) (a : Nat) : Nat → Layout → Prop
  | _, [] => True
  | i, (fi, ft) :: rest =>
      (∀ tg', parseTag fi.tag = .ok (some tg') → isIfaceKind ft = true →
        tg'.name ≠ "" → slotAt g.cells a i ≠ .vnil) ∧
      SafeFields g a (i + 1) rest

/-- The object is safe for phase 2: it is either skipped by the
named-value guard, or its struct cell satisfies `SafeFields`. -/
def PuiSafe (g : GState) (oid : Nat) : Prop :=
  ((objAt g oid).name ≠ "" ∧ isStructPtr (objAt g oid).reflectType = false) ∨
  (∃ sn flds a, (objAt g oid).reflectType = .tptr (.tstruct sn flds) ∧
     (objAt g oid).value = .vptr a ∧ SafeFields g a 0 flds)

/-- The cell typing of the C2 scenario graph. -/
def wtI : List (Option Layout) := [some [], some [(fiX, tyI)]]

/-! ### General helper lemmas -/

theorem provide1_err_state (g : GState) (o : Object) (g1 : GState) (e : Err)
    (hp : provide1 g o = (g1, some e)) : g1 = g := by
  unfold provide1 at hp
  split at hp
  · injection hp with h1 h2; exact h1.symm
  · split at hp
    · split at hp
      · injection hp with h1 h2; exact h1.symm
      · split at hp
        · injection hp with h1 h2; exact h1.symm
        · injection hp with h1 h2; simp at h2
    · split at hp
      · injection hp with h1 h2; exact h1.symm
      · injection hp with h1 h2; simp at h2

/-- C6 counterexample: an object whose `Fields` map is empty (it holds no
entries) is nevertheless rejected by the pre-wired rule, because the code
tests `o.Fields != nil` and an empty non-nil map passes that test.  The
claim says such an object is never rejected by this rule. -/
theorem provide_preWired_empty_map_cex :
    emptyFieldsObj.fields = some [] ∧
    provide1 GState.empty emptyFieldsObj = (GState.empty, some .preWired) := by
  constructor
  · rfl
  · rfl

/-- C6 amended: `Provide` rejects an object with the pre-wired error
exactly when its `Fields` map is non-nil — whether or not the map holds
entries; an object whose `Fields` map is nil is never rejected by this
rule. -/
theorem provide_preWired_iff_fields_present (g : GState) (o : Object) :
    (provide1 g o).2 = some .preWired ↔ o.fields ≠ none := by
  by_cases hf : o.fields = none
  · refine iff_of_false ?_ (by simp [hf])
    unfold provide1
    rw [if_neg (by simp [hf])]
    split
    · split
      · simp
      · split
        · simp
        · simp
    · split
      · simp
      · simp
  · exact iff_of_true (by unfold provide1; rw [if_pos hf]) hf

/-- C6 witness. -/
theorem provide_preWired_iff_fields_present_witness :
    (provide1 GState.empty emptyFieldsObj).2 = some .preWired :=
  (provide_preWired_iff_fields_present GState.empty emptyFieldsObj).mpr (by simp [emptyFieldsObj])

/-- C5 counterexample: `Provide` with the batch `[goodObjD, emptyFieldsObj]`
returns an error, yet the first object of the batch has been added to the
graph (the unnamed list and the registered type set are not as they were
before the call). -/
theorem provide_batch_partial_add_cex :
    (provide GState.empty [goodObjD, emptyFieldsObj]).2 = some .preWired ∧
    (provide GState.empty [goodObjD, emptyFieldsObj]).1.unnamed = [0] ∧
    (provide GState.empty [goodObjD, emptyFieldsObj]).1.unnamedType = [.tptr tyD] ∧
    GState.empty.unnamed = [] := by
  refine ⟨?_, ?_, ?_, rfl⟩ <;> rfl

/-- C5 amended: when `Provide` returns an error, the batch splits into a
prefix that has been fully added (exactly as a successful call on that
prefix alone), a failing object that was not added and caused the error,
and a suffix that was never examined. -/
theorem provide_err_prefix_added (g : GState) (os : List Object) (g' : GState) (e : Err)
    (h : provide g os = (g', some e)) :
    ∃ pre o suf, os = pre ++ o :: suf ∧ provide g pre = (g', none) ∧
      provide1 g' o = (g', some e) := by
  induction os generalizing g with
  | nil => simp [provide] at h
  | cons o rest ih =>
      rw [provide] at h
      rcases hp : provide1 g o with ⟨g1, r⟩
      rw [hp] at h
      cases r with
      | none =>
          obtain ⟨pre, o', suf, hsplit, hpre, ho⟩ := ih g1 h
          exact ⟨o :: pre, o', suf, by simp [hsplit], by rw [provide, hp]; exact hpre, ho⟩
      | some e0 =>
          replace h : ((g1, some e0) : GState × Option Err) = (g', some e) := h
          injection h with hg he
          injection he with he
          have hst : g1 = g := provide1_err_state g o g1 e0 hp
          rw [hst] at hp
          refine ⟨[], o, rest, rfl, ?_, ?_⟩
          · rw [provide, ← hg, hst]
          · rw [← hg, hst, ← he]
            exact hp

/-- C5 witness. -/
theorem provide_err_prefix_added_witness :
    ∃ pre o suf, ([goodObjD, emptyFieldsObj] : List Object) = pre ++ o :: suf ∧
      provide GState.empty pre = ((provide GState.empty [goodObjD, emptyFieldsObj]).1, none) ∧
      provide1 (provide GState.empty [goodObjD, emptyFieldsObj]).1 o =
        ((provide GState.empty [goodObjD, emptyFieldsObj]).1, some .preWired) :=
  provide_err_prefix_added GState.empty [goodObjD, emptyFieldsObj] _ _ (by rfl)

/-! ### C4: at most one non-private unnamed object per concrete type -/

theorem get?_getD_append_lt {α : Type} [Inhabited α] (l l' : List α) (j : Nat)
    (h : j < l.length) : ((l ++ l').get? j).getD default = (l.get? j).getD default := by
  simp [List.get?_eq_getElem?, List.getElem?_append_left h]

theorem get?_getD_append_self {α : Type} [Inhabited α] (l : List α) (o : α) :
    ((l ++ [o]).get? l.length).getD default = o := by
  simp [List.get?_eq_getElem?, List.getElem?_concat_length]

/-- Characterization of a successful `Provide` of one object: it appends
the object, leaves cells and index alone, and either registers it as
unnamed (with its type recorded unless private) or as named. -/
theorem provide1_none_cases (g : GState) (o : Object) (g1 : GState)
    (hp : provide1 g o = (g1, none)) :
    g1.objs = g.objs ++ [o] ∧ g1.cells = g.cells ∧ g1.typeIndex = g.typeIndex ∧
    ((o.name = "" ∧ isStructPtr o.reflectType = true ∧ o.fields = none ∧
       ¬(o.priv = false ∧ o.reflectType ∈ g.unnamedType) ∧
       g1.unnamed = g.unnamed ++ [g.objs.length] ∧
       g1.unnamedType = (if o.priv then g.unnamedType else g.unnamedType ++ [o.reflectType]) ∧
       g1.named = g.named) ∨
     (o.name ≠ "" ∧ o.fields = none ∧ lookupNamed g o.name = none ∧
       g1.unnamed = g.unnamed ∧ g1.unnamedType = g.unnamedType ∧
       g1.named = g.named ++ [(o.name, g.objs.length)])) := by
  unfold provide1 at hp
  split at hp
  · simp at hp
  · rename_i hfields
    rw [not_ne_iff] at hfields
    split at hp
    · rename_i hname
      split at hp
      · simp at hp
      · split at hp
        · simp at hp
        · rename_i hshape hdup
          injection hp with hp1 hp2
          rw [← hp1]
          refine ⟨rfl, rfl, rfl, .inl ⟨hname, by simpa using hshape, hfields, ?_, rfl, rfl, rfl⟩⟩
          intro hc
          exact hdup ⟨by simp [hc.1], hc.2⟩
    · rename_i hname
      split at hp
      · simp at hp
      · rename_i heq
        injection hp with hp1 hp2
        rw [← hp1]
        exact ⟨rfl, rfl, rfl, .inr ⟨hname, hfields, heq, rfl, rfl, rfl⟩⟩

theorem provideInv_empty : ProvideInv GState.empty := by
  refine ⟨?_, ?_, ?_, ?_⟩ <;> simp [GState.empty]

/-- C4: the invariant is preserved by every `Provide` step (so any
sequence of calls, in any order, keeps the graph free of two non-private
unnamed objects of one concrete type), and providing a non-private
unnamed object whose concrete type is already held by a non-private
unnamed object always fails with the duplicate-type error. -/
theorem provide_duplicate_type_rejected (g : GState) (o : Object) (hinv : ProvideInv g) :
    ProvideInv (provide1 g o).1 ∧
    (∀ eid ∈ g.unnamed, (objAt g eid).priv = false →
      (objAt g eid).reflectType = o.reflectType →
      o.name = "" → o.priv = false → o.fields = none →
      provide1 g o = (g, some (.duplicateType o.reflectType))) := by
  obtain ⟨hrange, hsp, hmem, hpw⟩ := hinv
  constructor
  · rcases hp : provide1 g o with ⟨g1, r⟩
    show ProvideInv g1
    cases r with
    | some e => rw [provide1_err_state g o g1 e hp]; exact ⟨hrange, hsp, hmem, hpw⟩
    | none =>
        obtain ⟨hobjs, hcells, hidx, hrest⟩ := provide1_none_cases g o g1 hp
        have hobj : ∀ oid ∈ g.unnamed, objAt g1 oid = objAt g oid := by
          intro oid hm
          simp only [objAt, hobjs]
          exact get?_getD_append_lt g.objs [o] oid (hrange oid hm)
        have hself : objAt g1 g.objs.length = o := by
          simp only [objAt, hobjs]
          exact get?_getD_append_self g.objs o
        rcases hrest with ⟨hname, hshape, hfields, hdup, hun, hut, hnm⟩ |
          ⟨hname, hfields, hlook, hun, hut, hnm⟩
        · refine ⟨?_, ?_, ?_, ?_⟩
          · intro oid hm
            rw [hun] at hm
            rw [hobjs]
            rcases List.mem_append.mp hm with hm | hm
            · calc oid < g.objs.length := hrange oid hm
                _ ≤ (g.objs ++ [o]).length := by simp
            · simp only [List.mem_singleton] at hm
              subst hm
              simp
          · intro oid hm
            rw [hun] at hm
            rcases List.mem_append.mp hm with hm | hm
            · rw [hobj oid hm]
              exact hsp oid hm
            · simp only [List.mem_singleton] at hm
              subst hm
              rw [hself]
              exact hshape
          · intro oid hm hpriv
            rw [hun] at hm
            rw [hut]
            rcases List.mem_append.mp hm with hm | hm
            · rw [hobj oid hm] at hpriv ⊢
              have hin := hmem oid hm hpriv
              split
              · exact hin
              · exact List.mem_append_left _ hin
            · simp only [List.mem_singleton] at hm
              subst hm
              rw [hself] at hpriv ⊢
              rw [if_neg (by simp [hpriv])]
              exact List.mem_append_right _ (by simp)
          · rw [hun, List.pairwise_append]
            refine ⟨?_, by simp, ?_⟩
            · refine hpw.imp_of_mem ?_
              intro i j hi hj hR
              rw [hobj i hi, hobj j hj]
              exact hR
            · intro i hi j hj
              simp only [List.mem_singleton] at hj
              subst hj
              rw [hobj i hi, hself]
              rintro ⟨hip, hop, hte⟩
              exact hdup ⟨hop, hte ▸ hmem i hi hip⟩
        · refine ⟨?_, ?_, ?_, ?_⟩
          · intro oid hm
            rw [hun] at hm
            rw [hobjs]
            calc oid < g.objs.length := hrange oid hm
              _ ≤ (g.objs ++ [o]).length := by simp
          · intro oid hm
            rw [hun] at hm
            rw [hobj oid hm]
            exact hsp oid hm
          · intro oid hm hpriv
            rw [hun] at hm
            rw [hobj oid hm] at hpriv ⊢
            rw [hut]
            exact hmem oid hm hpriv
          · rw [hun]
            refine hpw.imp_of_mem ?_
            intro i j hi hj hR
            rw [hobj i hi, hobj j hj]
            exact hR
  · intro eid hm hpriv hty hname hopriv hfields
    unfold provide1
    rw [if_neg (by simp [hfields]), if_pos hname,
      if_neg (by simp [← hty, hsp eid hm]), if_pos]
    exact ⟨by simp [hopriv], hty ▸ hmem eid hm hpriv⟩

/-- C4 witness: a second non-private `*D` is rejected in the graph that
already holds one. -/
theorem provide_duplicate_type_rejected_witness :
    ProvideInv (provide1 (provide GState.empty [goodObjD]).1 goodObjD).1 ∧
    provide1 (provide GState.empty [goodObjD]).1 goodObjD =
      ((provide GState.empty [goodObjD]).1, some (.duplicateType (.tptr tyD))) := by
  have hinv : ProvideInv (provide GState.empty [goodObjD]).1 := by
    refine ⟨?_, ?_, ?_, ?_⟩ <;> decide
  have h := provide_duplicate_type_rejected (provide GState.empty [goodObjD]).1 goodObjD hinv
  exact ⟨h.1, h.2 0 (by decide) (by decide) (by decide) (by decide) (by decide) (by decide)⟩

/-! ### C10: named objects that are not struct pointers are skipped -/

/-- C10: a named object whose value is not shaped as pointer-to-record is
accepted by `Provide` unconditionally (no shape check applies to named
objects), and both population phases return immediately with the graph
untouched: its fields are never inspected, assigned or audited, and no
error arises from it. -/
theorem named_non_struct_ptr_skipped (impl : Impl) (g : GState) (o : Object)
    (hname : o.name ≠ "") (hshape : isStructPtr o.reflectType = false)
    (hfields : o.fields = none) (hfresh : lookupNamed g o.name = none) :
    (provide1 g o).2 = none ∧
    (let g1 := (provide1 g o).1
     objAt g1 g.objs.length = o ∧
     populateExplicit impl g1 g.objs.length = (g1, none) ∧
     populateUnnamedInterface impl g1 g.objs.length = (g1, none)) := by
  have hp2 : (provide1 g o).2 = none := by
    unfold provide1
    rw [if_neg (by simp [hfields]), if_neg hname, hfresh]
  have hp : provide1 g o = ((provide1 g o).1, none) := by
    rw [← hp2]
  obtain ⟨hobjs, hcells, hidx, hrest⟩ := provide1_none_cases g o (provide1 g o).1 hp
  have hat : objAt (provide1 g o).1 g.objs.length = o := by
    simp only [objAt, hobjs]
    exact get?_getD_append_self g.objs o
  refine ⟨hp2, hat, ?_, ?_⟩
  · unfold populateExplicit
    rw [if_pos]
    rw [hat]
    exact ⟨hname, by simp [hshape]⟩
  · unfold populateUnnamedInterface
    rw [if_pos]
    rw [hat]
    exact ⟨hname, by simp [hshape]⟩

/-- C10 witness: a named plain integer value. -/
theorem named_non_struct_ptr_skipped_witness :
    (provide1 GState.empty cfgObj).2 = none ∧
    (let g1 := (provide1 GState.empty cfgObj).1
     objAt g1 0 = cfgObj ∧
     populateExplicit noImplF g1 0 = (g1, none) ∧
     populateUnnamedInterface noImplF g1 0 = (g1, none)) :=
  named_non_struct_ptr_skipped noImplF GState.empty cfgObj (by decide) (by decide) rfl rfl

/-! ### C7: malformed-tag detection has a silent gap -/

theorem chStarts_refl : ∀ (p : List Char), chStarts p p = true
  | [] => rfl
  | c :: cs => by simp [chStarts, chStarts_refl cs]

theorem chStarts_weaken : ∀ (p q l : List Char),
    chStarts (p ++ q) l = true → chStarts p l = true
  | [], _, _, _ => rfl
  | c :: cs, q, [], h => by simp [chStarts] at h
  | c :: cs, q, d :: ds, h => by
      simp only [List.cons_append, chStarts, Bool.and_eq_true] at h ⊢
      exact ⟨h.1, chStarts_weaken cs q ds h.2⟩

theorem chHas_of_starts_drop (p : List Char) :
    ∀ (l : List Char) (k : Nat), chStarts p (l.drop k) = true → chHas p l = true := by
  intro l
  induction l with
  | nil =>
      intro k h
      rw [List.drop_nil] at h
      simpa [chHas] using h
  | cons c cs ih =>
      intro k h
      cases k with
      | zero =>
          rw [List.drop_zero] at h
          simp [chHas, h]
      | succ k =>
          rw [List.drop_succ_cons] at h
          simp [chHas, ih k h]

theorem chHas_weaken (p q : List Char) :
    ∀ (l : List Char), chHas (p ++ q) l = true → chHas p l = true := by
  intro l
  induction l with
  | nil =>
      intro h
      rw [chHas] at h ⊢
      cases p with
      | nil => rfl
      | cons c cs => simp [chStarts] at h
  | cons c cs ih =>
      intro h
      rw [chHas, Bool.or_eq_true] at h ⊢
      rcases h with h | h
      · exact .inl (chStarts_weaken p q _ h)
      · exact .inr (ih h)

theorem chEnds_imp_chHas (p l : List Char) (h : chEnds p l = true) : chHas p l = true := by
  rw [chEnds, Bool.and_eq_true] at h
  obtain ⟨hlen, heq⟩ := h
  rw [beq_iff_eq] at heq
  have hst : chStarts p (l.drop (l.length - p.length)) = true := by
    rw [heq]
    exact chStarts_refl p
  exact chHas_of_starts_drop p l (l.length - p.length) hst

theorem markerQuote_eq : markerQuote = markerColon ++ ['"'] := by decide

/-- C7 counterexample: the raw tag string is exactly an `inject` marker
followed by an opening quote whose value is never closed (no closing
double quote occurs anywhere after the opening quote), yet tag parsing
returns no error and silently yields "no directive" — the pre-check only
flags unterminated values that contain neither a quote nor a space, and
this one contains a space. -/
theorem parseTag_silent_malformed_cex :
    chHas markerColon "inject:\"abc def".data = true ∧
    chHas markerQuote "inject:\"abc def".data = true ∧
    chIdx markerQuote "inject:\"abc def".data = some 0 ∧
    chHas ['"'] ("inject:\"abc def".data.drop 8) = false ∧
    parseTag "inject:\"abc def" = .ok none := by
  refine ⟨by decide, by decide, by decide, by decide, rfl⟩

/-- C7 amended: parsing reports an error for a dangling delimiter (the
string ends at the marker with nothing after the colon), and for an
opening quote after the marker whose remainder is empty or contains
neither a closing quote nor a space; an unterminated quoted value whose
remainder contains a space (or a later quote) instead silently yields
"no directive". -/
theorem parseTag_malformed_detection (s : String)
    (h : chEnds markerColon s.data = true ∨
         (chHas markerQuote s.data = true ∧
          ((s.data.drop ((chIdx markerQuote s.data).getD 0 + 8)).isEmpty = true ∨
           (chHas ['"'] (s.data.drop ((chIdx markerQuote s.data).getD 0 + 8)) = false ∧
            chHas [' '] (s.data.drop ((chIdx markerQuote s.data).getD 0 + 8)) = false)))) :
    parseTag s = .error () := by
  have hmal : (chHas markerColon s.data &&
      (chEnds markerColon s.data ||
        (chHas markerQuote s.data &&
          (let rem := s.data.drop ((chIdx markerQuote s.data).getD 0 + 8)
           rem.isEmpty || (!chHas ['"'] rem && !chHas [' '] rem))))) = true := by
    rcases h with h | ⟨hq, hrest⟩
    · rw [Bool.and_eq_true]
      exact ⟨chEnds_imp_chHas _ _ h, by rw [Bool.or_eq_true]; exact .inl h⟩
    · rw [Bool.and_eq_true]
      refine ⟨chHas_weaken markerColon ['"'] s.data (markerQuote_eq ▸ hq), ?_⟩
      rw [Bool.or_eq_true]
      refine .inr ?_
      rw [Bool.and_eq_true]
      refine ⟨hq, ?_⟩
      rcases hrest with hempty | ⟨hnq, hns⟩
      · simp only [hempty, Bool.true_or]
      · simp only [hnq, hns, Bool.not_false, Bool.and_self, Bool.or_true]
  unfold parseTag
  simp only [hmal, if_true]

/-- C7 witness: the dangling-delimiter form is detected. -/
theorem parseTag_malformed_detection_witness :
    parseTag "inject:" = .error () :=
  parseTag_malformed_detection "inject:" (.inl (by decide))

theorem objAt_eq_objAtL (g : GState) (oid : Nat) : objAt g oid = objAtL g.objs oid := rfl

theorem idxLookup_idxAdd (idx : List (Ty × List Nat)) (t : Ty) (eid : Nat) (t' : Ty) :
    idxLookup (idxAdd idx t eid) t' =
      if t' = t then idxLookup idx t ++ [eid] else idxLookup idx t' := by
  unfold idxAdd
  by_cases h : t' = t
  · subst h
    rw [if_pos rfl]
    unfold idxLookup
    rw [List.find?_cons_of_pos _ (by simp)]
    simp
  · rw [if_neg h]
    conv_lhs => unfold idxLookup
    rw [List.find?_cons_of_neg _ (by simp; exact fun heq => h heq.symm)]
    rfl

theorem buildTypeIndex_wf (g : GState) : IdxWF g.objs g.unnamed (buildTypeIndex g) := by
  unfold buildTypeIndex
  have aux : ∀ (l : List Nat) (acc : List (Ty × List Nat)),
      (∀ x ∈ l, x ∈ g.unnamed) → IdxWF g.objs g.unnamed acc →
      IdxWF g.objs g.unnamed (l.foldl (fun idx eid =>
        let e := objAt g eid
        if e.priv then idx else idxAdd idx e.reflectType eid) acc) := by
    intro l
    induction l with
    | nil => intro acc _ hacc; exact hacc
    | cons hd tl ih =>
        intro acc hsub hacc
        rw [List.foldl_cons]
        refine ih _ (fun y hy => hsub y (List.mem_cons_of_mem hd hy)) ?_
        show IdxWF g.objs g.unnamed
          (if (objAt g hd).priv then acc else idxAdd acc (objAt g hd).reflectType hd)
        by_cases hp : (objAt g hd).priv
        · simpa [hp] using hacc
        · rw [if_neg hp]
          intro t e' hmem
          rw [idxLookup_idxAdd] at hmem
          split at hmem
          · rename_i ht
            rcases List.mem_append.mp hmem with hold | hnew
            · obtain ⟨h1, h2, h3⟩ := hacc _ e' hold
              exact ⟨h1, h2, by rw [h3, ht]⟩
            · simp only [List.mem_singleton] at hnew
              subst hnew
              refine ⟨hsub e' (by simp), by simpa [objAt_eq_objAtL] using hp, ?_⟩
              rw [← objAt_eq_objAtL, ht]
          · exact hacc t e' hmem
  refine aux g.unnamed [] (fun x h => h) ?_
  intro t eid h
  simp [idxLookup] at h

theorem ensureIndex_spec (g : GState) (hwf : TypeIndexWF g) :
    (ensureIndex g).1.objs = g.objs ∧ (ensureIndex g).1.cells = g.cells ∧
    (ensureIndex g).1.unnamed = g.unnamed ∧ (ensureIndex g).1.unnamedType = g.unnamedType ∧
    (ensureIndex g).1.named = g.named ∧
    IdxWF g.objs g.unnamed (ensureIndex g).2 ∧
    TypeIndexWF (ensureIndex g).1 := by
  unfold ensureIndex
  split
  · rename_i idx hidx
    exact ⟨rfl, rfl, rfl, rfl, rfl, hwf idx hidx, hwf⟩
  · refine ⟨rfl, rfl, rfl, rfl, rfl, buildTypeIndex_wf g, ?_⟩
    intro idx hidx
    replace hidx : some (buildTypeIndex g) = some idx := hidx
    injection hidx with hidx
    subst hidx
    exact buildTypeIndex_wf g

/-- Unfolding equation for `findExisting` once the index is ensured. -/
theorem findExisting_eq (impl : Impl) (g : GState) (ft : Ty) (g1 : GState)
    (idx : List (Ty × List Nat)) (he : ensureIndex g = (g1, idx)) :
    findExisting impl g ft =
      match (idxLookup idx ft).find? (fun eid => !(objAt g1 eid).priv) with
      | some eid => (g1, some eid)
      | none => (g1, g1.unnamed.find? (fun eid =>
            let e := objAt g1 eid
            !e.priv && assignableTo impl e.reflectType ft)) := by
  unfold findExisting
  rw [he]

/-- Full specification of the reuse lookup: it changes nothing but the
(possibly newly installed) index; any id it returns is an unnamed,
non-private object assignable to the requested type; and when it returns
nothing, no unnamed non-private object is assignable. -/
theorem findExisting_spec (impl : Impl) (g : GState) (ft : Ty) (hwf : TypeIndexWF g) :
    (findExisting impl g ft).1.objs = g.objs ∧
    (findExisting impl g ft).1.cells = g.cells ∧
    (findExisting impl g ft).1.unnamed = g.unnamed ∧
    (findExisting impl g ft).1.unnamedType = g.unnamedType ∧
    (findExisting impl g ft).1.named = g.named ∧
    TypeIndexWF (findExisting impl g ft).1 ∧
    (∀ eid, (findExisting impl g ft).2 = some eid →
      eid ∈ g.unnamed ∧ (objAt g eid).priv = false ∧
        assignableTo impl (objAt g eid).reflectType ft = true) ∧
    ((findExisting impl g ft).2 = none →
      ∀ eid ∈ g.unnamed, (objAt g eid).priv = false →
        assignableTo impl (objAt g eid).reflectType ft = false) := by
  rcases he : ensureIndex g with ⟨g1, idx⟩
  obtain ⟨ho, hc, hu, hut, hn, hidx, hivf⟩ := ensureIndex_spec g hwf
  rw [he] at ho hc hu hut hn hidx hivf
  simp only at ho hc hu hut hn hidx hivf
  have hoo : ∀ eid, objAt g1 eid = objAt g eid := by
    intro eid
    rw [objAt_eq_objAtL, objAt_eq_objAtL, ho]
  rw [findExisting_eq impl g ft g1 idx he]
  rcases hf : (idxLookup idx ft).find? (fun eid => !(objAt g1 eid).priv) with _ | eid
  · rcases hs : g1.unnamed.find? (fun eid =>
        let e := objAt g1 eid
        !e.priv && assignableTo impl e.reflectType ft) with _ | eid
    · refine ⟨ho, hc, hu, hut, hn, hivf, ?_, ?_⟩
      · intro eid' he'
        replace he' : (none : Option Nat) = some eid' := he'
        simp at he'
      · intro _ eid0 hm hp
        cases hb : assignableTo impl (objAt g eid0).reflectType ft with
        | false => rfl
        | true =>
            exfalso
            have hsome : (g1.unnamed.find? (fun eid =>
                let e := objAt g1 eid
                !e.priv && assignableTo impl e.reflectType ft)).isSome := by
              rw [List.find?_isSome]
              refine ⟨eid0, by rw [hu]; exact hm, ?_⟩
              show (!(objAt g1 eid0).priv &&
                assignableTo impl (objAt g1 eid0).reflectType ft) = true
              rw [hoo, hp, hb]
              rfl
            rw [hs] at hsome
            simp at hsome
    · refine ⟨ho, hc, hu, hut, hn, hivf, ?_, ?_⟩
      · intro eid' he'
        replace he' : some eid = some eid' := he'
        injection he' with he'
        subst he'
        have hm := List.mem_of_find?_eq_some hs
        have hp := List.find?_some hs
        simp only [Bool.and_eq_true, Bool.not_eq_true'] at hp
        rw [hu] at hm
        rw [hoo] at hp
        exact ⟨hm, hp.1, hp.2⟩
      · intro hnone
        replace hnone : (some eid : Option Nat) = none := hnone
        simp at hnone
  · refine ⟨ho, hc, hu, hut, hn, hivf, ?_, ?_⟩
    · intro eid' he'
      replace he' : some eid = some eid' := he'
      injection he' with he'
      subst he'
      obtain ⟨hm, hp, ht⟩ := hidx ft eid (List.mem_of_find?_eq_some hf)
      refine ⟨hm, ?_, ?_⟩
      · rw [objAt_eq_objAtL]
        exact hp
      · rw [objAt_eq_objAtL, ht]
        simp [assignableTo]
    · intro hnone
      replace hnone : (some eid : Option Nat) = none := hnone
      simp at hnone

/-! ### Heap update lemmas -/

theorem length_setSlot (h : Heap) (a i : Nat) (v : Val) :
    (setSlot h a i v).length = h.length := by
  simp [setSlot]

theorem cellAt_setSlot_self (h : Heap) (a i : Nat) (v : Val) (ha : a < h.length) :
    cellAt (setSlot h a i v) a = (cellAt h a).set i v := by
  unfold cellAt setSlot
  rw [List.get?_eq_getElem?, List.getElem?_set_self ha]
  simp [cellAt]

theorem cellAt_setSlot_other (h : Heap) (a i : Nat) (v : Val) (b : Nat) (hb : b ≠ a) :
    cellAt (setSlot h a i v) b = cellAt h b := by
  unfold cellAt setSlot
  rw [List.get?_eq_getElem?, List.getElem?_set_ne (Ne.symm hb), ← List.get?_eq_getElem?]

theorem slotAt_setSlot_self (h : Heap) (a i : Nat) (v : Val)
    (ha : a < h.length) (hi : i < (cellAt h a).length) :
    slotAt (setSlot h a i v) a i = v := by
  unfold slotAt
  rw [cellAt_setSlot_self h a i v ha, List.getD_eq_getElem?_getD,
    List.getElem?_set_self (by simpa using hi)]
  rfl

/-- Assigning an existing object to a pointer-shaped field: stores the
object's value in the slot, records the edge, and neither allocates nor
changes the unnamed list or the number of objects. -/
theorem assignReuse_ptr_spec (g : GState) (oid a i : Nat) (fname : String)
    (pt : Ty) (eid : Nat) (ha : a < g.cells.length) (hi : i < (cellAt g.cells a).length) :
    (assignReuse g oid a i fname (.tptr pt) eid).objs.length = g.objs.length ∧
    (assignReuse g oid a i fname (.tptr pt) eid).unnamed = g.unnamed ∧
    (assignReuse g oid a i fname (.tptr pt) eid).cells =
      setSlot g.cells a i (objAt g eid).value ∧
    slotAt (assignReuse g oid a i fname (.tptr pt) eid).cells a i = (objAt g eid).value := by
  have hif : setFromObject (.tptr pt) (objAt g eid) g.cells = ((objAt g eid).value, g.cells) := rfl
  unfold assignReuse
  rw [hif]
  unfold addDep
  refine ⟨by simp, rfl, rfl, ?_⟩
  exact slotAt_setSlot_self g.cells a i _ ha hi

/-- With a plain directive on a zero-valued, exported pointer-to-record
field, `populateExplicit`'s field step reaches the reuse-or-synthesize
branch. -/
theorem peField_plain_ptr_eq (impl : Impl) (g : GState) (oid a i : Nat) (fi : FieldInfo)
    (sn : String) (sf : List (FieldInfo × Ty))
    (htag : parseTag fi.tag = .ok (some injectOnly))
    (hexp : fi.exported = true)
    (hzero : isNilOrZero g.cells (slotAt g.cells a i) (.tptr (.tstruct sn sf)) = true) :
    peField impl g oid a i fi (.tptr (.tstruct sn sf)) =
      match findExisting impl g (.tptr (.tstruct sn sf)) with
      | (g', some eid) => (assignReuse g' oid a i fi.name (.tptr (.tstruct sn sf)) eid, none)
      | (g', none) => synthNew g' oid a i fi.name (.tptr (.tstruct sn sf)) false := by
  unfold peField
  rw [htag]
  simp [hexp, hzero, injectOnly, isStructKind, isIfaceKind, isMapKind, isStructPtr]

/-- With a private directive on a zero-valued, exported pointer-to-record
field, the field step skips the lookup entirely and synthesizes. -/
theorem peField_private_ptr_eq (impl : Impl) (g : GState) (oid a i : Nat) (fi : FieldInfo)
    (sn : String) (sf : List (FieldInfo × Ty))
    (htag : parseTag fi.tag = .ok (some injectPrivate))
    (hexp : fi.exported = true)
    (hzero : isNilOrZero g.cells (slotAt g.cells a i) (.tptr (.tstruct sn sf)) = true) :
    peField impl g oid a i fi (.tptr (.tstruct sn sf)) =
      synthNew g oid a i fi.name (.tptr (.tstruct sn sf)) true := by
  unfold peField
  rw [htag]
  simp [hexp, hzero, injectPrivate, isStructKind, isIfaceKind, isMapKind, isStructPtr]

/-- C1: whenever phase 1 examines a zero-valued pointer-to-record field
carrying a plain directive and the unnamed list holds at least one
non-private object of exactly the field's type, the step assigns such an
existing object to the field and synthesizes nothing: the unnamed list
and the object count are unchanged.  The hypothesis on the type index is
soundness only — the index may be arbitrarily stale (objects synthesized
mid-resolution missing from it), and the fallback scan still finds the
existing object. -/
theorem plain_ptr_field_reuses_existing (impl : Impl) (g : GState) (oid a i : Nat)
    (fi : FieldInfo) (sn : String) (sf : List (FieldInfo × Ty))
    (htag : parseTag fi.tag = .ok (some injectOnly))
    (hexp : fi.exported = true)
    (hzero : isNilOrZero g.cells (slotAt g.cells a i) (.tptr (.tstruct sn sf)) = true)
    (hwf : TypeIndexWF g)
    (ha : a < g.cells.length) (hi : i < (cellAt g.cells a).length)
    (hex : ∃ eid ∈ g.unnamed, (objAt g eid).priv = false ∧
      (objAt g eid).reflectType = .tptr (.tstruct sn sf)) :
    ∃ eid ∈ g.unnamed, (objAt g eid).priv = false ∧
      (objAt g eid).reflectType = .tptr (.tstruct sn sf) ∧
      (peField impl g oid a i fi (.tptr (.tstruct sn sf))).2 = none ∧
      (peField impl g oid a i fi (.tptr (.tstruct sn sf))).1.unnamed = g.unnamed ∧
      (peField impl g oid a i fi (.tptr (.tstruct sn sf))).1.objs.length = g.objs.length ∧
      slotAt (peField impl g oid a i fi (.tptr (.tstruct sn sf))).1.cells a i =
        (objAt g eid).value := by
  rw [peField_plain_ptr_eq impl g oid a i fi sn sf htag hexp hzero]
  obtain ⟨ho, hc, hu, hut, hn, hiwf, hsound, hcompl⟩ :=
    findExisting_spec impl g (.tptr (.tstruct sn sf)) hwf
  rcases hfe : findExisting impl g (.tptr (.tstruct sn sf)) with ⟨g1, r⟩
  rw [hfe] at ho hc hu hut hn hiwf hsound hcompl
  simp only at ho hc hu hut hn hiwf hsound hcompl
  cases r with
  | some eid =>
      obtain ⟨hm, hp, hassign⟩ := hsound eid rfl
      have hty : (objAt g eid).reflectType = .tptr (.tstruct sn sf) := by
        have := hassign
        unfold assignableTo at this
        simp only [Bool.or_eq_true, beq_iff_eq] at this
        rcases this with h | h
        · exact h
        · cases h
      have hgoo : ∀ j, objAt g1 j = objAt g j := by
        intro j
        rw [objAt_eq_objAtL, objAt_eq_objAtL, ho]
      obtain ⟨hlen, hunm, hcells, hslot⟩ :=
        assignReuse_ptr_spec g1 oid a i fi.name (.tstruct sn sf) eid
          (by rw [hc]; exact ha) (by rw [hc]; exact hi)
      refine ⟨eid, hm, hp, hty, rfl, ?_, ?_, ?_⟩
      · show (assignReuse g1 oid a i fi.name (.tptr (.tstruct sn sf)) eid).unnamed = g.unnamed
        rw [hunm, hu]
      · show (assignReuse g1 oid a i fi.name (.tptr (.tstruct sn sf)) eid).objs.length =
          g.objs.length
        rw [hlen, ho]
      · show slotAt (assignReuse g1 oid a i fi.name (.tptr (.tstruct sn sf)) eid).cells a i =
          (objAt g eid).value
        rw [hslot, hgoo]
  | none =>
      exfalso
      obtain ⟨eid, hm, hp, hty⟩ := hex
      have := hcompl rfl eid hm hp
      rw [hty] at this
      unfold assignableTo at this
      simp at this

/-- C1 witness: the index is unbuilt, one non-private `*D` exists, and
the consumer's plain `*D` field reuses it without synthesizing. -/
theorem plain_ptr_field_reuses_existing_witness :
    ∃ eid ∈ gC1.unnamed, (objAt gC1 eid).priv = false ∧
      (objAt gC1 eid).reflectType = .tptr tyD ∧
      (peField noImplF gC1 1 1 0 fiF (.tptr tyD)).2 = none ∧
      (peField noImplF gC1 1 1 0 fiF (.tptr tyD)).1.unnamed = gC1.unnamed ∧
      (peField noImplF gC1 1 1 0 fiF (.tptr tyD)).1.objs.length = gC1.objs.length ∧
      slotAt (peField noImplF gC1 1 1 0 fiF (.tptr tyD)).1.cells 1 0 = (objAt gC1 eid).value :=
  plain_ptr_field_reuses_existing noImplF gC1 1 1 0 fiF "D" [] rfl rfl (by decide)
    (by intro idx h; exact Option.noConfusion h) (by decide) (by decide)
    ⟨0, by decide, by decide, by decide⟩

/-! ### C3: private synthesis always creates fresh, unshared instances -/

theorem cellAt_append_lt (h : Heap) (ext : Heap) (a : Nat) (ha : a < h.length) :
    cellAt (h ++ ext) a = cellAt h a := by
  unfold cellAt
  rw [List.get?_eq_getElem?, List.getElem?_append_left ha, ← List.get?_eq_getElem?]

mutual
theorem zeroVal_extends : ∀ (t : Ty) (h : Heap), ∃ ext, (zeroVal t h).2 = h ++ ext
  | .tstruct _ flds, h => by
      obtain ⟨ext, hext⟩ := zeroValFields_extends flds h
      refine ⟨ext ++ [(zeroValFields flds h).1], ?_⟩
      show (zeroValFields flds h).2 ++ [(zeroValFields flds h).1] = _
      rw [hext, List.append_assoc]
  | .tptr _, h => ⟨[], by simp [zeroVal]⟩
  | .tiface _, h => ⟨[], by simp [zeroVal]⟩
  | .tmap, h => ⟨[], by simp [zeroVal]⟩
  | .tint, h => ⟨[], by simp [zeroVal]⟩
  | .tstr, h => ⟨[], by simp [zeroVal]⟩
  | .tbool, h => ⟨[], by simp [zeroVal]⟩

theorem zeroValFields_extends : ∀ (flds : List (FieldInfo × Ty)) (h : Heap),
    ∃ ext, (zeroValFields flds h).2 = h ++ ext
  | [], h => ⟨[], by simp [zeroValFields]⟩
  | (_, ft) :: rest, h => by
      obtain ⟨e1, he1⟩ := zeroVal_extends ft h
      obtain ⟨e2, he2⟩ := zeroValFields_extends rest (zeroVal ft h).2
      refine ⟨e1 ++ e2, ?_⟩
      show (zeroValFields rest (zeroVal ft h).2).2 = _
      rw [he2, he1, List.append_assoc]
end

theorem addDep_cells (g : GState) (oid : Nat) (fname : String) (eid : Nat) :
    (addDep g oid fname eid).cells = g.cells := rfl

theorem addDep_unnamed (g : GState) (oid : Nat) (fname : String) (eid : Nat) :
    (addDep g oid fname eid).unnamed = g.unnamed := rfl

theorem addDep_objs_length (g : GState) (oid : Nat) (fname : String) (eid : Nat) :
    (addDep g oid fname eid).objs.length = g.objs.length := by
  simp [addDep]

theorem objAtL_set_ne (l : List Object) (j : Nat) (x : Object) (k : Nat) (h : j ≠ k) :
    objAtL (l.set j x) k = objAtL l k := by
  unfold objAtL
  rw [List.get?_eq_getElem?, List.getElem?_set_ne h, ← List.get?_eq_getElem?]

/-- Effects of private synthesis on a pointer-to-record field: it always
succeeds, appends exactly one object — marked private and created, whose
value points at a cell that did not exist before the step — and stores
that fresh pointer in the field. -/
theorem synthNew_private_spec (g : GState) (oid a i : Nat) (fname : String)
    (sn : String) (sf : List (FieldInfo × Ty))
    (ha : a < g.cells.length) (hi : i < (cellAt g.cells a).length)
    (hoid : oid < g.objs.length) :
    (synthNew g oid a i fname (.tptr (.tstruct sn sf)) true).2 = none ∧
    (synthNew g oid a i fname (.tptr (.tstruct sn sf)) true).1.objs.length =
      g.objs.length + 1 ∧
    ∃ addr, g.cells.length ≤ addr ∧
      addr < (synthNew g oid a i fname (.tptr (.tstruct sn sf)) true).1.cells.length ∧
      slotAt (synthNew g oid a i fname (.tptr (.tstruct sn sf)) true).1.cells a i =
        .vptr addr ∧
      (objAt (synthNew g oid a i fname (.tptr (.tstruct sn sf)) true).1 g.objs.length).value =
        .vptr addr ∧
      (objAt (synthNew g oid a i fname (.tptr (.tstruct sn sf)) true).1 g.objs.length).priv =
        true ∧
      (objAt (synthNew g oid a i fname (.tptr (.tstruct sn sf)) true).1
        g.objs.length).created = true := by
  obtain ⟨ext, hext⟩ := zeroValFields_extends sf g.cells
  set h1 : Heap := (zeroValFields sf g.cells).2 with hh1
  set vs : List Val := (zeroValFields sf g.cells).1 with hvs
  set gx : GState := { g with cells := h1 ++ [vs] } with hgx
  set nobj : Object := createdObj (.tptr (.tstruct sn sf)) h1.length true with hnobj
  have hp2 : (provide1 gx nobj).2 = none := by
    unfold provide1
    rw [if_neg (by simp [hnobj, createdObj]), if_pos (by rw [hnobj]; rfl),
      if_neg (by simp [hnobj, createdObj, isStructPtr]), if_neg (by simp [hnobj, createdObj])]
  have hp : provide1 gx nobj = ((provide1 gx nobj).1, none) := by rw [← hp2]
  obtain ⟨hobjs, hcells, _, _⟩ := provide1_none_cases gx nobj _ hp
  set gy : GState := (provide1 gx nobj).1 with hgy
  have heq : synthNew g oid a i fname (.tptr (.tstruct sn sf)) true =
      (addDep { gy with cells := setSlot gy.cells a i (.vptr h1.length) } oid fname
        g.objs.length, none) := by
    show (match (provide1 gx nobj).2 with
          | some e => ((provide1 gx nobj).1, some (Fail.err e))
          | none => (addDep { gy with cells := setSlot gy.cells a i (.vptr h1.length) }
              oid fname g.objs.length, none)) = _
    rw [hp2]
  rw [heq]
  have hgycells : gy.cells = h1 ++ [vs] := hcells
  have hgyobjs : gy.objs = g.objs ++ [nobj] := hobjs
  have hlen1 : g.cells.length ≤ h1.length := by rw [hext]; simp
  have ha' : a < (h1 ++ [vs]).length := by
    simp only [List.length_append, List.length_singleton]
    omega
  have hca : cellAt (h1 ++ [vs]) a = cellAt g.cells a := by
    rw [cellAt_append_lt h1 [vs] a (by omega), hext,
      cellAt_append_lt g.cells ext a ha]
  refine ⟨rfl, ?_, h1.length, hlen1, ?_, ?_, ?_, ?_, ?_⟩
  · show (addDep { gy with cells := _ } oid fname g.objs.length).objs.length = _
    rw [addDep_objs_length]
    show gy.objs.length = _
    rw [hgyobjs]
    simp
  · show h1.length < (addDep { gy with cells := setSlot gy.cells a i (.vptr h1.length) }
        oid fname g.objs.length).cells.length
    rw [addDep_cells]
    show h1.length < (setSlot gy.cells a i (.vptr h1.length)).length
    rw [length_setSlot, hgycells]
    simp
  · show slotAt (addDep { gy with cells := setSlot gy.cells a i (.vptr h1.length) }
        oid fname g.objs.length).cells a i = .vptr h1.length
    rw [addDep_cells]
    show slotAt (setSlot gy.cells a i (.vptr h1.length)) a i = .vptr h1.length
    rw [hgycells]
    exact slotAt_setSlot_self (h1 ++ [vs]) a i (.vptr h1.length) ha' (by rw [hca]; exact hi)
  · rw [objAt_eq_objAtL]
    show (objAtL (gy.objs.set oid _) g.objs.length).value = _
    rw [objAtL_set_ne _ _ _ _ (by omega)]
    unfold objAtL
    rw [hgyobjs]
    rw [get?_getD_append_self g.objs nobj, hnobj]
    rfl
  · rw [objAt_eq_objAtL]
    show (objAtL (gy.objs.set oid _) g.objs.length).priv = _
    rw [objAtL_set_ne _ _ _ _ (by omega)]
    unfold objAtL
    rw [hgyobjs]
    rw [get?_getD_append_self g.objs nobj, hnobj]
    rfl
  · rw [objAt_eq_objAtL]
    show (objAtL (gy.objs.set oid _) g.objs.length).created = _
    rw [objAtL_set_ne _ _ _ _ (by omega)]
    unfold objAtL
    rw [hgyobjs]
    rw [get?_getD_append_self g.objs nobj, hnobj]
    rfl

/-- C3: two distinct zero-valued private pointer fields of the same
pointee type each get a freshly synthesized instance — the cell assigned
to the second field did not exist when the first was assigned, so the two
instances are never the same object — and, besides, the reuse lookup
(serving every other field's plain resolution) never returns a private
object, so a privately synthesized object is never shared. -/
theorem private_directive_never_shares (impl : Impl) (g g1 : GState)
    (oid1 a1 i1 oid2 a2 i2 : Nat) (fi1 fi2 : FieldInfo)
    (sn : String) (sf : List (FieldInfo × Ty))
    (htag1 : parseTag fi1.tag = .ok (some injectPrivate)) (hexp1 : fi1.exported = true)
    (hzero1 : isNilOrZero g.cells (slotAt g.cells a1 i1) (.tptr (.tstruct sn sf)) = true)
    (ha1 : a1 < g.cells.length) (hi1 : i1 < (cellAt g.cells a1).length)
    (hoid1 : oid1 < g.objs.length)
    (hg1 : g1 = (peField impl g oid1 a1 i1 fi1 (.tptr (.tstruct sn sf))).1)
    (htag2 : parseTag fi2.tag = .ok (some injectPrivate)) (hexp2 : fi2.exported = true)
    (hzero2 : isNilOrZero g1.cells (slotAt g1.cells a2 i2) (.tptr (.tstruct sn sf)) = true)
    (ha2 : a2 < g1.cells.length) (hi2 : i2 < (cellAt g1.cells a2).length)
    (hoid2 : oid2 < g1.objs.length) :
    ((peField impl g oid1 a1 i1 fi1 (.tptr (.tstruct sn sf))).2 = none ∧
     (peField impl g1 oid2 a2 i2 fi2 (.tptr (.tstruct sn sf))).2 = none ∧
     ∃ p1 p2,
       slotAt g1.cells a1 i1 = .vptr p1 ∧
       slotAt (peField impl g1 oid2 a2 i2 fi2 (.tptr (.tstruct sn sf))).1.cells a2 i2 =
         .vptr p2 ∧
       p1 ≠ p2 ∧
       (objAt g1 g.objs.length).priv = true ∧
       (objAt g1 g.objs.length).created = true) ∧
    (∀ g' : GState, ∀ ft : Ty, ∀ eid : Nat, TypeIndexWF g' →
      (findExisting impl g' ft).2 = some eid → (objAt g' eid).priv = false) := by
  have e1 := peField_private_ptr_eq impl g oid1 a1 i1 fi1 sn sf htag1 hexp1 hzero1
  have e2 := peField_private_ptr_eq impl g1 oid2 a2 i2 fi2 sn sf htag2 hexp2 hzero2
  obtain ⟨hs1none, _, p1, hp1lo, hp1hi, hslot1, _, hpriv1, hcre1⟩ :=
    synthNew_private_spec g oid1 a1 i1 fi1.name sn sf ha1 hi1 hoid1
  obtain ⟨hs2none, _, p2, hp2lo, _, hslot2, _, _, _⟩ :=
    synthNew_private_spec g1 oid2 a2 i2 fi2.name sn sf ha2 hi2 hoid2
  rw [← e1] at hs1none hp1hi hslot1 hpriv1 hcre1
  rw [← e2] at hs2none hslot2
  rw [← hg1] at hp1hi hslot1 hpriv1 hcre1
  constructor
  · refine ⟨hs1none, hs2none, p1, p2, hslot1, hslot2, ?_, hpriv1, hcre1⟩
    omega
  · intro g' ft eid hwf hfe
    obtain ⟨_, _, _, _, _, _, hsound, _⟩ := findExisting_spec impl g' ft hwf
    exact (hsound eid hfe).2.1

/-- C3 witness: resolving the two private fields one after the other. -/
theorem private_directive_never_shares_witness :
    ((peField noImplF gP 0 0 0 fiC (.tptr tyD)).2 = none ∧
     (peField noImplF (peField noImplF gP 0 0 0 fiC (.tptr tyD)).1 1 1 0 fiC
        (.tptr tyD)).2 = none ∧
     ∃ p1 p2,
       slotAt (peField noImplF gP 0 0 0 fiC (.tptr tyD)).1.cells 0 0 = .vptr p1 ∧
       slotAt (peField noImplF (peField noImplF gP 0 0 0 fiC (.tptr tyD)).1 1 1 0 fiC
         (.tptr tyD)).1.cells 1 0 = .vptr p2 ∧
       p1 ≠ p2 ∧
       (objAt (peField noImplF gP 0 0 0 fiC (.tptr tyD)).1 gP.objs.length).priv = true ∧
       (objAt (peField noImplF gP 0 0 0 fiC (.tptr tyD)).1 gP.objs.length).created = true) ∧
    (∀ g' : GState, ∀ ft : Ty, ∀ eid : Nat, TypeIndexWF g' →
      (findExisting noImplF g' ft).2 = some eid → (objAt g' eid).priv = false) :=
  private_directive_never_shares noImplF gP (peField noImplF gP 0 0 0 fiC (.tptr tyD)).1
    0 0 0 1 1 0 fiC fiC "D" [] rfl rfl (by decide) (by decide) (by decide) (by decide)
    rfl rfl rfl (by decide) (by decide) (by decide) (by decide)

/-! ### C2: the interface-resolution trichotomy -/

theorem lookupField_upsert (l : List (String × Nat)) (k : String) (v : Nat) :
    lookupField (some (upsert l k v)) k = some v := by
  unfold lookupField upsert
  simp only [Option.getD_some]
  rw [List.find?_cons_of_pos _ (by simp)]
  rfl

theorem objAtL_set_self (l : List Object) (j : Nat) (x : Object) (hj : j < l.length) :
    objAtL (l.set j x) j = x := by
  unfold objAtL
  rw [List.get?_eq_getElem?, List.getElem?_set_self hj]
  rfl

/-- The operation `addDep` only touches the target's `Fields` map: every object's
private flag, type, value and completeness are untouched. -/
theorem addDep_objAt (g : GState) (oid : Nat) (fname : String) (eid : Nat) (j : Nat) :
    (objAt (addDep g oid fname eid) j).priv = (objAt g j).priv ∧
    (objAt (addDep g oid fname eid) j).reflectType = (objAt g j).reflectType ∧
    (objAt (addDep g oid fname eid) j).value = (objAt g j).value ∧
    (objAt (addDep g oid fname eid) j).complete = (objAt g j).complete := by
  unfold addDep
  rw [objAt_eq_objAtL, objAt_eq_objAtL]
  show (objAtL (g.objs.set oid _) j).priv = _ ∧ (objAtL (g.objs.set oid _) j).reflectType = _ ∧
    (objAtL (g.objs.set oid _) j).value = _ ∧ (objAtL (g.objs.set oid _) j).complete = _
  by_cases h : oid = j
  · subst h
    by_cases hl : oid < g.objs.length
    · rw [objAtL_set_self _ _ _ hl]
      rw [show objAtL g.objs oid = objAt g oid from rfl]
      exact ⟨rfl, rfl, rfl, rfl⟩
    · rw [show g.objs.set oid _ = g.objs from
        List.set_eq_of_length_le (by omega)]
      exact ⟨rfl, rfl, rfl, rfl⟩
  · rw [objAtL_set_ne _ _ _ _ h]
    exact ⟨rfl, rfl, rfl, rfl⟩

/-- Interface scan with a candidate already found: if no further unnamed
object matches, the scan leaves the graph alone and succeeds; otherwise
it stops with the ambiguity error naming the found candidate's type and
the first further match's type. -/
theorem ifaceScan_found (impl : Impl) (oid a i : Nat) (fname : String) (ft : Ty)
    (prv : Nat → Bool) (rt : Nat → Ty) :
    ∀ (rest : List Nat) (g : GState) (f : Nat),
      (∀ j, (objAt g j).priv = prv j ∧ (objAt g j).reflectType = rt j) →
      (match rest.filter (fun e => !prv e && assignableTo impl (rt e) ft) with
       | [] => ifaceScan impl oid a i fname ft g (some f) rest = (g, none)
       | e1 :: _ => ifaceScan impl oid a i fname ft g (some f) rest =
           (g, some (.err (.ambiguous fname (rt f) (rt e1))))) := by
  intro rest
  induction rest with
  | nil => intro g f hP; rfl
  | cons e tl ih =>
      intro g f hP
      rw [List.filter_cons]
      by_cases hpe : prv e
      · have hstep : ifaceScan impl oid a i fname ft g (some f) (e :: tl) =
            ifaceScan impl oid a i fname ft g (some f) tl := by
          show (if (objAt g e).priv = true then ifaceScan impl oid a i fname ft g (some f) tl
            else if assignableTo impl (objAt g e).reflectType ft = true then
              (g, some (.err (.ambiguous fname (objAt g f).reflectType (objAt g e).reflectType)))
            else ifaceScan impl oid a i fname ft g (some f) tl) = _
          rw [if_pos (by rw [(hP e).1]; exact hpe)]
        rw [if_neg (by simp [hpe]), hstep]
        exact ih g f hP
      · by_cases has : assignableTo impl (rt e) ft
        · have hstep : ifaceScan impl oid a i fname ft g (some f) (e :: tl) =
              (g, some (.err (.ambiguous fname (rt f) (rt e)))) := by
            show (if (objAt g e).priv = true then ifaceScan impl oid a i fname ft g (some f) tl
              else if assignableTo impl (objAt g e).reflectType ft = true then
                (g, some (.err (.ambiguous fname (objAt g f).reflectType (objAt g e).reflectType)))
              else ifaceScan impl oid a i fname ft g (some f) tl) = _
            rw [if_neg (by rw [(hP e).1]; simp [hpe]),
              if_pos (by rw [(hP e).2]; exact has), (hP f).2, (hP e).2]
          rw [if_pos (by simp [hpe, has]), hstep]
        · have hstep : ifaceScan impl oid a i fname ft g (some f) (e :: tl) =
              ifaceScan impl oid a i fname ft g (some f) tl := by
            show (if (objAt g e).priv = true then ifaceScan impl oid a i fname ft g (some f) tl
              else if assignableTo impl (objAt g e).reflectType ft = true then
                (g, some (.err (.ambiguous fname (objAt g f).reflectType (objAt g e).reflectType)))
              else ifaceScan impl oid a i fname ft g (some f) tl) = _
            rw [if_neg (by rw [(hP e).1]; simp [hpe]),
              if_neg (by rw [(hP e).2]; simp [has])]
          rw [if_neg (by simp [hpe, has]), hstep]
          exact ih g f hP

/-- The interface scan from an empty accumulator: no match is the
no-implementation error with the graph untouched; exactly one match
assigns that object into the slot, records the edge, and succeeds;
two or more matches end in the ambiguity error naming the first two
matching candidates' types. -/
theorem ifaceScan_start (impl : Impl) (oid a i : Nat) (fname : String) (ft : Ty)
    (prv : Nat → Bool) (rt : Nat → Ty) (vl : Nat → Val) :
    ∀ (rest : List Nat) (g : GState),
      (∀ j, (objAt g j).priv = prv j ∧ (objAt g j).reflectType = rt j ∧
        (objAt g j).value = vl j) →
      a < g.cells.length → i < (cellAt g.cells a).length → oid < g.objs.length →
      (match rest.filter (fun e => !prv e && assignableTo impl (rt e) ft) with
       | [] => ifaceScan impl oid a i fname ft g none rest = (g, some (.err (.noImpl fname)))
       | [e1] => ∃ g', ifaceScan impl oid a i fname ft g none rest = (g', none) ∧
           slotAt g'.cells a i = .viface (rt e1) (vl e1) ∧
           lookupField (objAt g' oid).fields fname = some e1 ∧
           g'.unnamed = g.unnamed ∧ g'.objs.length = g.objs.length
       | e1 :: e2 :: _ => ∃ g', ifaceScan impl oid a i fname ft g none rest =
           (g', some (.err (.ambiguous fname (rt e1) (rt e2))))) := by
  intro rest
  induction rest with
  | nil => intro g hP _ _ _; rfl
  | cons e tl ih =>
      intro g hP ha hi hoid
      rw [List.filter_cons]
      by_cases hpe : prv e
      · have hstep : ifaceScan impl oid a i fname ft g none (e :: tl) =
            ifaceScan impl oid a i fname ft g none tl := by
          show (if (objAt g e).priv = true then ifaceScan impl oid a i fname ft g none tl
            else if assignableTo impl (objAt g e).reflectType ft = true then
              ifaceScan impl oid a i fname ft (ifaceAssignState g oid a i fname e) (some e) tl
            else ifaceScan impl oid a i fname ft g none tl) = _
          rw [if_pos (by rw [(hP e).1]; exact hpe)]
        rw [if_neg (by simp [hpe]), hstep]
        exact ih g hP ha hi hoid
      · by_cases has : assignableTo impl (rt e) ft
        · rw [if_pos (by simp [hpe, has])]
          have hstep : ifaceScan impl oid a i fname ft g none (e :: tl) =
              ifaceScan impl oid a i fname ft (ifaceAssignState g oid a i fname e) (some e) tl := by
            show (if (objAt g e).priv = true then ifaceScan impl oid a i fname ft g none tl
              else if assignableTo impl (objAt g e).reflectType ft = true then
                ifaceScan impl oid a i fname ft (ifaceAssignState g oid a i fname e)
                  (some e) tl
              else ifaceScan impl oid a i fname ft g none tl) = _
            rw [if_neg (by rw [(hP e).1]; simp [hpe]), if_pos (by rw [(hP e).2.1]; exact has)]
          rw [hstep]
          set g2 : GState := ifaceAssignState g oid a i fname e with hg2
          have hP2 : ∀ j, (objAt g2 j).priv = prv j ∧ (objAt g2 j).reflectType = rt j := by
            intro j
            obtain ⟨h1, h2, _, _⟩ := addDep_objAt
              { g with cells := setSlot g.cells a i (.viface (objAt g e).reflectType (objAt g e).value) }
              oid fname e j
            exact ⟨h1.trans (hP j).1, h2.trans (hP j).2.1⟩
          have hfound := ifaceScan_found impl oid a i fname ft prv rt tl g2 e hP2
          have hg2cells : g2.cells = setSlot g.cells a i
              (.viface (objAt g e).reflectType (objAt g e).value) := rfl
          rcases hft : tl.filter (fun e => !prv e && assignableTo impl (rt e) ft) with _ | ⟨e2, t2⟩
          · rw [hft] at hfound
            refine ⟨g2, hfound, ?_, ?_, rfl, ?_⟩
            · rw [hg2cells, slotAt_setSlot_self g.cells a i _ ha hi, (hP e).2.1, (hP e).2.2]
            · have hobj2 : objAt g2 oid = { objAt g oid with
                  fields := some (upsert ((objAt g oid).fields.getD []) fname e) } := by
                rw [objAt_eq_objAtL]
                show objAtL (g.objs.set oid _) oid = _
                rw [objAtL_set_self _ _ _ hoid]
                rfl
              rw [hobj2]
              exact lookupField_upsert _ fname e
            · exact addDep_objs_length _ oid fname e
          · rw [hft] at hfound
            exact ⟨g2, hfound⟩
        · have hstep : ifaceScan impl oid a i fname ft g none (e :: tl) =
              ifaceScan impl oid a i fname ft g none tl := by
            show (if (objAt g e).priv = true then ifaceScan impl oid a i fname ft g none tl
              else if assignableTo impl (objAt g e).reflectType ft = true then
                ifaceScan impl oid a i fname ft (ifaceAssignState g oid a i fname e)
                  (some e) tl
              else ifaceScan impl oid a i fname ft g none tl) = _
            rw [if_neg (by rw [(hP e).1]; simp [hpe]),
              if_neg (by rw [(hP e).2.1]; simp [has])]
          rw [if_neg (by simp [hpe, has]), hstep]
          exact ih g hP ha hi hoid

theorem puiField_plain_iface_eq (impl : Impl) (g : GState) (oid a i : Nat)
    (fi : FieldInfo) (iname : String)
    (htag : parseTag fi.tag = .ok (some injectOnly))
    (hzero : isNilOrZero g.cells (slotAt g.cells a i) (.tiface iname) = true) :
    puiField impl g oid a i fi (.tiface iname) =
      ifaceScan impl oid a i fi.name (.tiface iname) g none g.unnamed := by
  unfold puiField
  rw [htag]
  simp [hzero, injectOnly, isIfaceKind]

/-- C2: for a still-zero interface field with a plain directive, phase 2
counts the non-private unnamed objects assignable to the interface:
none of them is the no-implementation error; exactly one is assigned
into the field with the dependency edge recorded in the object's Fields
map; two or more is the ambiguity error naming the first two candidates'
types. -/
theorem iface_field_trichotomy (impl : Impl) (g : GState) (oid a i : Nat)
    (fi : FieldInfo) (iname : String)
    (htag : parseTag fi.tag = .ok (some injectOnly))
    (hzero : isNilOrZero g.cells (slotAt g.cells a i) (.tiface iname) = true)
    (ha : a < g.cells.length) (hi : i < (cellAt g.cells a).length)
    (hoid : oid < g.objs.length) :
    (g.unnamed.filter (fun e => !(objAt g e).priv &&
        assignableTo impl (objAt g e).reflectType (.tiface iname)) = [] →
      puiField impl g oid a i fi (.tiface iname) = (g, some (.err (.noImpl fi.name)))) ∧
    (∀ e1, g.unnamed.filter (fun e => !(objAt g e).priv &&
        assignableTo impl (objAt g e).reflectType (.tiface iname)) = [e1] →
      ∃ g', puiField impl g oid a i fi (.tiface iname) = (g', none) ∧
        slotAt g'.cells a i = .viface (objAt g e1).reflectType (objAt g e1).value ∧
        lookupField (objAt g' oid).fields fi.name = some e1 ∧
        g'.unnamed = g.unnamed ∧ g'.objs.length = g.objs.length) ∧
    (∀ e1 e2 tail, g.unnamed.filter (fun e => !(objAt g e).priv &&
        assignableTo impl (objAt g e).reflectType (.tiface iname)) = e1 :: e2 :: tail →
      ∃ g', puiField impl g oid a i fi (.tiface iname) =
        (g', some (.err (.ambiguous fi.name (objAt g e1).reflectType
          (objAt g e2).reflectType)))) := by
  have hmain := ifaceScan_start impl oid a i fi.name (.tiface iname)
    (fun j => (objAt g j).priv) (fun j => (objAt g j).reflectType) (fun j => (objAt g j).value)
    g.unnamed g (fun j => ⟨rfl, rfl, rfl⟩) ha hi hoid
  simp only at hmain
  rw [puiField_plain_iface_eq impl g oid a i fi iname htag hzero]
  refine ⟨?_, ?_, ?_⟩
  · intro hf
    rw [hf] at hmain
    exact hmain
  · intro e1 hf
    rw [hf] at hmain
    exact hmain
  · intro e1 e2 tail hf
    rw [hf] at hmain
    exact hmain

/-- C2 witness: with exactly one assignable candidate the field is
assigned and the edge recorded. -/
theorem iface_field_trichotomy_witness :
    ∃ g', puiField implD gI 1 1 0 fiX (.tiface "I") = (g', none) ∧
      slotAt g'.cells 1 0 = .viface (objAt gI 0).reflectType (objAt gI 0).value ∧
      lookupField (objAt g' 1).fields fiX.name = some 0 ∧
      g'.unnamed = gI.unnamed ∧ g'.objs.length = gI.objs.length :=
  (iface_field_trichotomy implD gI 1 1 0 fiX "I" rfl (by decide) (by decide) (by decide)
    (by decide)).2.1 0 (by decide)

/-! ### C8: what `Populate` does (and does not) preserve of complete objects -/

theorem objAt_congr {g g' : GState} (h : g'.objs = g.objs) (j : Nat) :
    objAt g' j = objAt g j := by
  unfold objAt
  rw [h]

theorem objAt_default {g : GState} {j : Nat} (h : g.objs.length ≤ j) :
    objAt g j = default := by
  unfold objAt
  rw [List.get?_eq_none.mpr h]
  rfl

theorem objAtL_append_lt (l l' : List Object) (j : Nat) (hj : j < l.length) :
    objAtL (l ++ l') j = objAtL l j := by
  unfold objAtL
  rw [List.get?_eq_getElem?, List.get?_eq_getElem?, List.getElem?_append_left hj]

theorem completePres_refl (g : GState) : CompletePres g g :=
  ⟨fun _ _ => rfl, fun _ h => h⟩

theorem completePres_trans {g g1 g2 : GState} (h1 : CompletePres g g1)
    (h2 : CompletePres g1 g2) : CompletePres g g2 := by
  constructor
  · intro j hc
    have e1 := h1.1 j hc
    have hc1 : (objAt g1 j).complete = true := by rw [e1]; exact hc
    rw [h2.1 j hc1, e1]
  · intro j hc
    exact h1.2 j (h2.2 j hc)

theorem completePres_objs_eq {g g' : GState} (h : g'.objs = g.objs) :
    CompletePres g g' := by
  constructor
  · intro j _
    exact objAt_congr h j
  · intro j hc
    rw [← objAt_congr h j]
    exact hc

theorem completePres_keeps_incomplete {g g' : GState} (h : CompletePres g g') (j : Nat)
    (hj : (objAt g j).complete = false) : (objAt g' j).complete = false := by
  cases hc : (objAt g' j).complete
  · rfl
  · have := h.2 j hc
    rw [hj] at this
    exact Bool.noConfusion this

theorem completePres_append (g g' : GState) (o : Object) (ho : o.complete = false)
    (hobjs : g'.objs = g.objs ++ [o]) : CompletePres g g' := by
  constructor
  · intro j hc
    have hj : j < g.objs.length := by
      by_contra hge
      rw [objAt_default (by omega)] at hc
      exact Bool.noConfusion hc
    rw [objAt_eq_objAtL, hobjs, objAtL_append_lt _ _ _ hj]
    rfl
  · intro j hc
    rw [objAt_eq_objAtL, hobjs] at hc
    by_cases hj : j < g.objs.length
    · rw [objAtL_append_lt _ _ _ hj] at hc
      exact hc
    · by_cases hj2 : j = g.objs.length
      · unfold objAtL at hc
        rw [hj2, get?_getD_append_self g.objs o, ho] at hc
        exact Bool.noConfusion hc
      · unfold objAtL at hc
        rw [List.get?_eq_none.mpr (by simp; omega)] at hc
        exact Bool.noConfusion hc

theorem provide1_completePres (g : GState) (o : Object) (ho : o.complete = false) :
    CompletePres g (provide1 g o).1 := by
  unfold provide1
  split
  · exact completePres_refl g
  · split
    · split
      · exact completePres_refl g
      · split
        · exact completePres_refl g
        · exact completePres_append g _ o ho rfl
    · split
      · exact completePres_refl g
      · exact completePres_append g _ o ho rfl

theorem addDep_completePres (g : GState) (oid : Nat) (fname : String) (eid : Nat)
    (hoid : (objAt g oid).complete = false) :
    CompletePres g (addDep g oid fname eid) := by
  constructor
  · intro j hc
    have hne : oid ≠ j := by
      intro h
      rw [h, hc] at hoid
      exact Bool.noConfusion hoid
    have he : objAt (addDep g oid fname eid) j =
        objAtL (g.objs.set oid
          { objAt g oid with
            fields := some (upsert ((objAt g oid).fields.getD []) fname eid) }) j := rfl
    rw [he, objAtL_set_ne _ _ _ _ hne]
    rfl
  · intro j hc
    rw [← (addDep_objAt g oid fname eid j).2.2.2]
    exact hc

theorem assignReuse_completePres (g : GState) (oid a i : Nat) (fname : String) (ft : Ty)
    (eid : Nat) (hoid : (objAt g oid).complete = false) :
    CompletePres g (assignReuse g oid a i fname ft eid) := by
  unfold assignReuse
  exact completePres_trans (completePres_objs_eq rfl)
    (addDep_completePres _ oid fname eid hoid)

theorem ensureIndex_fst_objs (g : GState) : (ensureIndex g).1.objs = g.objs := by
  unfold ensureIndex
  split <;> rfl

theorem findExisting_fst_objs (impl : Impl) (g : GState) (ft : Ty) :
    (findExisting impl g ft).1.objs = g.objs := by
  cases he : ensureIndex g with
  | mk g1 idx =>
    have h1 : g1.objs = g.objs := by
      have := ensureIndex_fst_objs g
      rw [he] at this
      exact this
    rw [findExisting_eq impl g ft g1 idx he]
    cases hf : (idxLookup idx ft).find? (fun eid => !(objAt g1 eid).priv) with
    | some eid => exact h1
    | none => exact h1

theorem synthNew_completePres (g : GState) (oid a i : Nat) (fname : String) (ft : Ty)
    (isPriv : Bool) (hoid : (objAt g oid).complete = false) :
    CompletePres g (synthNew g oid a i fname ft isPriv).1 := by
  unfold synthNew
  split
  · rename_i sn flds
    set gx : GState :=
      { g with cells := (zeroValFields flds g.cells).2 ++ [(zeroValFields flds g.cells).1] }
      with hgx
    set nobj : Object :=
      { value := .vptr (zeroValFields flds g.cells).2.length, name := "",
        complete := false, fields := none, reflectType := .tptr (.tstruct sn flds),
        priv := isPriv, created := true, embedded := false } with hnobj
    show CompletePres g (match (provide1 gx nobj).2 with
      | some e => ((provide1 gx nobj).1, some (Fail.err e))
      | none => (addDep { (provide1 gx nobj).1 with
          cells := setSlot (provide1 gx nobj).1.cells a i
            (.vptr (zeroValFields flds g.cells).2.length) }
          oid fname g.objs.length, none)).1
    have hgxpres : CompletePres g gx := completePres_objs_eq rfl
    have h1 : CompletePres g (provide1 gx nobj).1 :=
      completePres_trans hgxpres (provide1_completePres gx nobj rfl)
    cases hpr : (provide1 gx nobj).2 with
    | some e => exact h1
    | none =>
        have hoid1 : (objAt (provide1 gx nobj).1 oid).complete = false :=
          completePres_keeps_incomplete h1 oid hoid
        have h2 : CompletePres (provide1 gx nobj).1 { (provide1 gx nobj).1 with cells := setSlot (provide1 gx nobj).1.cells a i (.vptr (zeroValFields flds g.cells).2.length) } := completePres_objs_eq rfl
        exact completePres_trans h1
          (completePres_trans h2
            (addDep_completePres _ oid fname g.objs.length hoid1))
  · exact completePres_refl g

theorem peField_completePres (impl : Impl) (g : GState) (oid a i : Nat) (fi : FieldInfo)
    (ft : Ty) (hoid : (objAt g oid).complete = false) :
    CompletePres g (peField impl g oid a i fi ft).1 := by
  unfold peField
  cases parseTag fi.tag with
  | error e => exact completePres_refl g
  | ok ot =>
    cases ot with
    | none => exact completePres_refl g
    | some tg =>
      dsimp only []
      split
      · exact completePres_refl g
      · split
        · exact completePres_refl g
        · split
          · exact completePres_refl g
          · split
            · split
              · exact completePres_refl g
              · split
                · exact completePres_refl g
                · exact assignReuse_completePres g oid a i fi.name ft _ hoid
            · split
              · split
                · exact completePres_refl g
                · split
                  · exact completePres_refl g
                  · split
                    · rename_i sub hslot
                      split
                      · rename_i g' heq
                        have := provide1_completePres g
                          { value := .vptr sub, name := "", complete := false,
                            fields := none, reflectType := .tptr ft, priv := true,
                            created := false, embedded := fi.anonymous } rfl
                        rw [heq] at this
                        exact this
                      · rename_i g' e heq
                        have := provide1_completePres g
                          { value := .vptr sub, name := "", complete := false,
                            fields := none, reflectType := .tptr ft, priv := true,
                            created := false, embedded := fi.anonymous } rfl
                        rw [heq] at this
                        exact this
                    · exact completePres_refl g
              · split
                · exact completePres_refl g
                · split
                  · split
                    · exact completePres_refl g
                    · exact completePres_objs_eq rfl
                  · split
                    · exact completePres_refl g
                    · split
                      · split
                        · rename_i g' eid heq
                          have hobjs : g'.objs = g.objs := by
                            have := findExisting_fst_objs impl g ft
                            rw [heq] at this
                            exact this
                          have hoid' : (objAt g' oid).complete = false := by
                            rw [objAt_congr hobjs oid]
                            exact hoid
                          exact completePres_trans (completePres_objs_eq hobjs)
                            (assignReuse_completePres g' oid a i fi.name ft eid hoid')
                        · rename_i g' heq
                          have hobjs : g'.objs = g.objs := by
                            have := findExisting_fst_objs impl g ft
                            rw [heq] at this
                            exact this
                          have hoid' : (objAt g' oid).complete = false := by
                            rw [objAt_congr hobjs oid]
                            exact hoid
                          exact completePres_trans (completePres_objs_eq hobjs)
                            (synthNew_completePres g' oid a i fi.name ft tg.priv hoid')
                      · exact synthNew_completePres g oid a i fi.name ft tg.priv hoid

theorem peLoop_completePres (impl : Impl) (oid a : Nat) (flds : List (FieldInfo × Ty)) :
    ∀ (g : GState) (i : Nat), (objAt g oid).complete = false →
      CompletePres g (peLoop impl oid a g i flds).1 := by
  induction flds with
  | nil =>
      intro g i _
      exact completePres_refl g
  | cons p rest ih =>
      intro g i h
      cases p with
      | mk fi ft =>
        unfold peLoop
        cases hpe : peField impl g oid a i fi ft with
        | mk g' r =>
          have h1 : CompletePres g g' := by
            have := peField_completePres impl g oid a i fi ft h
            rw [hpe] at this
            exact this
          cases r with
          | none =>
              exact completePres_trans h1
                (ih g' (i + 1) (completePres_keeps_incomplete h1 oid h))
          | some f => exact h1

theorem populateExplicit_completePres (impl : Impl) (g : GState) (oid : Nat)
    (hoid : (objAt g oid).complete = false) :
    CompletePres g (populateExplicit impl g oid).1 := by
  unfold populateExplicit
  dsimp only []
  split
  · exact completePres_refl g
  · split
    · exact peLoop_completePres impl oid _ _ g 0 hoid
    · exact completePres_refl g

theorem phase1Named_completePres (impl : Impl) (l : List Nat) :
    ∀ (g : GState), CompletePres g (phase1Named impl g l).1 := by
  induction l with
  | nil =>
      intro g
      exact completePres_refl g
  | cons oid rest ih =>
      intro g
      unfold phase1Named
      split
      · exact ih g
      · rename_i hnc
        have hoid : (objAt g oid).complete = false := by
          cases h : (objAt g oid).complete
          · rfl
          · exact absurd h hnc
        cases hpe : populateExplicit impl g oid with
        | mk g' r =>
          have h1 : CompletePres g g' := by
            have := populateExplicit_completePres impl g oid hoid
            rw [hpe] at this
            exact this
          cases r with
          | none => exact completePres_trans h1 (ih g')
          | some f => exact h1

theorem phase1Worklist_completePres (impl : Impl) (fuel : Nat) :
    ∀ (g : GState) (i : Nat), CompletePres g (phase1Worklist impl fuel g i).1 := by
  induction fuel with
  | zero =>
      intro g i
      unfold phase1Worklist
      split <;> exact completePres_refl g
  | succ n ih =>
      intro g i
      unfold phase1Worklist
      split
      · exact completePres_refl g
      · dsimp only []
        split
        · exact ih g (i + 1)
        · rename_i hnc
          have hoid : (objAt g (g.unnamed.getD i 0)).complete = false := by
            cases h : (objAt g (g.unnamed.getD i 0)).complete
            · rfl
            · exact absurd h hnc
          cases hpe : populateExplicit impl g (g.unnamed.getD i 0) with
          | mk g' r =>
            have h1 : CompletePres g g' := by
              have := populateExplicit_completePres impl g (g.unnamed.getD i 0) hoid
              rw [hpe] at this
              exact this
            cases r with
            | none => exact completePres_trans h1 (ih g' (i + 1))
            | some f => exact h1

theorem ifaceScan_completePres (impl : Impl) (oid a i : Nat) (fname : String) (ft : Ty)
    (l : List Nat) :
    ∀ (g : GState) (found : Option Nat), (objAt g oid).complete = false →
      CompletePres g (ifaceScan impl oid a i fname ft g found l).1 := by
  induction l with
  | nil =>
      intro g found _
      unfold ifaceScan
      cases found <;> exact completePres_refl g
  | cons eid rest ih =>
      intro g found h
      unfold ifaceScan
      dsimp only []
      split
      · exact ih g found h
      · split
        · split
          · exact completePres_refl g
          · have h1 : CompletePres g (addDep { g with cells := setSlot g.cells a i (.viface (objAt g eid).reflectType (objAt g eid).value) } oid fname eid) := completePres_trans (completePres_objs_eq rfl) (addDep_completePres _ oid fname eid h)
            exact completePres_trans h1
              (ih _ (some eid) (completePres_keeps_incomplete h1 oid h))
        · exact ih g found h

theorem puiField_completePres (impl : Impl) (g : GState) (oid a i : Nat) (fi : FieldInfo)
    (ft : Ty) (hoid : (objAt g oid).complete = false) :
    CompletePres g (puiField impl g oid a i fi ft).1 := by
  unfold puiField
  cases parseTag fi.tag with
  | error e => exact completePres_refl g
  | ok ot =>
    cases ot with
    | none => exact completePres_refl g
    | some tg =>
      dsimp only []
      split
      · exact completePres_refl g
      · split
        · exact completePres_refl g
        · split
          · exact completePres_refl g
          · split
            · exact completePres_refl g
            · exact ifaceScan_completePres impl oid a i fi.name ft g.unnamed g none hoid

theorem puiLoop_completePres (impl : Impl) (oid a : Nat) (flds : List (FieldInfo × Ty)) :
    ∀ (g : GState) (i : Nat), (objAt g oid).complete = false →
      CompletePres g (puiLoop impl oid a g i flds).1 := by
  induction flds with
  | nil =>
      intro g i _
      exact completePres_refl g
  | cons p rest ih =>
      intro g i h
      cases p with
      | mk fi ft =>
        unfold puiLoop
        cases hpe : puiField impl g oid a i fi ft with
        | mk g' r =>
          have h1 : CompletePres g g' := by
            have := puiField_completePres impl g oid a i fi ft h
            rw [hpe] at this
            exact this
          cases r with
          | none =>
              exact completePres_trans h1
                (ih g' (i + 1) (completePres_keeps_incomplete h1 oid h))
          | some f => exact h1

theorem populateUnnamedInterface_completePres (impl : Impl) (g : GState) (oid : Nat)
    (hoid : (objAt g oid).complete = false) :
    CompletePres g (populateUnnamedInterface impl g oid).1 := by
  unfold populateUnnamedInterface
  dsimp only []
  split
  · exact completePres_refl g
  · split
    · exact puiLoop_completePres impl oid _ _ g 0 hoid
    · exact completePres_refl g

theorem phase2Unnamed_completePres (impl : Impl) (l : List Nat) :
    ∀ (g : GState), CompletePres g (phase2Unnamed impl g l).1 := by
  induction l with
  | nil =>
      intro g
      exact completePres_refl g
  | cons oid rest ih =>
      intro g
      unfold phase2Unnamed
      split
      · exact ih g
      · rename_i hnc
        have hoid : (objAt g oid).complete = false := by
          cases h : (objAt g oid).complete
          · rfl
          · exact absurd h hnc
        cases hpe : populateUnnamedInterface impl g oid with
        | mk g' r =>
          have h1 : CompletePres g g' := by
            have := populateUnnamedInterface_completePres impl g oid hoid
            rw [hpe] at this
            exact this
          cases r with
          | none => exact completePres_trans h1 (ih g')
          | some f => exact h1

theorem phase2Named_completePres (impl : Impl) (l : List Nat) :
    ∀ (g : GState), CompletePres g (phase2Named impl g l).1 := by
  induction l with
  | nil =>
      intro g
      exact completePres_refl g
  | cons oid rest ih =>
      intro g
      unfold phase2Named
      split
      · exact ih g
      · rename_i hnc
        have hoid : (objAt g oid).complete = false := by
          cases h : (objAt g oid).complete
          · rfl
          · exact absurd h hnc
        cases hpe : populateUnnamedInterface impl g oid with
        | mk g' r =>
          have h1 : CompletePres g g' := by
            have := populateUnnamedInterface_completePres impl g oid hoid
            rw [hpe] at this
            exact this
          cases r with
          | none => exact completePres_trans h1 (ih g')
          | some f => exact h1

theorem phase1_completePres (impl : Impl) (fuel : Nat) (g : GState) :
    CompletePres g (phase1 impl fuel g).1 := by
  unfold phase1
  cases hp : phase1Named impl g (g.named.map (·.2)) with
  | mk g1 r =>
    have h1 : CompletePres g g1 := by
      have := phase1Named_completePres impl (g.named.map (·.2)) g
      rw [hp] at this
      exact this
    cases r with
    | none => exact completePres_trans h1 (phase1Worklist_completePres impl fuel g1 0)
    | some f => exact h1

theorem phase2_completePres (impl : Impl) (g : GState) :
    CompletePres g (phase2 impl g).1 := by
  unfold phase2
  cases hp : phase2Unnamed impl g g.unnamed with
  | mk g1 r =>
    have h1 : CompletePres g g1 := by
      have := phase2Unnamed_completePres impl g.unnamed g
      rw [hp] at this
      exact this
    cases r with
    | none => exact completePres_trans h1 (phase2Named_completePres impl (g1.named.map (·.2)) g1)
    | some f => exact h1

theorem populate_completePres (impl : Impl) (fuel : Nat) (g : GState) :
    CompletePres g (populate impl fuel g).1 := by
  unfold populate
  cases hp : phase1 impl fuel g with
  | mk g1 r =>
    have h1 : CompletePres g g1 := by
      have := phase1_completePres impl fuel g
      rw [hp] at this
      exact this
    cases r with
    | none => exact completePres_trans h1 (phase2_completePres impl g1)
    | some f => exact h1

/-- C8 counterexample: a complete object is not left entirely unchanged.
In `gC8` the complete object's value points at cell 0 and its injected
field is nil before `Populate`; `Populate` succeeds and, while resolving
the aliased incomplete named object, writes a pointer into that very
field of the complete object's struct. -/
theorem populate_complete_object_mutated_cex :
    (objAt gC8 0).complete = true ∧
    (objAt gC8 0).value = .vptr 0 ∧
    slotAt gC8.cells 0 0 = .vnil ∧
    (populate noImplF 4 gC8).2 = none ∧
    ¬ slotAt (populate noImplF 4 gC8).1.cells 0 0 = .vnil := by
  refine ⟨rfl, rfl, rfl, ?_, ?_⟩
  · rfl
  · intro h
    exact Val.noConfusion (h.symm.trans (show slotAt (populate noImplF 4 gC8).1.cells 0 0 =
      .vptr 1 from rfl))

/-- C8, amended to the part the code does guarantee: `Populate` never
touches a complete object's record — its `Fields` audit map, value, type
and flags are returned exactly as provided (in particular no dependency
edge is ever added to it); only the struct storage its value points to
can change, through an aliased incomplete object. -/
theorem populate_complete_object_record_preserved (impl : Impl) (fuel : Nat) (g : GState)
    (oid : Nat) (h : (objAt g oid).complete = true) :
    objAt (populate impl fuel g).1 oid = objAt g oid :=
  (populate_completePres impl fuel g).1 oid h

theorem populate_complete_object_record_preserved_witness :
    (objAt gC8 0).complete = true ∧
    objAt (populate noImplF 4 gC8).1 0 = objAt gC8 0 :=
  ⟨rfl, populate_complete_object_record_preserved noImplF 4 gC8 0 rfl⟩

theorem wtExt_refl (wt : List (Option Layout)) : WtExt wt wt := ⟨[], by simp⟩

theorem wtExt_trans {w1 w2 w3 : List (Option Layout)} (h1 : WtExt w1 w2)
    (h2 : WtExt w2 w3) : WtExt w1 w3 := by
  obtain ⟨e1, he1⟩ := h1
  obtain ⟨e2, he2⟩ := h2
  exact ⟨e1 ++ e2, by rw [he2, he1, List.append_assoc]⟩

theorem evo_refl (g : GState) : Evo g g :=
  ⟨Nat.le_refl _, fun _ _ => ⟨rfl, rfl, rfl, rfl, rfl⟩, ⟨[], by simp⟩, rfl, fun _ _ h => h⟩

theorem evo_trans {g g1 g2 : GState} (h1 : Evo g g1) (h2 : Evo g1 g2) : Evo g g2 := by
  obtain ⟨hl1, ho1, ⟨e1, he1⟩, hn1, hs1⟩ := h1
  obtain ⟨hl2, ho2, ⟨e2, he2⟩, hn2, hs2⟩ := h2
  refine ⟨Nat.le_trans hl1 hl2, ?_, ⟨e1 ++ e2, by rw [he2, he1, List.append_assoc]⟩,
    hn2.trans hn1, fun a i h => hs2 a i (hs1 a i h)⟩
  intro j hj
  obtain ⟨v1, n1, r1, c1, p1⟩ := ho1 j hj
  obtain ⟨v2, n2, r2, c2, p2⟩ := ho2 j (Nat.lt_of_lt_of_le hj hl1)
  exact ⟨v2.trans v1, n2.trans n1, r2.trans r1, c2.trans c1, p2.trans p1⟩

theorem getOpt_append_left {α : Type} (l l' : List (Option α)) (a : Nat) (x : α)
    (h : (l.get? a).getD none = some x) : ((l ++ l').get? a).getD none = some x := by
  have hlt : a < l.length := by
    by_contra hc
    rw [List.get?_eq_none.mpr (by omega)] at h
    exact Option.noConfusion h
  rw [List.get?_eq_getElem?, List.getElem?_append_left hlt, ← List.get?_eq_getElem?]
  exact h

theorem valOk_mono (wt ext : List (Option Layout)) :
    ∀ (v : Val) (t : Ty), valOk wt t v = true → valOk (wt ++ ext) t v = true := by
  intro v
  induction v with
  | vnil =>
      intro t h
      unfold valOk at h ⊢
      exact h
  | vptr b =>
      intro t h
      unfold valOk at h ⊢
      cases t with
      | tptr u =>
          cases u with
          | tstruct sn flds =>
              rw [decide_eq_true_eq] at h
              rw [decide_eq_true_eq]
              exact getOpt_append_left wt ext b flds h
          | _ => exact h
      | _ => exact h
  | vstructRef b =>
      intro t h
      unfold valOk at h ⊢
      cases t with
      | tstruct sn flds =>
          rw [decide_eq_true_eq] at h
          rw [decide_eq_true_eq]
          exact getOpt_append_left wt ext b flds h
      | _ => exact h
  | viface dt w ih =>
      intro t h
      unfold valOk at h ⊢
      cases t with
      | tiface n =>
          rw [Bool.and_eq_true] at h
          rw [Bool.and_eq_true]
          exact ⟨h.1, ih dt h.2⟩
      | _ => exact h
  | vmap =>
      intro t h
      unfold valOk at h ⊢
      exact h
  | vint n =>
      intro t h
      unfold valOk at h ⊢
      exact h
  | vstr s =>
      intro t h
      unfold valOk at h ⊢
      exact h
  | vbool b =>
      intro t h
      unfold valOk at h ⊢
      exact h

theorem cellOk_mono (wt ext : List (Option Layout)) (flds : Layout) (cell : List Val)
    (h : cellOk wt flds cell) : cellOk (wt ++ ext) flds cell :=
  ⟨h.1, fun i fi ft hi => valOk_mono wt ext _ _ (h.2 i fi ft hi)⟩

theorem objsOk_mono (wt ext : List (Option Layout)) (g : GState)
    (h : objsOk wt g) : objsOk (wt ++ ext) g :=
  fun j hj => ⟨valOk_mono wt ext _ _ (h j hj).1, (h j hj).2⟩

theorem cellAt_append_self (h : Heap) (c : List Val) :
    cellAt (h ++ [c]) h.length = c := by
  unfold cellAt
  rw [List.get?_eq_getElem?, List.getElem?_concat_length]
  rfl

theorem heapWF_snoc (wt : List (Option Layout)) (h : Heap) (hwf : heapWF wt h)
    (ol : Option Layout) (c : List Val)
    (hc : ∀ flds, ol = some flds → cellOk (wt ++ [ol]) flds c) :
    heapWF (wt ++ [ol]) (h ++ [c]) := by
  constructor
  · simp [hwf.1]
  · intro a flds ha
    have hlen : wt.length = h.length := hwf.1
    by_cases hlt : a < wt.length
    · have hget : (wt.get? a).getD none = some flds := by
        rwa [List.get?_eq_getElem?, List.getElem?_append_left hlt,
          ← List.get?_eq_getElem?] at ha
      have hco := cellOk_mono wt [ol] flds _ (hwf.2 a flds hget)
      rw [cellAt_append_lt h [c] a (by omega)]
      exact hco
    · by_cases heq : a = wt.length
      · subst heq
        have hget : ((wt ++ [ol]).get? wt.length).getD none = ol := by
          rw [List.get?_eq_getElem?, List.getElem?_concat_length]
          rfl
        rw [hget] at ha
        rw [hlen, cellAt_append_self h c]
        exact hc flds ha
      · rw [List.get?_eq_none.mpr (by simp; omega)] at ha
        exact Option.noConfusion ha

theorem heapWF_setSlot (wt : List (Option Layout)) (h : Heap) (a i : Nat) (v : Val)
    (flds : Layout) (fi : FieldInfo) (ft : Ty)
    (hwf : heapWF wt h)
    (hwta : (wt.get? a).getD none = some flds)
    (hidx : flds.get? i = some (fi, ft))
    (hv : valOk wt ft v = true) :
    heapWF wt (setSlot h a i v) := by
  have hal : a < wt.length := by
    by_contra hc
    rw [List.get?_eq_none.mpr (by omega)] at hwta
    exact Option.noConfusion hwta
  have hlen : wt.length = h.length := hwf.1
  have hah : a < h.length := by omega
  constructor
  · rw [length_setSlot]
    exact hwf.1
  · intro b fl hb
    by_cases hba : b = a
    · subst hba
      have hfl : fl = flds := (Option.some.inj (hwta.symm.trans hb)).symm
      subst hfl
      rw [cellAt_setSlot_self h b i v hah]
      have hco := hwf.2 b fl hb
      constructor
      · rw [List.length_set]
        exact hco.1
      · intro k fk ftk hk
        by_cases hki : k = i
        · subst hki
          have hpe : (fi, ft) = (fk, ftk) := Option.some.inj (hidx.symm.trans hk)
          have hkl : k < (cellAt h b).length := by
            have h1 : k < fl.length := by
              by_contra hc
              rw [List.get?_eq_none.mpr (by omega)] at hk
              exact Option.noConfusion hk
            have h2 := hco.1
            omega
          rw [List.getD_eq_getElem?_getD, List.getElem?_set_self hkl,
            Option.getD_some]
          rw [show ftk = ft from (congrArg Prod.snd hpe).symm]
          exact hv
        · rw [List.getD_eq_getElem?_getD, List.getElem?_set_ne (by omega),
            ← List.getD_eq_getElem?_getD]
          exact hco.2 k fk ftk hk
    · rw [cellAt_setSlot_other h a i v b hba]
      exact hwf.2 b fl hb

theorem slotAt_setSlot_cases (h : Heap) (a i : Nat) (v : Val) (b j : Nat) :
    (b = a ∧ j = i ∧ slotAt (setSlot h a i v) b j = v) ∨
    slotAt (setSlot h a i v) b j = slotAt h b j := by
  by_cases hba : b = a
  · subst hba
    by_cases hbl : b < h.length
    · by_cases hji : j = i
      · subst hji
        by_cases hjc : j < (cellAt h b).length
        · left
          refine ⟨rfl, rfl, ?_⟩
          unfold slotAt
          rw [cellAt_setSlot_self h b j v hbl]
          rw [List.getD_eq_getElem?_getD, List.getElem?_set_self hjc, Option.getD_some]
        · right
          unfold slotAt
          rw [cellAt_setSlot_self h b j v hbl]
          rw [List.set_eq_of_length_le (by omega)]
      · right
        unfold slotAt
        rw [cellAt_setSlot_self h b i v hbl]
        rw [List.getD_eq_getElem?_getD, List.getElem?_set_ne (by omega),
          ← List.getD_eq_getElem?_getD]
    · right
      unfold setSlot
      rw [List.set_eq_of_length_le (by omega)]
  · right
    unfold slotAt
    rw [cellAt_setSlot_other h a i v b hba]

theorem slotAt_append_of_ne_nil (h ext : Heap) (b j : Nat)
    (hnn : slotAt h b j ≠ .vnil) : slotAt (h ++ ext) b j = slotAt h b j := by
  by_cases hb : b < h.length
  · unfold slotAt
    rw [cellAt_append_lt h ext b hb]
  · exfalso
    apply hnn
    unfold slotAt cellAt
    rw [List.get?_eq_none.mpr (by omega)]
    rfl

theorem nonNil_setSlot (h : Heap) (a i : Nat) (v : Val) (hv : v ≠ .vnil) (b j : Nat)
    (hnn : slotAt h b j ≠ .vnil) : slotAt (setSlot h a i v) b j ≠ .vnil := by
  cases slotAt_setSlot_cases h a i v b j with
  | inl he => rw [he.2.2]; exact hv
  | inr he => rw [he]; exact hnn

theorem nonNil_append (h ext : Heap) (b j : Nat)
    (hnn : slotAt h b j ≠ .vnil) : slotAt (h ++ ext) b j ≠ .vnil := by
  rw [slotAt_append_of_ne_nil h ext b j hnn]
  exact hnn

mutual
theorem copyVal_extends : ∀ (t : Ty) (v : Val) (h : Heap),
    ∃ ext, (copyVal t v h).2 = h ++ ext
  | .tstruct _ flds, v, h => by
      cases v with
      | vstructRef b =>
          obtain ⟨ext, hext⟩ := copyValFields_extends flds (cellAt h b) 0 h
          refine ⟨ext ++ [(copyValFields flds (cellAt h b) 0 h).1], ?_⟩
          show (copyValFields flds (cellAt h b) 0 h).2 ++
            [(copyValFields flds (cellAt h b) 0 h).1] = _
          rw [hext, List.append_assoc]
      | vnil => exact ⟨[], by simp [copyVal]⟩
      | vptr b => exact ⟨[], by simp [copyVal]⟩
      | viface dt w => exact ⟨[], by simp [copyVal]⟩
      | vmap => exact ⟨[], by simp [copyVal]⟩
      | vint n => exact ⟨[], by simp [copyVal]⟩
      | vstr s => exact ⟨[], by simp [copyVal]⟩
      | vbool c => exact ⟨[], by simp [copyVal]⟩
  | .tptr _, v, h => ⟨[], by simp [copyVal]⟩
  | .tiface _, v, h => ⟨[], by simp [copyVal]⟩
  | .tmap, v, h => ⟨[], by simp [copyVal]⟩
  | .tint, v, h => ⟨[], by simp [copyVal]⟩
  | .tstr, v, h => ⟨[], by simp [copyVal]⟩
  | .tbool, v, h => ⟨[], by simp [copyVal]⟩

theorem copyValFields_extends : ∀ (flds : List (FieldInfo × Ty)) (src : List Val)
    (i : Nat) (h : Heap), ∃ ext, (copyValFields flds src i h).2 = h ++ ext
  | [], src, i, h => ⟨[], by simp [copyValFields]⟩
  | (_, ft) :: rest, src, i, h => by
      obtain ⟨e1, he1⟩ := copyVal_extends ft (src.getD i .vnil) h
      obtain ⟨e2, he2⟩ :=
        copyValFields_extends rest src (i + 1) (copyVal ft (src.getD i .vnil) h).2
      refine ⟨e1 ++ e2, ?_⟩
      show (copyValFields rest src (i + 1) (copyVal ft (src.getD i .vnil) h).2).2 = _
      rw [he2, he1, List.append_assoc]
end

mutual
theorem zeroVal_typed : ∀ (t : Ty) (h : Heap) (wt : List (Option Layout)),
    heapWF wt h →
    ∃ ext, heapWF (wt ++ ext) (zeroVal t h).2 ∧
      valOk (wt ++ ext) t (zeroVal t h).1 = true
  | .tstruct sn flds, h, wt, hwf => by
      obtain ⟨e1, hwf1, hlen1, hvals⟩ := zeroValFields_typed flds h wt hwf
      refine ⟨e1 ++ [some flds], ?_, ?_⟩
      · show heapWF (wt ++ (e1 ++ [some flds]))
          ((zeroValFields flds h).2 ++ [(zeroValFields flds h).1])
        rw [← List.append_assoc]
        refine heapWF_snoc (wt ++ e1) (zeroValFields flds h).2 hwf1 (some flds) _ ?_
        intro fl hfl
        injection hfl with hfl
        subst hfl
        constructor
        · rw [hlen1]
        · intro i fi ft hi
          exact valOk_mono (wt ++ e1) [some flds] _ _ (hvals i fi ft hi)
      · show valOk (wt ++ (e1 ++ [some flds])) (.tstruct sn flds)
          (.vstructRef (zeroValFields flds h).2.length) = true
        unfold valOk
        rw [decide_eq_true_eq, ← List.append_assoc]
        have hlw : (wt ++ e1).length = (zeroValFields flds h).2.length := hwf1.1
        rw [← hlw, List.get?_eq_getElem?, List.getElem?_concat_length]
        rfl
  | .tptr u, h, wt, hwf => ⟨[], by simpa using hwf, by rw [List.append_nil]; rfl⟩
  | .tiface n, h, wt, hwf => ⟨[], by simpa using hwf, by rw [List.append_nil]; rfl⟩
  | .tmap, h, wt, hwf => ⟨[], by simpa using hwf, by rw [List.append_nil]; rfl⟩
  | .tint, h, wt, hwf => ⟨[], by simpa using hwf, by rw [List.append_nil]; rfl⟩
  | .tstr, h, wt, hwf => ⟨[], by simpa using hwf, by rw [List.append_nil]; rfl⟩
  | .tbool, h, wt, hwf => ⟨[], by simpa using hwf, by rw [List.append_nil]; rfl⟩

theorem zeroValFields_typed : ∀ (flds : List (FieldInfo × Ty)) (h : Heap)
    (wt : List (Option Layout)), heapWF wt h →
    ∃ ext, heapWF (wt ++ ext) (zeroValFields flds h).2 ∧
      (zeroValFields flds h).1.length = flds.length ∧
      ∀ i fi ft, flds.get? i = some (fi, ft) →
        valOk (wt ++ ext) ft ((zeroValFields flds h).1.getD i .vnil) = true
  | [], h, wt, hwf => by
      refine ⟨[], by simpa using hwf, rfl, ?_⟩
      intro i fi ft hi
      rw [List.get?_eq_none.mpr (by simp)] at hi
      exact Option.noConfusion hi
  | (fi0, ft0) :: rest, h, wt, hwf => by
      obtain ⟨e1, hwf1, hv1⟩ := zeroVal_typed ft0 h wt hwf
      obtain ⟨e2, hwf2, hlen2, hvals2⟩ :=
        zeroValFields_typed rest (zeroVal ft0 h).2 (wt ++ e1) hwf1
      refine ⟨e1 ++ e2, ?_, ?_, ?_⟩
      · show heapWF (wt ++ (e1 ++ e2)) (zeroValFields rest (zeroVal ft0 h).2).2
        rw [← List.append_assoc]
        exact hwf2
      · show ((zeroVal ft0 h).1 :: (zeroValFields rest (zeroVal ft0 h).2).1).length = _
        simp [hlen2]
      · intro i fi ft hi
        show valOk (wt ++ (e1 ++ e2)) ft
          (((zeroVal ft0 h).1 :: (zeroValFields rest (zeroVal ft0 h).2).1).getD i .vnil)
          = true
        rw [← List.append_assoc]
        cases i with
        | zero =>
            have hpe : (fi0, ft0) = (fi, ft) := Option.some.inj hi
            have hft : ft = ft0 := (congrArg Prod.snd hpe).symm
            subst hft
            exact valOk_mono (wt ++ e1) e2 _ _ hv1
        | succ k =>
            have hk : rest.get? k = some (fi, ft) := hi
            exact hvals2 k fi ft hk
end

mutual
theorem copyVal_typed : ∀ (t : Ty) (v : Val) (h : Heap) (wt : List (Option Layout)),
    heapWF wt h → valOk wt t v = true →
    ∃ ext, heapWF (wt ++ ext) (copyVal t v h).2 ∧
      valOk (wt ++ ext) t (copyVal t v h).1 = true
  | .tstruct sn flds, v, h, wt, hwf, hv => by
      cases v with
      | vstructRef b =>
          have hwtb : (wt.get? b).getD none = some flds := by
            have := hv
            unfold valOk at this
            rwa [decide_eq_true_eq] at this
          have hcell := hwf.2 b flds hwtb
          have hsrc : ∀ k fi ft, flds.get? k = some (fi, ft) →
              valOk wt ft ((cellAt h b).getD (0 + k) .vnil) = true := by
            intro k fi ft hk
            rw [Nat.zero_add]
            exact hcell.2 k fi ft hk
          obtain ⟨e1, hwf1, hlen1, hvals⟩ :=
            copyValFields_typed flds (cellAt h b) 0 h wt hwf hsrc
          refine ⟨e1 ++ [some flds], ?_, ?_⟩
          · show heapWF (wt ++ (e1 ++ [some flds]))
              ((copyValFields flds (cellAt h b) 0 h).2 ++
                [(copyValFields flds (cellAt h b) 0 h).1])
            rw [← List.append_assoc]
            refine heapWF_snoc (wt ++ e1) _ hwf1 (some flds) _ ?_
            intro fl hfl
            injection hfl with hfl
            subst hfl
            constructor
            · rw [hlen1]
            · intro i fi ft hi
              exact valOk_mono (wt ++ e1) [some flds] _ _ (hvals i fi ft hi)
          · show valOk (wt ++ (e1 ++ [some flds])) (.tstruct sn flds)
              (.vstructRef (copyValFields flds (cellAt h b) 0 h).2.length) = true
            unfold valOk
            rw [decide_eq_true_eq, ← List.append_assoc]
            have hlw : (wt ++ e1).length =
                (copyValFields flds (cellAt h b) 0 h).2.length := hwf1.1
            rw [← hlw, List.get?_eq_getElem?, List.getElem?_concat_length]
            rfl
      | vnil => exact absurd hv (by unfold valOk; simp)
      | vptr b => exact absurd hv (by unfold valOk; simp)
      | viface dt w => exact absurd hv (by unfold valOk; simp)
      | vmap => exact absurd hv (by unfold valOk; simp [isMapKind])
      | vint n => exact absurd hv (by unfold valOk; simp)
      | vstr s => exact absurd hv (by unfold valOk; simp)
      | vbool c => exact absurd hv (by unfold valOk; simp)
  | .tptr u, v, h, wt, hwf, hv =>
      ⟨[], by simpa using hwf, by rw [List.append_nil]; exact hv⟩
  | .tiface n, v, h, wt, hwf, hv =>
      ⟨[], by simpa using hwf, by rw [List.append_nil]; exact hv⟩
  | .tmap, v, h, wt, hwf, hv =>
      ⟨[], by simpa using hwf, by rw [List.append_nil]; exact hv⟩
  | .tint, v, h, wt, hwf, hv =>
      ⟨[], by simpa using hwf, by rw [List.append_nil]; exact hv⟩
  | .tstr, v, h, wt, hwf, hv =>
      ⟨[], by simpa using hwf, by rw [List.append_nil]; exact hv⟩
  | .tbool, v, h, wt, hwf, hv =>
      ⟨[], by simpa using hwf, by rw [List.append_nil]; exact hv⟩

theorem copyValFields_typed : ∀ (flds : List (FieldInfo × Ty)) (src : List Val)
    (i : Nat) (h : Heap) (wt : List (Option Layout)), heapWF wt h →
    (∀ k fi ft, flds.get? k = some (fi, ft) →
      valOk wt ft (src.getD (i + k) .vnil) = true) →
    ∃ ext, heapWF (wt ++ ext) (copyValFields flds src i h).2 ∧
      (copyValFields flds src i h).1.length = flds.length ∧
      ∀ k fi ft, flds.get? k = some (fi, ft) →
        valOk (wt ++ ext) ft ((copyValFields flds src i h).1.getD k .vnil) = true
  | [], src, i, h, wt, hwf, hsrc => by
      refine ⟨[], by simpa using hwf, rfl, ?_⟩
      intro k fi ft hk
      rw [List.get?_eq_none.mpr (by simp)] at hk
      exact Option.noConfusion hk
  | (fi0, ft0) :: rest, src, i, h, wt, hwf, hsrc => by
      have hv0 : valOk wt ft0 (src.getD i .vnil) = true := by
        have := hsrc 0 fi0 ft0 rfl
        rwa [Nat.add_zero] at this
      obtain ⟨e1, hwf1, hv1⟩ := copyVal_typed ft0 (src.getD i .vnil) h wt hwf hv0
      have hsrc2 : ∀ k fi ft, rest.get? k = some (fi, ft) →
          valOk (wt ++ e1) ft (src.getD ((i + 1) + k) .vnil) = true := by
        intro k fi ft hk
        rw [show (i + 1) + k = i + (k + 1) from by omega]
        exact valOk_mono wt e1 _ _ (hsrc (k + 1) fi ft hk)
      obtain ⟨e2, hwf2, hlen2, hvals2⟩ :=
        copyValFields_typed rest src (i + 1) (copyVal ft0 (src.getD i .vnil) h).2
          (wt ++ e1) hwf1 hsrc2
      refine ⟨e1 ++ e2, ?_, ?_, ?_⟩
      · show heapWF (wt ++ (e1 ++ e2))
          (copyValFields rest src (i + 1) (copyVal ft0 (src.getD i .vnil) h).2).2
        rw [← List.append_assoc]
        exact hwf2
      · show ((copyVal ft0 (src.getD i .vnil) h).1 ::
          (copyValFields rest src (i + 1) (copyVal ft0 (src.getD i .vnil) h).2).1).length
          = _
        simp only [List.length_cons, hlen2]
      · intro k fi ft hk
        show valOk (wt ++ (e1 ++ e2)) ft
          (((copyVal ft0 (src.getD i .vnil) h).1 ::
            (copyValFields rest src (i + 1)
              (copyVal ft0 (src.getD i .vnil) h).2).1).getD k .vnil) = true
        rw [← List.append_assoc]
        cases k with
        | zero =>
            have hpe : (fi0, ft0) = (fi, ft) := Option.some.inj hk
            have hft : ft = ft0 := (congrArg Prod.snd hpe).symm
            subst hft
            exact valOk_mono (wt ++ e1) e2 _ _ hv1
        | succ m =>
            have hm : rest.get? m = some (fi, ft) := hk
            exact hvals2 m fi ft hm
end

theorem isIfaceKind_iff (ft : Ty) : isIfaceKind ft = true ↔ ∃ n, ft = .tiface n := by
  cases ft <;> simp [isIfaceKind]

theorem isStructKind_iff (ft : Ty) : isStructKind ft = true ↔
    ∃ sn sf, ft = .tstruct sn sf := by
  cases ft <;> simp [isStructKind]

theorem isStructPtr_iff (ft : Ty) : isStructPtr ft = true ↔
    ∃ sn sf, ft = .tptr (.tstruct sn sf) := by
  cases ft with
  | tptr u => cases u <;> simp [isStructPtr]
  | _ => simp [isStructPtr]

theorem assignableTo_eq_of_not_iface (impl : Impl) (t target : Ty)
    (hni : isIfaceKind target = false) (h : assignableTo impl t target = true) :
    t = target := by
  unfold assignableTo at h
  rw [Bool.or_eq_true] at h
  cases h with
  | inl h => exact eq_of_beq h
  | inr h => cases target <;> simp [isIfaceKind] at hni h

theorem lookupNamed_mem (g : GState) (n : String) (eid : Nat)
    (h : lookupNamed g n = some eid) : ∃ p ∈ g.named, p.2 = eid := by
  unfold lookupNamed at h
  cases hf : g.named.find? (fun p => p.1 == n) with
  | none => rw [hf] at h; exact Option.noConfusion h
  | some p =>
      rw [hf] at h
      injection h with h
      exact ⟨p, List.mem_of_find?_eq_some hf, h⟩

theorem objAt_lt_of_rt_ptr (g : GState) (oid : Nat) (t : Ty)
    (h : (objAt g oid).reflectType = .tptr t) : oid < g.objs.length := by
  by_contra hc
  rw [objAt_default (by omega)] at h
  exact Ty.noConfusion h

theorem isNilOrZero_of_valOk_vnil (wt : List (Option Layout)) (t : Ty)
    (hv : valOk wt t .vnil = true) :
    ∀ (h : Heap) (w : Val), isNilOrZero h w t = (w == .vnil) := by
  intro h w
  cases t
  · rfl
  · unfold valOk at hv
    exact Bool.noConfusion hv
  · rfl
  · rfl
  · unfold valOk at hv
    exact Bool.noConfusion hv
  · unfold valOk at hv
    exact Bool.noConfusion hv
  · unfold valOk at hv
    exact Bool.noConfusion hv

theorem evo_of_parts {g g' : GState} (hobjs : g'.objs = g.objs)
    (hcells : g'.cells = g.cells) (hun : g'.unnamed = g.unnamed)
    (hn : g'.named = g.named) : Evo g g' := by
  refine ⟨Nat.le_of_eq (by rw [hobjs]), ?_, ⟨[], by rw [hun, List.append_nil]⟩, hn, ?_⟩
  · intro j hj
    rw [objAt_congr hobjs j]
    exact ⟨rfl, rfl, rfl, rfl, rfl⟩
  · intro a i h
    rw [hcells]
    exact h

theorem addDep_objAt_fields (g : GState) (oid : Nat) (fname : String) (eid : Nat)
    (j : Nat) : ∃ fo, objAt (addDep g oid fname eid) j = { objAt g j with fields := fo } := by
  by_cases h : oid = j
  · subst h
    by_cases hl : oid < g.objs.length
    · refine ⟨some (upsert ((objAt g oid).fields.getD []) fname eid), ?_⟩
      have he : objAt (addDep g oid fname eid) oid =
          objAtL (g.objs.set oid { objAt g oid with
            fields := some (upsert ((objAt g oid).fields.getD []) fname eid) }) oid := rfl
      rw [he, objAtL_set_self _ _ _ hl]
    · refine ⟨(objAt g oid).fields, ?_⟩
      have he : objAt (addDep g oid fname eid) oid =
          objAtL (g.objs.set oid { objAt g oid with
            fields := some (upsert ((objAt g oid).fields.getD []) fname eid) }) oid := rfl
      rw [he, List.set_eq_of_length_le (by omega)]
      rfl
  · refine ⟨(objAt g j).fields, ?_⟩
    have he : objAt (addDep g oid fname eid) j =
        objAtL (g.objs.set oid { objAt g oid with
          fields := some (upsert ((objAt g oid).fields.getD []) fname eid) }) j := rfl
    rw [he, objAtL_set_ne _ _ _ _ h]
    rfl

theorem addDep_evo (g : GState) (oid : Nat) (fname : String) (eid : Nat) :
    Evo g (addDep g oid fname eid) := by
  refine ⟨Nat.le_of_eq (addDep_objs_length g oid fname eid).symm, ?_,
    ⟨[], by rw [addDep_unnamed, List.append_nil]⟩, rfl, ?_⟩
  · intro j hj
    obtain ⟨fo, hfo⟩ := addDep_objAt_fields g oid fname eid j
    rw [hfo]
    exact ⟨rfl, rfl, rfl, rfl, rfl⟩
  · intro a i h
    rw [addDep_cells]
    exact h

theorem addDep_hinv (wt : List (Option Layout)) (g : GState) (oid : Nat)
    (fname : String) (eid : Nat) (hin : HInv wt g) :
    HInv wt (addDep g oid fname eid) := by
  obtain ⟨hwf, hobjs, hnamed, hunnamed, htidx⟩ := hin
  refine ⟨?_, ?_, ?_, ?_, ?_⟩
  · rw [addDep_cells]
    exact hwf
  · intro j hj
    rw [addDep_objs_length] at hj
    obtain ⟨fo, hfo⟩ := addDep_objAt_fields g oid fname eid j
    rw [hfo]
    exact hobjs j hj
  · intro p hp
    rw [addDep_objs_length]
    exact hnamed p hp
  · intro o ho
    rw [addDep_objs_length]
    exact hunnamed o (by rwa [addDep_unnamed] at ho)
  · intro idx hidx
    have hidx' : g.typeIndex = some idx := hidx
    have hold := htidx idx hidx'
    intro t eid' hmem
    rw [addDep_unnamed]
    obtain ⟨h1, h2, h3⟩ := hold t eid' hmem
    obtain ⟨fo, hfo⟩ := addDep_objAt_fields g oid fname eid eid'
    rw [← objAt_eq_objAtL, hfo]
    exact ⟨h1, h2, h3⟩

theorem setFromObject_typed (impl : Impl) (wt : List (Option Layout)) (ft : Ty)
    (e : Object) (h : Heap) (hwf : heapWF wt h)
    (he : valOk wt e.reflectType e.value = true)
    (hni : isIfaceKind e.reflectType = false)
    (hassign : assignableTo impl e.reflectType ft = true) :
    ∃ ext, heapWF (wt ++ ext) (setFromObject ft e h).2 ∧
      valOk (wt ++ ext) ft (setFromObject ft e h).1 = true ∧
      ∃ hext, (setFromObject ft e h).2 = h ++ hext := by
  unfold setFromObject
  by_cases hif : isIfaceKind ft = true
  · rw [if_pos hif]
    obtain ⟨n, rfl⟩ := (isIfaceKind_iff ft).mp hif
    refine ⟨[], by simpa using hwf, ?_, [], by simp⟩
    rw [List.append_nil]
    unfold valOk
    rw [Bool.and_eq_true]
    constructor
    · rw [hni]
      rfl
    · exact he
  · rw [if_neg hif]
    by_cases hst : isStructKind ft = true
    · rw [if_pos hst]
      obtain ⟨sn, sf, rfl⟩ := (isStructKind_iff ft).mp hst
      have heq : e.reflectType = .tstruct sn sf :=
        assignableTo_eq_of_not_iface impl _ _ (by simp [isIfaceKind]) hassign
      rw [heq] at he
      obtain ⟨ext, hwf2, hv2⟩ := copyVal_typed (.tstruct sn sf) e.value h wt hwf he
      obtain ⟨hext, hhe⟩ := copyVal_extends (.tstruct sn sf) e.value h
      exact ⟨ext, hwf2, hv2, hext, hhe⟩
    · rw [if_neg hst]
      have hnif : isIfaceKind ft = false := by
        cases hh : isIfaceKind ft
        · rfl
        · exact absurd hh hif
      have heq : e.reflectType = ft := assignableTo_eq_of_not_iface impl _ _ hnif hassign
      rw [heq] at he
      exact ⟨[], by simpa using hwf, by rw [List.append_nil]; exact he, [], by simp⟩

theorem assignReuse_step (impl : Impl) (wt : List (Option Layout)) (g : GState)
    (oid a i : Nat) (fname : String) (ft : Ty) (eid : Nat) (flds : Layout)
    (fi : FieldInfo)
    (hin : HInv wt g)
    (heid : eid < g.objs.length)
    (hassign : assignableTo impl (objAt g eid).reflectType ft = true)
    (hzero : isNilOrZero g.cells (slotAt g.cells a i) ft = true)
    (hwta : (wt.get? a).getD none = some flds)
    (hidx : flds.get? i = some (fi, ft)) :
    ∃ wt', WtExt wt wt' ∧ HInv wt' (assignReuse g oid a i fname ft eid) ∧
      Evo g (assignReuse g oid a i fname ft eid) ∧
      (isIfaceKind ft = true →
        slotAt (assignReuse g oid a i fname ft eid).cells a i ≠ .vnil) := by
  obtain ⟨hwf, hobjs, hnamed, hunnamed, htidx⟩ := hin
  obtain ⟨hv_e, hni_e⟩ := hobjs eid heid
  obtain ⟨ext, hwf2, hv2, hext, hheq⟩ :=
    setFromObject_typed impl wt ft (objAt g eid) g.cells hwf hv_e hni_e hassign
  have hwta' : ((wt ++ ext).get? a).getD none = some flds :=
    getOpt_append_left wt ext a flds hwta
  have hal : a < wt.length := by
    by_contra hc
    rw [List.get?_eq_none.mpr (by omega)] at hwta
    exact Option.noConfusion hwta
  have hlen : wt.length = g.cells.length := hwf.1
  have hil : i < flds.length := by
    by_contra hc
    rw [List.get?_eq_none.mpr (by omega)] at hidx
    exact Option.noConfusion hidx
  have hcl : flds.length ≤ (cellAt g.cells a).length := (hwf.2 a flds hwta).1
  have hwfset : heapWF (wt ++ ext)
      (setSlot (setFromObject ft (objAt g eid) g.cells).2 a i
        (setFromObject ft (objAt g eid) g.cells).1) :=
    heapWF_setSlot (wt ++ ext) _ a i _ flds fi ft hwf2 hwta' hidx hv2
  have hmid : HInv (wt ++ ext) ({ g with
      cells := setSlot (setFromObject ft (objAt g eid) g.cells).2 a i
        (setFromObject ft (objAt g eid) g.cells).1 } : GState) := by
    refine ⟨hwfset, ?_, hnamed, hunnamed, ?_⟩
    · intro j hj
      exact ⟨valOk_mono wt ext _ _ (hobjs j hj).1, (hobjs j hj).2⟩
    · intro idx hidx'
      exact htidx idx hidx'
  have hnn : ∀ b j, slotAt g.cells b j ≠ .vnil →
      slotAt (setSlot (setFromObject ft (objAt g eid) g.cells).2 a i
        (setFromObject ft (objAt g eid) g.cells).1) b j ≠ .vnil := by
    intro b j hbj
    cases slotAt_setSlot_cases (setFromObject ft (objAt g eid) g.cells).2 a i
      (setFromObject ft (objAt g eid) g.cells).1 b j with
    | inl hc =>
        obtain ⟨hb, hj, hc⟩ := hc
        subst hb
        subst hj
        rw [hc]
        intro hv
        rw [hv] at hv2
        have hz := isNilOrZero_of_valOk_vnil (wt ++ ext) ft hv2 g.cells
          (slotAt g.cells b j)
        rw [hz] at hzero
        exact hbj (eq_of_beq hzero)
    | inr hc =>
        rw [hc, hheq]
        exact nonNil_append g.cells hext b j hbj
  refine ⟨wt ++ ext, ⟨ext, rfl⟩, addDep_hinv _ _ oid fname eid hmid, ?_, ?_⟩
  · refine evo_trans ?_ (addDep_evo _ oid fname eid)
    refine ⟨Nat.le_refl _, ?_, ⟨[], by simp⟩, rfl, ?_⟩
    · intro j hj
      exact ⟨rfl, rfl, rfl, rfl, rfl⟩
    · exact hnn
  · intro hif
    obtain ⟨n, rfl⟩ := (isIfaceKind_iff ft).mp hif
    show slotAt (setSlot g.cells a i
      (.viface (objAt g eid).reflectType (objAt g eid).value)) a i ≠ .vnil
    rw [slotAt_setSlot_self g.cells a i _ (by omega) (by omega)]
    intro hcon
    exact Val.noConfusion hcon

theorem objAtL_append_self (l : List Object) (o : Object) :
    objAtL (l ++ [o]) l.length = o := by
  unfold objAtL
  exact get?_getD_append_self l o

theorem idxWF_extend (objs : List Object) (unnamed : List Nat)
    (idx : List (Ty × List Nat)) (o : Object)
    (hbound : ∀ x ∈ unnamed, x < objs.length)
    (hwf : IdxWF objs unnamed idx) (newids : List Nat) :
    IdxWF (objs ++ [o]) (unnamed ++ newids) idx := by
  intro t eid hmem
  obtain ⟨h1, h2, h3⟩ := hwf t eid hmem
  have hlt : eid < objs.length := hbound eid h1
  refine ⟨List.mem_append_left _ h1, ?_, ?_⟩
  · rw [objAtL_append_lt _ _ _ hlt]
    exact h2
  · rw [objAtL_append_lt _ _ _ hlt]
    exact h3

theorem hinv_cells_update (wt : List (Option Layout)) (g : GState) (c : Heap)
    (hin : HInv wt g) (hwfc : heapWF wt c) :
    HInv wt ({ g with cells := c } : GState) := by
  obtain ⟨_, hobjs, hnamed, hunnamed, htidx⟩ := hin
  exact ⟨hwfc, fun j hj => hobjs j hj, fun p hp => hnamed p hp,
    fun o ho => hunnamed o ho, fun idx hidx => htidx idx hidx⟩

theorem evo_cells_setSlot (g : GState) (a i : Nat) (v : Val) (hv : v ≠ .vnil) :
    Evo g ({ g with cells := setSlot g.cells a i v } : GState) := by
  refine ⟨Nat.le_refl _, fun j hj => ⟨rfl, rfl, rfl, rfl, rfl⟩, ⟨[], by simp⟩, rfl, ?_⟩
  intro b j hbj
  exact nonNil_setSlot g.cells a i v hv b j hbj

theorem provide1_step (wt : List (Option Layout)) (g : GState) (o : Object)
    (hin : HInv wt g) (hname : o.name = "")
    (hv : valOk wt o.reflectType o.value = true)
    (hni : isIfaceKind o.reflectType = false) :
    HInv wt (provide1 g o).1 ∧ Evo g (provide1 g o).1 := by
  obtain ⟨hwf, hobjs, hnamed, hunnamed, htidx⟩ := hin
  unfold provide1
  split
  · exact ⟨⟨hwf, hobjs, hnamed, hunnamed, htidx⟩, evo_refl g⟩
  · split
    · exact ⟨⟨hwf, hobjs, hnamed, hunnamed, htidx⟩, evo_refl g⟩
    · split
      · exact ⟨⟨hwf, hobjs, hnamed, hunnamed, htidx⟩, evo_refl g⟩
      · constructor
        · refine ⟨hwf, ?_, ?_, ?_, ?_⟩
          · intro j hj
            have hl2 : j < (g.objs ++ [o]).length := hj
            rw [List.length_append, List.length_singleton] at hl2
            show valOk wt (objAtL (g.objs ++ [o]) j).reflectType
              (objAtL (g.objs ++ [o]) j).value = true ∧
              isIfaceKind (objAtL (g.objs ++ [o]) j).reflectType = false
            by_cases hlt : j < g.objs.length
            · rw [objAtL_append_lt _ _ _ hlt]
              exact hobjs j hlt
            · have hje : j = g.objs.length := by omega
              subst hje
              rw [objAtL_append_self]
              exact ⟨hv, hni⟩
          · intro p hp
            show p.2 < (g.objs ++ [o]).length
            have := hnamed p hp
            rw [List.length_append, List.length_singleton]
            omega
          · intro x hx
            have hx' : x ∈ g.unnamed ++ [g.objs.length] := hx
            show x < (g.objs ++ [o]).length
            rw [List.length_append, List.length_singleton]
            rcases List.mem_append.mp hx' with h | h
            · have := hunnamed x h
              omega
            · rw [List.mem_singleton] at h
              omega
          · intro idx hidx
            have hidx' : g.typeIndex = some idx := hidx
            have hold := htidx idx hidx'
            show IdxWF (g.objs ++ [o]) (g.unnamed ++ [g.objs.length]) idx
            exact idxWF_extend g.objs g.unnamed idx o hunnamed hold [g.objs.length]
        · refine ⟨?_, ?_, ⟨[g.objs.length], rfl⟩, rfl, ?_⟩
          · show g.objs.length ≤ (g.objs ++ [o]).length
            simp
          · intro j hj
            have hL : objAtL (g.objs ++ [o]) j = objAtL g.objs j :=
              objAtL_append_lt _ _ _ hj
            exact ⟨congrArg Object.value hL, congrArg Object.name hL,
              congrArg Object.reflectType hL, congrArg Object.complete hL,
              congrArg Object.priv hL⟩
          · intro a i h
            exact h

theorem ensureIndex_step (wt : List (Option Layout)) (g : GState) (hin : HInv wt g) :
    HInv wt (ensureIndex g).1 ∧ Evo g (ensureIndex g).1 := by
  obtain ⟨hwf, hobjs, hnamed, hunnamed, htidx⟩ := hin
  unfold ensureIndex
  split
  · exact ⟨⟨hwf, hobjs, hnamed, hunnamed, htidx⟩, evo_refl g⟩
  · constructor
    · refine ⟨hwf, hobjs, hnamed, hunnamed, ?_⟩
      intro idx hidx
      have hsome : some (buildTypeIndex g) = some idx := hidx
      injection hsome with hsome
      subst hsome
      show IdxWF g.objs g.unnamed (buildTypeIndex g)
      exact buildTypeIndex_wf g
    · exact evo_of_parts rfl rfl rfl rfl

theorem findExisting_step (impl : Impl) (wt : List (Option Layout)) (g : GState)
    (ft : Ty) (hin : HInv wt g) :
    HInv wt (findExisting impl g ft).1 ∧ Evo g (findExisting impl g ft).1 ∧
    (∀ eid, (findExisting impl g ft).2 = some eid →
      eid < g.objs.length ∧
      assignableTo impl (objAt g eid).reflectType ft = true) := by
  obtain ⟨ho, hc, hu, hut, hn, hti, hsound, _⟩ := findExisting_spec impl g ft hin.2.2.2.2
  refine ⟨?_, evo_of_parts ho hc hu hn, ?_⟩
  · refine ⟨by rw [hc]; exact hin.1, ?_, ?_, ?_, hti⟩
    · intro j hj
      rw [ho] at hj
      rw [objAt_congr ho j]
      exact hin.2.1 j hj
    · intro p hp
      rw [hn] at hp
      rw [ho]
      exact hin.2.2.1 p hp
    · intro x hx
      rw [hu] at hx
      rw [ho]
      exact hin.2.2.2.1 x hx
  · intro eid he
    obtain ⟨hmem, hpriv, hassign⟩ := hsound eid he
    exact ⟨hin.2.2.2.1 eid hmem, hassign⟩

theorem synthNew_step (wt : List (Option Layout)) (g : GState) (oid a i : Nat)
    (fname : String) (sn : String) (sf : Layout) (isPriv : Bool) (flds : Layout)
    (fi : FieldInfo)
    (hin : HInv wt g)
    (hwta : (wt.get? a).getD none = some flds)
    (hidx : flds.get? i = some (fi, .tptr (.tstruct sn sf))) :
    ∃ wt', WtExt wt wt' ∧
      HInv wt' (synthNew g oid a i fname (.tptr (.tstruct sn sf)) isPriv).1 ∧
      Evo g (synthNew g oid a i fname (.tptr (.tstruct sn sf)) isPriv).1 := by
  obtain ⟨e1, hwf1, hlen1, hvals1⟩ := zeroValFields_typed sf g.cells wt hin.1
  obtain ⟨hext, hhe⟩ := zeroValFields_extends sf g.cells
  set h1 : Heap := (zeroValFields sf g.cells).2 with hh1
  set vs : List Val := (zeroValFields sf g.cells).1 with hvs
  set wt2 : List (Option Layout) := (wt ++ e1) ++ [some sf] with hwt2
  have hwt2eq : wt2 = wt ++ (e1 ++ [some sf]) := by rw [hwt2, List.append_assoc]
  set gx : GState := { g with cells := h1 ++ [vs] } with hgx
  set nobj : Object := { value := .vptr h1.length, name := "", complete := false, fields := none, reflectType := .tptr (.tstruct sn sf), priv := isPriv, created := true, embedded := false } with hnobj
  have hwfx : heapWF wt2 (h1 ++ [vs]) := by
    refine heapWF_snoc (wt ++ e1) h1 hwf1 (some sf) vs ?_
    intro fl hfl
    injection hfl with hfl
    subst hfl
    exact ⟨Nat.le_of_eq hlen1.symm,
      fun k fk ftk hk => valOk_mono _ [some sf] _ _ (hvals1 k fk ftk hk)⟩
  have hinx : HInv wt2 gx := by
    refine ⟨hwfx, ?_, hin.2.2.1, hin.2.2.2.1, fun idx hidx' => hin.2.2.2.2 idx hidx'⟩
    rw [hwt2eq]
    intro j hj
    exact objsOk_mono wt (e1 ++ [some sf]) g hin.2.1 j hj
  have hvnobj : valOk wt2 (.tptr (.tstruct sn sf)) (.vptr h1.length) = true := by
    unfold valOk
    rw [decide_eq_true_eq]
    have hl : (wt ++ e1).length = h1.length := hwf1.1
    rw [hwt2, ← hl, List.get?_eq_getElem?, List.getElem?_concat_length]
    rfl
  have hps := provide1_step wt2 gx nobj hinx rfl hvnobj rfl
  have hevo_gx : Evo g gx := by
    refine ⟨Nat.le_refl _, fun j hj => ⟨rfl, rfl, rfl, rfl, rfl⟩, ⟨[], by simp⟩, rfl, ?_⟩
    intro b j hbj
    show slotAt (h1 ++ [vs]) b j ≠ .vnil
    rw [hhe, List.append_assoc]
    exact nonNil_append g.cells (hext ++ [vs]) b j hbj
  have hwta2 : (wt2.get? a).getD none = some flds := by
    rw [hwt2eq]
    exact getOpt_append_left wt (e1 ++ [some sf]) a flds hwta
  have hsyn : synthNew g oid a i fname (.tptr (.tstruct sn sf)) isPriv =
      (match (provide1 gx nobj).2 with
       | some e => ((provide1 gx nobj).1, some (Fail.err e))
       | none => (addDep { (provide1 gx nobj).1 with
           cells := setSlot (provide1 gx nobj).1.cells a i (.vptr h1.length) }
           oid fname g.objs.length, none)) := rfl
  rw [hsyn]
  cases hpr : (provide1 gx nobj).2 with
  | some e =>
      refine ⟨wt2, ⟨e1 ++ [some sf], hwt2eq⟩, hps.1, evo_trans hevo_gx hps.2⟩
  | none =>
      set gy : GState := (provide1 gx nobj).1 with hgy
      have hwfy : heapWF wt2 (setSlot gy.cells a i (.vptr h1.length)) :=
        heapWF_setSlot wt2 gy.cells a i _ flds fi (.tptr (.tstruct sn sf))
          hps.1.1 hwta2 hidx hvnobj
      refine ⟨wt2, ⟨e1 ++ [some sf], hwt2eq⟩, ?_, ?_⟩
      · refine addDep_hinv wt2 _ oid fname g.objs.length ?_
        exact hinv_cells_update wt2 gy _ hps.1 hwfy
      · refine evo_trans hevo_gx (evo_trans hps.2 (evo_trans ?_ (addDep_evo _ oid fname g.objs.length)))
        exact evo_cells_setSlot gy a i (.vptr h1.length) (fun hc => Val.noConfusion hc)

theorem isMapKind_iff (ft : Ty) : isMapKind ft = true ↔ ft = .tmap := by
  cases ft <;> simp [isMapKind]

set_option maxHeartbeats 2000000 in
/-- One phase-1 field step preserves the typing and evolution invariants,
and — when it returns without error — leaves any interface-kind field
that carries a named directive holding a non-nil value. -/
theorem peField_step (impl : Impl) (g : GState) (oid a i : Nat) (fi : FieldInfo)
    (ft : Ty) (wt : List (Option Layout)) (flds : Layout)
    (hin : HInv wt g)
    (hwta : (wt.get? a).getD none = some flds)
    (hidx : flds.get? i = some (fi, ft)) :
    ∃ wt', WtExt wt wt' ∧ HInv wt' (peField impl g oid a i fi ft).1 ∧
      Evo g (peField impl g oid a i fi ft).1 ∧
      ((peField impl g oid a i fi ft).2 = none →
        ∀ tg', parseTag fi.tag = .ok (some tg') → isIfaceKind ft = true →
          tg'.name ≠ "" →
          slotAt (peField impl g oid a i fi ft).1.cells a i ≠ .vnil) := by
  suffices hgen : ∀ (r : GState × Option Fail), peField impl g oid a i fi ft = r →
      ∃ wt', WtExt wt wt' ∧ HInv wt' r.1 ∧ Evo g r.1 ∧
        (r.2 = none → ∀ tg', parseTag fi.tag = .ok (some tg') →
          isIfaceKind ft = true → tg'.name ≠ "" → slotAt r.1.cells a i ≠ .vnil) by
    exact hgen (peField impl g oid a i fi ft) rfl
  intro r hr
  unfold peField at hr
  cases hpt : parseTag fi.tag with
  | error e =>
      rw [hpt] at hr
      dsimp only [] at hr
      subst hr
      exact ⟨wt, wtExt_refl wt, hin, evo_refl g, fun hnone => Option.noConfusion hnone⟩
  | ok ot =>
    cases ot with
    | none =>
        rw [hpt] at hr
        dsimp only [] at hr
        subst hr
        refine ⟨wt, wtExt_refl wt, hin, evo_refl g, ?_⟩
        intro _ tg' hpt' _ _
        injection hpt' with h2
        exact Option.noConfusion h2
    | some tg =>
      rw [hpt] at hr
      split at hr
      · rename_i e2 heq2
        exact Except.noConfusion heq2
      · rename_i heq2
        injection heq2 with h2
        exact Option.noConfusion h2
      · rename_i tg2 heq2
        injection heq2 with h2
        injection h2 with h3
        subst h3
        split at hr
        · subst hr
          exact ⟨wt, wtExt_refl wt, hin, evo_refl g, fun hnone => Option.noConfusion hnone⟩
        · split at hr
          · subst hr
            exact ⟨wt, wtExt_refl wt, hin, evo_refl g,
              fun hnone => Option.noConfusion hnone⟩
          · split at hr
            · rename_i hnz
              subst hr
              refine ⟨wt, wtExt_refl wt, hin, evo_refl g, ?_⟩
              intro _ tg' hpt' hif hn
              obtain ⟨n, hft⟩ := (isIfaceKind_iff ft).mp hif
              subst hft
              intro hslot
              apply hnz
              show (slotAt g.cells a i == Val.vnil) = true
              rw [hslot]
              rfl
            · rename_i hnz
              split at hr
              · rename_i hnm
                split at hr
                · subst hr
                  exact ⟨wt, wtExt_refl wt, hin, evo_refl g,
                    fun hnone => Option.noConfusion hnone⟩
                · rename_i eid hlook
                  split at hr
                  · subst hr
                    exact ⟨wt, wtExt_refl wt, hin, evo_refl g,
                      fun hnone => Option.noConfusion hnone⟩
                  · rename_i hnassign
                    subst hr
                    have hassign : assignableTo impl (objAt g eid).reflectType ft = true :=
                      not_not.mp hnassign
                    have heid : eid < g.objs.length := by
                      obtain ⟨p, hp, hpe⟩ := lookupNamed_mem g tg.name eid hlook
                      rw [← hpe]
                      exact hin.2.2.1 p hp
                    have hzero : isNilOrZero g.cells (slotAt g.cells a i) ft = true :=
                      not_not.mp hnz
                    obtain ⟨wt', hext', hinv', hevo', hslot'⟩ :=
                      assignReuse_step impl wt g oid a i fi.name ft eid flds fi hin
                        heid hassign hzero hwta hidx
                    refine ⟨wt', hext', hinv', hevo', ?_⟩
                    intro _ tg' hpt' hif hn
                    exact hslot' hif
              · rename_i hnm
                have hnm' : tg.name = "" := not_ne_iff.mp hnm
                have hsafe : ∀ (s : GState × Option Fail), s.2 = none →
                    ∀ tg', (Except.ok (some tg) : Except Unit (Option Tag)) = .ok (some tg') →
                      isIfaceKind ft = true →
                      tg'.name ≠ "" → slotAt s.1.cells a i ≠ .vnil := by
                  intro s _ tg' hpt' _ hn
                  injection hpt' with h2
                  injection h2 with h3
                  rw [← h3] at hn
                  exact absurd hnm' hn
                split at hr
                · rename_i hstruct
                  split at hr
                  · subst hr
                    exact ⟨wt, wtExt_refl wt, hin, evo_refl g,
                      fun hnone => Option.noConfusion hnone⟩
                  · rename_i hpriv
                    split at hr
                    · subst hr
                      exact ⟨wt, wtExt_refl wt, hin, evo_refl g,
                        fun hnone => Option.noConfusion hnone⟩
                    · rename_i hninl
                      split at hr
                      · rename_i sub hslot
                        dsimp only [] at hr
                        obtain ⟨sn2, sf2, hft⟩ := (isStructKind_iff ft).mp hstruct
                        subst hft
                        have hvslot : valOk wt (.tstruct sn2 sf2)
                            (slotAt g.cells a i) = true :=
                          (hin.1.2 a flds hwta).2 i fi _ hidx
                        rw [hslot] at hvslot
                        have hwsub : (wt.get? sub).getD none = some sf2 := by
                          unfold valOk at hvslot
                          exact of_decide_eq_true hvslot
                        have hvchild : valOk wt (.tptr (.tstruct sn2 sf2))
                            (.vptr sub) = true := by
                          unfold valOk
                          exact decide_eq_true hwsub
                        split at hr
                        · rename_i g' hpc
                          subst hr
                          have hps := provide1_step wt g
                            { value := .vptr sub, name := "", complete := false,
                              fields := none, reflectType := .tptr (.tstruct sn2 sf2),
                              priv := true, created := false,
                              embedded := fi.anonymous } hin rfl hvchild rfl
                          rw [hpc] at hps
                          exact ⟨wt, wtExt_refl wt, hps.1, hps.2, hsafe _⟩
                        · rename_i g' e hpc
                          subst hr
                          have hps := provide1_step wt g
                            { value := .vptr sub, name := "", complete := false,
                              fields := none, reflectType := .tptr (.tstruct sn2 sf2),
                              priv := true, created := false,
                              embedded := fi.anonymous } hin rfl hvchild rfl
                          rw [hpc] at hps
                          exact ⟨wt, wtExt_refl wt, hps.1, hps.2,
                            fun hnone => Option.noConfusion hnone⟩
                      · subst hr
                        exact ⟨wt, wtExt_refl wt, hin, evo_refl g, hsafe _⟩
                · rename_i hstruct
                  split at hr
                  · subst hr
                    exact ⟨wt, wtExt_refl wt, hin, evo_refl g, hsafe _⟩
                  · rename_i hiface
                    split at hr
                    · rename_i hmap
                      split at hr
                      · subst hr
                        exact ⟨wt, wtExt_refl wt, hin, evo_refl g,
                          fun hnone => Option.noConfusion hnone⟩
                      · rename_i hprivF
                        subst hr
                        have hfteq : ft = .tmap := (isMapKind_iff ft).mp hmap
                        subst hfteq
                        refine ⟨wt, wtExt_refl wt, ?_, ?_, hsafe _⟩
                        · exact hinv_cells_update wt g _ hin
                            (heapWF_setSlot wt g.cells a i .vmap flds fi .tmap
                              hin.1 hwta hidx rfl)
                        · exact evo_cells_setSlot g a i .vmap
                            (fun hc => Val.noConfusion hc)
                    · rename_i hmap
                      split at hr
                      · subst hr
                        exact ⟨wt, wtExt_refl wt, hin, evo_refl g,
                          fun hnone => Option.noConfusion hnone⟩
                      · rename_i hsp
                        have hsp' : isStructPtr ft = true := not_not.mp hsp
                        obtain ⟨sn2, sf2, hft⟩ := (isStructPtr_iff ft).mp hsp'
                        subst hft
                        split at hr
                        · rename_i hnp
                          split at hr
                          · rename_i g' eid hfe
                            subst hr
                            obtain ⟨ho, hc, hu, hut, hn2, hti, hsound, _⟩ :=
                              findExisting_spec impl g (.tptr (.tstruct sn2 sf2))
                                hin.2.2.2.2
                            rw [hfe] at ho hc hu
                            obtain ⟨hinv1, hevo1, _⟩ :=
                              findExisting_step impl wt g (.tptr (.tstruct sn2 sf2)) hin
                            rw [hfe] at hinv1 hevo1
                            have ho' : g'.objs = g.objs := ho
                            have hc' : g'.cells = g.cells := hc
                            have hinv1' : HInv wt g' := hinv1
                            have hevo1' : Evo g g' := hevo1
                            obtain ⟨hmem, hpriv2, hassign⟩ := hsound eid (by rw [hfe])
                            have heid : eid < g'.objs.length := by
                              rw [ho']
                              exact hin.2.2.2.1 eid hmem
                            have hassign' : assignableTo impl (objAt g' eid).reflectType
                                (.tptr (.tstruct sn2 sf2)) = true := by
                              rw [objAt_congr ho' eid]
                              exact hassign
                            have hzero' : isNilOrZero g'.cells (slotAt g'.cells a i)
                                (.tptr (.tstruct sn2 sf2)) = true := by
                              rw [hc']
                              exact not_not.mp hnz
                            obtain ⟨wt', hext', hinv', hevo', _⟩ :=
                              assignReuse_step impl wt g' oid a i fi.name
                                (.tptr (.tstruct sn2 sf2)) eid flds fi hinv1' heid
                                hassign' hzero' hwta hidx
                            exact ⟨wt', hext', hinv', evo_trans hevo1' hevo', hsafe _⟩
                          · rename_i g' hfe
                            subst hr
                            obtain ⟨hinv1, hevo1, _⟩ :=
                              findExisting_step impl wt g (.tptr (.tstruct sn2 sf2)) hin
                            rw [hfe] at hinv1 hevo1
                            have hinv1' : HInv wt g' := hinv1
                            have hevo1' : Evo g g' := hevo1
                            obtain ⟨wt', hext', hinv', hevo'⟩ :=
                              synthNew_step wt g' oid a i fi.name sn2 sf2 tg.priv
                                flds fi hinv1' hwta hidx
                            refine ⟨wt', hext', hinv', evo_trans hevo1' hevo', ?_⟩
                            intro hnone
                            exact hsafe _ hnone
                        · rename_i hnp
                          subst hr
                          obtain ⟨wt', hext', hinv', hevo'⟩ :=
                            synthNew_step wt g oid a i fi.name sn2 sf2 tg.priv
                              flds fi hin hwta hidx
                          refine ⟨wt', hext', hinv', hevo', ?_⟩
                          intro hnone
                          exact hsafe _ hnone

theorem safeFields_mono (g g' : GState) (hevo : Evo g g') (a : Nat) :
    ∀ (i : Nat) (flds : Layout), SafeFields g a i flds → SafeFields g' a i flds := by
  intro i flds
  induction flds generalizing i with
  | nil => intro _; exact trivial
  | cons p rest ih =>
      cases p with
      | mk fi ft =>
        intro h
        exact ⟨fun tg' h1 h2 h3 => hevo.2.2.2.2 a i (h.1 tg' h1 h2 h3), ih (i + 1) h.2⟩

theorem puiSafe_lt (g : GState) (oid : Nat) (h : PuiSafe g oid) :
    oid < g.objs.length := by
  by_contra hc
  unfold PuiSafe at h
  rw [objAt_default (by omega)] at h
  cases h with
  | inl h => exact h.1 rfl
  | inr h =>
      obtain ⟨sn, flds, a, hrt, _, _⟩ := h
      exact Ty.noConfusion hrt

theorem puiSafe_mono (g g' : GState) (hevo : Evo g g') (oid : Nat)
    (h : PuiSafe g oid) : PuiSafe g' oid := by
  have hlt := puiSafe_lt g oid h
  obtain ⟨hv, hn, hrt, hcpl, hpv⟩ := hevo.2.1 oid hlt
  cases h with
  | inl h => exact .inl ⟨by rw [hn]; exact h.1, by rw [hrt]; exact h.2⟩
  | inr h =>
      obtain ⟨sn, flds, a, h1, h2, h3⟩ := h
      exact .inr ⟨sn, flds, a, by rw [hrt]; exact h1, by rw [hv]; exact h2,
        safeFields_mono g g' hevo a 0 flds h3⟩

theorem evo_complete (g g' : GState) (hevo : Evo g g') (oid : Nat)
    (hlt : oid < g.objs.length) :
    (objAt g' oid).complete = (objAt g oid).complete :=
  (hevo.2.1 oid hlt).2.2.2.1

theorem peLoop_step (impl : Impl) (oid a : Nat) (wt : List (Option Layout))
    (flds : Layout) :
    ∀ (fsub : Layout) (i0 : Nat) (g : GState) (wtc : List (Option Layout)),
      HInv wtc g → WtExt wt wtc →
      ((wtc.get? a).getD none = some flds) →
      (∀ k p, fsub.get? k = some p → flds.get? (i0 + k) = some p) →
      ∃ wt', WtExt wt wt' ∧ HInv wt' (peLoop impl oid a g i0 fsub).1 ∧
        Evo g (peLoop impl oid a g i0 fsub).1 ∧
        ((peLoop impl oid a g i0 fsub).2 = none →
          SafeFields (peLoop impl oid a g i0 fsub).1 a i0 fsub) := by
  intro fsub
  induction fsub with
  | nil =>
      intro i0 g wtc hin hext hwta hcompat
      exact ⟨wtc, hext, hin, evo_refl g, fun _ => trivial⟩
  | cons p rest ih =>
      intro i0 g wtc hin hext hwta hcompat
      cases p with
      | mk fi' ft' =>
        have hidx0 : flds.get? i0 = some (fi', ft') := by
          have := hcompat 0 (fi', ft') rfl
          rwa [Nat.add_zero] at this
        obtain ⟨wt1, hext1, hinv1, hevo1, hsafe1⟩ :=
          peField_step impl g oid a i0 fi' ft' wtc flds hin hwta hidx0
        unfold peLoop
        cases hpe : peField impl g oid a i0 fi' ft' with
        | mk g' res =>
          rw [hpe] at hinv1 hevo1 hsafe1
          cases res with
          | none =>
              have hwta1 : (wt1.get? a).getD none = some flds := by
                obtain ⟨e1, he1⟩ := hext1
                rw [he1]
                exact getOpt_append_left wtc e1 a flds hwta
              have hcompat1 : ∀ k p, rest.get? k = some p →
                  flds.get? ((i0 + 1) + k) = some p := by
                intro k p hk
                rw [show (i0 + 1) + k = i0 + (k + 1) from by omega]
                exact hcompat (k + 1) p hk
              obtain ⟨wt', hext', hinv', hevo', hsafe'⟩ :=
                ih (i0 + 1) g' wt1 hinv1 (wtExt_trans hext hext1) hwta1 hcompat1
              refine ⟨wt', hext', hinv', evo_trans hevo1 hevo', ?_⟩
              intro hnone
              refine ⟨?_, hsafe' hnone⟩
              intro tg' h1 h2 h3
              exact hevo'.2.2.2.2 a i0 (hsafe1 rfl tg' h1 h2 h3)
          | some f =>
              exact ⟨wt1, wtExt_trans hext hext1, hinv1, hevo1,
                fun hnone => Option.noConfusion hnone⟩

theorem populateExplicit_step (impl : Impl) (wt : List (Option Layout)) (g : GState)
    (oid : Nat) (hin : HInv wt g) :
    ∃ wt', WtExt wt wt' ∧ HInv wt' (populateExplicit impl g oid).1 ∧
      Evo g (populateExplicit impl g oid).1 ∧
      ((populateExplicit impl g oid).2 = none →
        PuiSafe (populateExplicit impl g oid).1 oid) := by
  unfold populateExplicit
  dsimp only []
  split
  · rename_i hskip
    refine ⟨wt, wtExt_refl wt, hin, evo_refl g, fun _ => .inl ⟨hskip.1, ?_⟩⟩
    cases hb : isStructPtr (objAt g oid).reflectType
    · rfl
    · exact absurd hb hskip.2
  · rename_i hskip
    split
    · rename_i sn flds a heqrt heqv
      have hlt : oid < g.objs.length := objAt_lt_of_rt_ptr g oid _ heqrt
      have hval := (hin.2.1 oid hlt).1
      rw [heqrt, heqv] at hval
      have hwta : (wt.get? a).getD none = some flds := by
        unfold valOk at hval
        exact of_decide_eq_true hval
      obtain ⟨wt', hext', hinv', hevo', hsafe'⟩ :=
        peLoop_step impl oid a wt flds flds 0 g wt hin (wtExt_refl wt) hwta
          (fun k p hk => by rwa [Nat.zero_add])
      refine ⟨wt', hext', hinv', hevo', ?_⟩
      intro hnone
      refine .inr ⟨sn, flds, a, ?_, ?_, hsafe' hnone⟩
      · rw [(hevo'.2.1 oid hlt).2.2.1]
        exact heqrt
      · rw [(hevo'.2.1 oid hlt).1]
        exact heqv
    · exact ⟨wt, wtExt_refl wt, hin, evo_refl g, fun hnone => Option.noConfusion hnone⟩

theorem phase1Named_step (impl : Impl) (wt0 : List (Option Layout)) :
    ∀ (l : List Nat) (g : GState) (wt : List (Option Layout)),
      HInv wt g → WtExt wt0 wt →
      ∃ wt', WtExt wt0 wt' ∧ HInv wt' (phase1Named impl g l).1 ∧
        Evo g (phase1Named impl g l).1 ∧
        ((phase1Named impl g l).2 = none →
          ∀ oid ∈ l, (objAt (phase1Named impl g l).1 oid).complete = false →
            PuiSafe (phase1Named impl g l).1 oid) := by
  intro l
  induction l with
  | nil =>
      intro g wt hin hext
      exact ⟨wt, hext, hin, evo_refl g,
        fun _ oid hmem _ => absurd hmem (List.not_mem_nil oid)⟩
  | cons oid rest ih =>
      intro g wt hin hext
      unfold phase1Named
      split
      · rename_i hcpl
        obtain ⟨wt', hext', hinv', hevo', hsafe'⟩ := ih g wt hin hext
        refine ⟨wt', hext', hinv', hevo', ?_⟩
        intro hnone oid' hmem hc
        rcases List.mem_cons.mp hmem with rfl | hmem'
        · have hlt : oid' < g.objs.length := by
            by_contra hcc
            rw [objAt_default (by omega)] at hcpl
            exact Bool.noConfusion hcpl
          rw [evo_complete g _ hevo' oid' hlt, hcpl] at hc
          exact Bool.noConfusion hc
        · exact hsafe' hnone oid' hmem' hc
      · rename_i hcpl
        cases hpe : populateExplicit impl g oid with
        | mk g' res =>
          obtain ⟨wt1, hext1, hinv1, hevo1, hsafe1⟩ :=
            populateExplicit_step impl wt g oid hin
          rw [hpe] at hinv1 hevo1 hsafe1
          cases res with
          | none =>
              obtain ⟨wt', hext', hinv', hevo', hsafe'⟩ :=
                ih g' wt1 hinv1 (wtExt_trans hext hext1)
              refine ⟨wt', hext', hinv', evo_trans hevo1 hevo', ?_⟩
              intro hnone oid' hmem hc
              rcases List.mem_cons.mp hmem with rfl | hmem'
              · exact puiSafe_mono g' _ hevo' oid' (hsafe1 rfl)
              · exact hsafe' hnone oid' hmem' hc
          | some f =>
              exact ⟨wt1, wtExt_trans hext hext1, hinv1, hevo1,
                fun hnone => Option.noConfusion hnone⟩

theorem phase1Worklist_step (impl : Impl) (wt0 : List (Option Layout)) :
    ∀ (fuel : Nat) (g : GState) (i : Nat) (wt : List (Option Layout)),
      HInv wt g → WtExt wt0 wt → i ≤ g.unnamed.length →
      (∀ oid ∈ g.unnamed.take i, (objAt g oid).complete = false → PuiSafe g oid) →
      ∃ wt', WtExt wt0 wt' ∧ HInv wt' (phase1Worklist impl fuel g i).1 ∧
        Evo g (phase1Worklist impl fuel g i).1 ∧
        ((phase1Worklist impl fuel g i).2 = none →
          ∀ oid ∈ (phase1Worklist impl fuel g i).1.unnamed,
            (objAt (phase1Worklist impl fuel g i).1 oid).complete = false →
            PuiSafe (phase1Worklist impl fuel g i).1 oid) := by
  intro fuel
  induction fuel with
  | zero =>
      intro g i wt hin hext hile hpre
      unfold phase1Worklist
      split
      · rename_i hieq
        refine ⟨wt, hext, hin, evo_refl g, ?_⟩
        intro _ oid hmem hc
        apply hpre oid _ hc
        rw [hieq, List.take_length]
        exact hmem
      · exact ⟨wt, hext, hin, evo_refl g, fun hnone => Option.noConfusion hnone⟩
  | succ n ihf =>
      intro g i wt hin hext hile hpre
      unfold phase1Worklist
      split
      · rename_i hieq
        refine ⟨wt, hext, hin, evo_refl g, ?_⟩
        intro _ oid hmem hc
        apply hpre oid _ hc
        rw [hieq, List.take_length]
        exact hmem
      · rename_i hine
        have hilt : i < g.unnamed.length := by omega
        dsimp only []
        split
        · rename_i hcpl
          have hpre' : ∀ oid ∈ g.unnamed.take (i + 1),
              (objAt g oid).complete = false → PuiSafe g oid := by
            intro x hx hcx
            rw [List.take_succ] at hx
            rcases List.mem_append.mp hx with hx1 | hx2
            · exact hpre x hx1 hcx
            · have hxe : x = g.unnamed.getD i 0 := by
                cases hg : g.unnamed[i]? with
                | none =>
                    rw [hg] at hx2
                    exact absurd hx2 (List.not_mem_nil x)
                | some y =>
                    rw [hg] at hx2
                    rw [List.mem_singleton.mp hx2]
                    rw [List.getD_eq_getElem?_getD, hg]
                    rfl
              rw [hxe, hcpl] at hcx
              exact Bool.noConfusion hcx
          exact ihf g (i + 1) wt hin hext (by omega) hpre'
        · rename_i hcpl
          cases hpe : populateExplicit impl g (g.unnamed.getD i 0) with
          | mk g' res =>
            obtain ⟨wt1, hext1, hinv1, hevo1, hsafe1⟩ :=
              populateExplicit_step impl wt g (g.unnamed.getD i 0) hin
            rw [hpe] at hinv1 hevo1 hsafe1
            cases res with
            | none =>
                obtain ⟨uext, huext⟩ := hevo1.2.2.1
                have hile' : i + 1 ≤ g'.unnamed.length := by
                  rw [huext, List.length_append]
                  omega
                have hpre' : ∀ x ∈ g'.unnamed.take (i + 1),
                    (objAt g' x).complete = false → PuiSafe g' x := by
                  intro x hx hcx
                  rw [huext, List.take_append_of_le_length (by omega)] at hx
                  rw [List.take_succ] at hx
                  rcases List.mem_append.mp hx with hx1 | hx2
                  · have hxl : x < g.objs.length := by
                      apply hin.2.2.2.1
                      exact List.mem_of_mem_take hx1
                    have hcgx : (objAt g x).complete = false := by
                      rw [← evo_complete g g' hevo1 x hxl]
                      exact hcx
                    exact puiSafe_mono g g' hevo1 x (hpre x hx1 hcgx)
                  · have hxe : x = g.unnamed.getD i 0 := by
                      cases hg : g.unnamed[i]? with
                      | none =>
                          rw [hg] at hx2
                          exact absurd hx2 (List.not_mem_nil x)
                      | some y =>
                          rw [hg] at hx2
                          rw [List.mem_singleton.mp hx2]
                          rw [List.getD_eq_getElem?_getD, hg]
                          rfl
                    rw [hxe]
                    exact hsafe1 rfl
                obtain ⟨wt', hext', hinv', hevo', hsafe'⟩ :=
                  ihf g' (i + 1) wt1 hinv1 (wtExt_trans hext hext1) hile' hpre'
                exact ⟨wt', hext', hinv', evo_trans hevo1 hevo', hsafe'⟩
            | some f =>
                exact ⟨wt1, wtExt_trans hext hext1, hinv1, hevo1,
                  fun hnone => Option.noConfusion hnone⟩

theorem phase1_step (impl : Impl) (wt : List (Option Layout)) (fuel : Nat)
    (g : GState) (hin : HInv wt g) :
    ∃ wt', WtExt wt wt' ∧ HInv wt' (phase1 impl fuel g).1 ∧
      Evo g (phase1 impl fuel g).1 ∧
      ((phase1 impl fuel g).2 = none →
        (∀ oid ∈ (phase1 impl fuel g).1.unnamed,
          (objAt (phase1 impl fuel g).1 oid).complete = false →
          PuiSafe (phase1 impl fuel g).1 oid) ∧
        (∀ oid ∈ g.named.map (·.2),
          (objAt (phase1 impl fuel g).1 oid).complete = false →
          PuiSafe (phase1 impl fuel g).1 oid)) := by
  unfold phase1
  cases hpn : phase1Named impl g (g.named.map (·.2)) with
  | mk g1 res =>
    obtain ⟨wt1, hext1, hinv1, hevo1, hsafe1⟩ :=
      phase1Named_step impl wt (g.named.map (·.2)) g wt hin (wtExt_refl wt)
    rw [hpn] at hinv1 hevo1 hsafe1
    cases res with
    | none =>
        obtain ⟨wt', hext', hinv', hevo', hsafe'⟩ :=
          phase1Worklist_step impl wt fuel g1 0 wt1 hinv1 hext1 (by omega)
            (fun oid hmem _ => absurd hmem (by simp))
        refine ⟨wt', hext', hinv', evo_trans hevo1 hevo', ?_⟩
        intro hnone
        refine ⟨hsafe' hnone, ?_⟩
        intro oid hmem hc
        have hmem1 : ∃ p ∈ g.named, p.2 = oid := by
          rcases List.mem_map.mp hmem with ⟨p, hp, hpe⟩
          exact ⟨p, hp, hpe⟩
        obtain ⟨p, hp, hpe⟩ := hmem1
        have hoid1 : oid < g1.objs.length := by
          rw [← hpe]
          apply hinv1.2.2.1
          rw [hevo1.2.2.2.1]
          exact hp
        have hc1 : (objAt g1 oid).complete = false := by
          rw [← evo_complete g1 _ hevo' oid hoid1]
          exact hc
        exact puiSafe_mono g1 _ hevo' oid (hsafe1 rfl oid hmem hc1)
    | some f =>
        exact ⟨wt1, hext1, hinv1, hevo1, fun hnone => Option.noConfusion hnone⟩

theorem ifaceScan_step (impl : Impl) (oid a i : Nat) (fname : String) (ft : Ty) :
    ∀ (l : List Nat) (g : GState) (found : Option Nat),
      Evo g (ifaceScan impl oid a i fname ft g found l).1 ∧
      (ifaceScan impl oid a i fname ft g found l).2 ≠ some .panicked := by
  intro l
  induction l with
  | nil =>
      intro g found
      unfold ifaceScan
      cases found with
      | none =>
          refine ⟨evo_refl g, ?_⟩
          intro hc
          injection hc with hc
          exact Fail.noConfusion hc
      | some fid => exact ⟨evo_refl g, fun hc => Option.noConfusion hc⟩
  | cons eid rest ih =>
      intro g found
      unfold ifaceScan
      dsimp only []
      split
      · exact ih g found
      · split
        · split
          · refine ⟨evo_refl g, ?_⟩
            intro hc
            injection hc with hc
            exact Fail.noConfusion hc
          · have hevo2 : Evo g (addDep { g with cells := setSlot g.cells a i (.viface (objAt g eid).reflectType (objAt g eid).value) } oid fname eid) :=
              evo_trans
                (evo_cells_setSlot g a i _ (fun hc => Val.noConfusion hc))
                (addDep_evo _ oid fname eid)
            obtain ⟨he, hp⟩ := ih _ (some eid)
            exact ⟨evo_trans hevo2 he, hp⟩
        · exact ih g found

theorem puiField_step (impl : Impl) (g : GState) (oid a i : Nat) (fi : FieldInfo)
    (ft : Ty)
    (hsafe : ∀ tg', parseTag fi.tag = .ok (some tg') → isIfaceKind ft = true →
      tg'.name ≠ "" → slotAt g.cells a i ≠ .vnil) :
    Evo g (puiField impl g oid a i fi ft).1 ∧
    (puiField impl g oid a i fi ft).2 ≠ some .panicked := by
  unfold puiField
  cases hpt : parseTag fi.tag with
  | error e =>
      refine ⟨evo_refl g, ?_⟩
      intro hc
      injection hc with hc
      exact Fail.noConfusion hc
  | ok ot =>
    cases ot with
    | none => exact ⟨evo_refl g, fun hc => Option.noConfusion hc⟩
    | some tg =>
      dsimp only []
      split
      · exact ⟨evo_refl g, fun hc => Option.noConfusion hc⟩
      · rename_i hiface
        split
        · refine ⟨evo_refl g, ?_⟩
          intro hc
          injection hc with hc
          exact Fail.noConfusion hc
        · rename_i hpriv
          split
          · exact ⟨evo_refl g, fun hc => Option.noConfusion hc⟩
          · rename_i hnz
            split
            · rename_i hname
              exfalso
              have hif : isIfaceKind ft = true := by
                cases hb : isIfaceKind ft
                · exact absurd (by rw [hb]; exact fun hcc => Bool.noConfusion hcc) hiface
                · rfl
              have hz : isNilOrZero g.cells (slotAt g.cells a i) ft = true :=
                not_not.mp hnz
              obtain ⟨n, hft⟩ := (isIfaceKind_iff ft).mp hif
              subst hft
              have hveq : slotAt g.cells a i = .vnil := by
                have hz' : (slotAt g.cells a i == Val.vnil) = true := hz
                exact eq_of_beq hz'
              exact hsafe tg hpt hif hname hveq
            · exact ifaceScan_step impl oid a i fi.name ft g.unnamed g none

theorem puiLoop_step (impl : Impl) (oid a : Nat) :
    ∀ (fsub : Layout) (i0 : Nat) (g : GState),
      SafeFields g a i0 fsub →
      Evo g (puiLoop impl oid a g i0 fsub).1 ∧
      (puiLoop impl oid a g i0 fsub).2 ≠ some .panicked := by
  intro fsub
  induction fsub with
  | nil =>
      intro i0 g _
      unfold puiLoop
      exact ⟨evo_refl g, fun hc => Option.noConfusion hc⟩
  | cons p rest ih =>
      intro i0 g hsf
      cases p with
      | mk fi ft =>
        unfold puiLoop
        obtain ⟨hpf_evo, hpf_np⟩ := puiField_step impl g oid a i0 fi ft hsf.1
        cases hpe : puiField impl g oid a i0 fi ft with
        | mk g' res =>
          rw [hpe] at hpf_evo hpf_np
          cases res with
          | none =>
              obtain ⟨he, hp⟩ :=
                ih (i0 + 1) g' (safeFields_mono g g' hpf_evo a (i0 + 1) rest hsf.2)
              exact ⟨evo_trans hpf_evo he, hp⟩
          | some f => exact ⟨hpf_evo, hpf_np⟩

theorem populateUnnamedInterface_step (impl : Impl) (g : GState) (oid : Nat)
    (hps : PuiSafe g oid) :
    Evo g (populateUnnamedInterface impl g oid).1 ∧
    (populateUnnamedInterface impl g oid).2 ≠ some .panicked := by
  unfold populateUnnamedInterface
  dsimp only []
  split
  · exact ⟨evo_refl g, fun hc => Option.noConfusion hc⟩
  · rename_i hnskip
    cases hps with
    | inl h =>
        exfalso
        apply hnskip
        refine ⟨h.1, ?_⟩
        rw [h.2]
        exact fun hcc => Bool.noConfusion hcc
    | inr h =>
        obtain ⟨sn, flds, a, hrt, hv, hsf⟩ := h
        split
        · rename_i sn2 flds2 a2 heqrt heqv
          have h1 : Ty.tptr (.tstruct sn flds) = .tptr (.tstruct sn2 flds2) :=
            hrt.symm.trans heqrt
          injection h1 with h1
          injection h1 with h1n h1f
          have h2 : Val.vptr a = .vptr a2 := hv.symm.trans heqv
          injection h2 with h2
          subst h1f
          subst h2
          exact puiLoop_step impl oid a flds 0 g hsf
        · rename_i hnomatch
          exact (hnomatch sn flds a hrt hv).elim

theorem phase2Unnamed_step (impl : Impl) :
    ∀ (l : List Nat) (g : GState),
      (∀ oid ∈ l, (objAt g oid).complete = false → PuiSafe g oid) →
      Evo g (phase2Unnamed impl g l).1 ∧
      (phase2Unnamed impl g l).2 ≠ some .panicked := by
  intro l
  induction l with
  | nil =>
      intro g _
      unfold phase2Unnamed
      exact ⟨evo_refl g, fun hc => Option.noConfusion hc⟩
  | cons oid rest ih =>
      intro g hpre
      unfold phase2Unnamed
      split
      · exact ih g (fun x hx hc => hpre x (List.mem_cons_of_mem _ hx) hc)
      · rename_i hcpl
        have hc0 : (objAt g oid).complete = false := by
          cases h : (objAt g oid).complete
          · rfl
          · exact absurd h hcpl
        have hps := hpre oid (List.mem_cons_self _ _) hc0
        obtain ⟨hevo1, hnp1⟩ := populateUnnamedInterface_step impl g oid hps
        cases hpe : populateUnnamedInterface impl g oid with
        | mk g' res =>
          rw [hpe] at hevo1 hnp1
          cases res with
          | none =>
              have hpre' : ∀ x ∈ rest, (objAt g' x).complete = false →
                  PuiSafe g' x := by
                intro x hx hcx
                by_cases hxl : x < g.objs.length
                · have hcgx : (objAt g x).complete = false := by
                    rw [← evo_complete g g' hevo1 x hxl]
                    exact hcx
                  exact puiSafe_mono g g' hevo1 x
                    (hpre x (List.mem_cons_of_mem _ hx) hcgx)
                · have hdef : (objAt g x).complete = false := by
                    rw [objAt_default (by omega)]
                    rfl
                  have hps' := hpre x (List.mem_cons_of_mem _ hx) hdef
                  exact absurd (puiSafe_lt g x hps') hxl
              obtain ⟨he, hp⟩ := ih g' hpre'
              exact ⟨evo_trans hevo1 he, hp⟩
          | some f => exact ⟨hevo1, hnp1⟩

theorem phase2Named_step (impl : Impl) :
    ∀ (l : List Nat) (g : GState),
      (∀ oid ∈ l, (objAt g oid).complete = false → PuiSafe g oid) →
      Evo g (phase2Named impl g l).1 ∧
      (phase2Named impl g l).2 ≠ some .panicked := by
  intro l
  induction l with
  | nil =>
      intro g _
      unfold phase2Named
      exact ⟨evo_refl g, fun hc => Option.noConfusion hc⟩
  | cons oid rest ih =>
      intro g hpre
      unfold phase2Named
      split
      · exact ih g (fun x hx hc => hpre x (List.mem_cons_of_mem _ hx) hc)
      · rename_i hcpl
        have hc0 : (objAt g oid).complete = false := by
          cases h : (objAt g oid).complete
          · rfl
          · exact absurd h hcpl
        have hps := hpre oid (List.mem_cons_self _ _) hc0
        obtain ⟨hevo1, hnp1⟩ := populateUnnamedInterface_step impl g oid hps
        cases hpe : populateUnnamedInterface impl g oid with
        | mk g' res =>
          rw [hpe] at hevo1 hnp1
          cases res with
          | none =>
              have hpre' : ∀ x ∈ rest, (objAt g' x).complete = false →
                  PuiSafe g' x := by
                intro x hx hcx
                by_cases hxl : x < g.objs.length
                · have hcgx : (objAt g x).complete = false := by
                    rw [← evo_complete g g' hevo1 x hxl]
                    exact hcx
                  exact puiSafe_mono g g' hevo1 x
                    (hpre x (List.mem_cons_of_mem _ hx) hcgx)
                · have hdef : (objAt g x).complete = false := by
                    rw [objAt_default (by omega)]
                    rfl
                  have hps' := hpre x (List.mem_cons_of_mem _ hx) hdef
                  exact absurd (puiSafe_lt g x hps') hxl
              obtain ⟨he, hp⟩ := ih g' hpre'
              exact ⟨evo_trans hevo1 he, hp⟩
          | some f => exact ⟨hevo1, hnp1⟩

theorem phase2_step (impl : Impl) (g : GState)
    (hpreU : ∀ oid ∈ g.unnamed, (objAt g oid).complete = false → PuiSafe g oid)
    (hpreN : ∀ oid ∈ g.named.map (·.2), (objAt g oid).complete = false →
      PuiSafe g oid) :
    (phase2 impl g).2 ≠ some .panicked := by
  unfold phase2
  cases hp2 : phase2Unnamed impl g g.unnamed with
  | mk g1 res =>
    obtain ⟨hevo1, hnp1⟩ := phase2Unnamed_step impl g.unnamed g hpreU
    rw [hp2] at hevo1 hnp1
    cases res with
    | none =>
        have hpreN' : ∀ oid ∈ g1.named.map (·.2),
            (objAt g1 oid).complete = false → PuiSafe g1 oid := by
          intro x hx hcx
          rw [hevo1.2.2.2.1] at hx
          by_cases hxl : x < g.objs.length
          · have hcgx : (objAt g x).complete = false := by
              rw [← evo_complete g g1 hevo1 x hxl]
              exact hcx
            exact puiSafe_mono g g1 hevo1 x (hpreN x hx hcgx)
          · have hdef : (objAt g x).complete = false := by
              rw [objAt_default (by omega)]
              rfl
            have hps' := hpreN x hx hdef
            exact absurd (puiSafe_lt g x hps') hxl
        exact (phase2Named_step impl (g1.named.map (·.2)) g1 hpreN').2
    | some f => exact hnp1

/-- C9: on any well-formed graph (a graph of real reflected Go values:
values shaped by their types, pointers and inline struct references
targeting correctly laid out storage, registries pointing into the object
store), if phase 1 completes without error then phase 2 cannot panic —
in particular the programming-error branch for a named directive on an
interface field is unreachable, because phase 1 already handled every
such field (assigning it or finding it non-zero) and no later step ever
writes nil back over a non-nil field. -/
theorem phase1_ok_phase2_no_panic (impl : Impl) (fuel : Nat) (g g1 : GState)
    (wt : List (Option Layout)) (hin : HInv wt g)
    (h1 : phase1 impl fuel g = (g1, none)) :
    (phase2 impl g1).2 ≠ some .panicked := by
  obtain ⟨wt', hext', hinv', hevo', hsafe⟩ := phase1_step impl wt fuel g hin
  rw [h1] at hinv' hevo' hsafe
  obtain ⟨hU, hN⟩ := hsafe rfl
  apply phase2_step impl g1 hU
  intro oid hmem hc
  apply hN oid _ hc
  rw [← hevo'.2.2.2.1]
  exact hmem

theorem phase1_ok_phase2_no_panic_witness :
    phase1 implD 2 gI = (gI, none) ∧ (phase2 implD gI).2 ≠ some Fail.panicked := by
  refine ⟨rfl, phase1_ok_phase2_no_panic implD 2 gI gI wtI ?_ rfl⟩
  refine ⟨⟨rfl, ?_⟩, ?_, ?_, ?_, ?_⟩
  · intro a flds h
    match a with
    | 0 =>
        injection h with h
        subst h
        refine ⟨Nat.le_refl 0, ?_⟩
        intro i fi ft hi
        cases i <;> exact Option.noConfusion hi
    | 1 =>
        injection h with h
        subst h
        refine ⟨Nat.le_refl 1, ?_⟩
        intro i fi ft hi
        match i with
        | 0 =>
            injection hi with hi
            rw [show ft = tyI from (congrArg Prod.snd hi).symm]
            rfl
        | n + 1 => exact Option.noConfusion hi
    | n + 2 => exact Option.noConfusion h
  · intro j hj
    match j with
    | 0 => exact ⟨rfl, rfl⟩
    | 1 => exact ⟨rfl, rfl⟩
    | n + 2 => exact absurd hj (by intro hcc; simp [gI] at hcc)
  · intro p hp
    exact absurd hp (List.not_mem_nil p)
  · intro o ho
    have ho' : o ∈ [0, 1] := ho
    rcases List.mem_cons.mp ho' with rfl | ho2
    · decide
    · rw [List.mem_singleton.mp ho2]
      decide
  · intro idx hidx
    exact Option.noConfusion hidx

end Gontainer
